import Mathlib

/-!
# Cakelisp code-generation helpers: a shallow embedding of `GeneratorHelpers.cpp`

The token vector is a `List Token`; an `int` that addresses the vector is a `Nat`
(a negative index is an out-of-bounds read in the source), and the `-1` sentinel
of `getArgument` is kept by giving that function an `Int` result.  A read of
`tokens[i]` outside the vector is a fault (`Fault.outOfBounds`), loops that can
jump forward carry fuel, and running out of it is the separate fault
`Fault.outOfFuel`, which the theorems below show is never reached.
-/

namespace Cakelisp

/-! ## Data model -/

/-- Token kinds of the tokenizer (`TokenType_*`). -/
inductive TokenType where
  | OpenParen
  | CloseParen
  | Symbol
  | String
  deriving DecidableEq, Repr

/-- A token: its kind and its text (source-location fields carry no behaviour here). -/
structure Token where
  type : TokenType
  contents : String
  deriving DecidableEq, Repr

/-- What can go wrong outside the program's own `false` results. -/
inductive Fault where
  | outOfBounds
  | outOfFuel
  deriving DecidableEq, Repr

instance instDecidableEqExcept {ε α : Type} [DecidableEq ε] [DecidableEq α] :
    DecidableEq (Except ε α)
  | .ok a, .ok b => if h : a = b then isTrue (by rw [h]) else isFalse (by intro e; cases e; exact h rfl)
  | .error a, .error b =>
    if h : a = b then isTrue (by rw [h]) else isFalse (by intro e; cases e; exact h rfl)
  | .ok _, .error _ => isFalse (by intro e; cases e)
  | .error _, .ok _ => isFalse (by intro e; cases e)

/-- Modelled from the spec: the `StringOutputModifierFlags` enum is declared in a
header that is not part of the sources at hand; its members are bit flags that are
OR-ed together, so each named flag is a distinct single bit and `None` is zero. -/
abbrev StringOutputModifierFlags := Nat

def StringOutMod_None : StringOutputModifierFlags := 0
def StringOutMod_SpaceAfter : StringOutputModifierFlags := 1
def StringOutMod_SpaceBefore : StringOutputModifierFlags := 2
def StringOutMod_ConvertTypeName : StringOutputModifierFlags := 4
def StringOutMod_ConvertVariableName : StringOutputModifierFlags := 8
def StringOutMod_ListSeparator : StringOutputModifierFlags := 16
def StringOutMod_OpenBlock : StringOutputModifierFlags := 32
def StringOutMod_CloseBlock : StringOutputModifierFlags := 64
def StringOutMod_OpenParen : StringOutputModifierFlags := 128
def StringOutMod_CloseParen : StringOutputModifierFlags := 256
def StringOutMod_OpenList : StringOutputModifierFlags := 512
def StringOutMod_CloseList : StringOutputModifierFlags := 1024
def StringOutMod_EndStatement : StringOutputModifierFlags := 2048
def StringOutMod_Splice : StringOutputModifierFlags := 4096

/-- An emission record (`StringOutput`): text, modifier flags, and the blamed token
`startToken`, a pointer into the token vector kept as the index it points at.  The
`spliceOutput` pointer is null in every record the functions below build. -/
structure StringOutput where
  output : String
  modifiers : StringOutputModifierFlags
  startToken : Nat
  deriving DecidableEq, Repr

/-- The read `tokens[i]`. -/
def tokenAt (tokens : List Token) (i : Nat) : Except Fault Token :=
  match tokens[i]? with
  | some t => .ok t
  | none => .error Fault.outOfBounds

/-- The C++ expression `contents[0]`: the first character, or the terminating
null character of an empty `std::string`. -/
def firstChar (contents : String) : Char :=
  contents.data.headD (Char.ofNat 0)

/-! ## Emission helpers -/

/-- Source `addModifierToStringOutput`: OR a flag into a record. -/
def addModifierToStringOutput (operation : StringOutput) (flag : StringOutputModifierFlags) :
    StringOutput :=
  { operation with modifiers := operation.modifiers ||| flag }

/-- Source `addStringOutput`: append a text record. -/
def addStringOutput (output : List StringOutput) (symbol : String)
    (modifiers : StringOutputModifierFlags) (startToken : Nat) : List StringOutput :=
  output ++ [{ output := symbol, modifiers := modifiers, startToken := startToken }]

/-- Source `addLangTokenOutput`: append a record without text. -/
def addLangTokenOutput (output : List StringOutput) (modifiers : StringOutputModifierFlags)
    (startToken : Nat) : List StringOutput :=
  output ++ [{ output := "", modifiers := modifiers, startToken := startToken }]

/-! ## Token-tree navigation -/

/-- The scanning loop of `FindCloseParenTokenIndex`: `rest` holds `tokens[i..]`,
`depth` is the running depth before `tokens[i]` is looked at. -/
def FindCloseParenTokenIndex.loop (numTokens : Nat) : List Token → Nat → Int → Nat
  | [], _, _ => numTokens
  | token :: rest, i, depth =>
    let depth1 :=
      if token.type = TokenType.OpenParen then depth + 1
      else if token.type = TokenType.CloseParen then depth - 1
      else depth
    if depth1 = 0 then i else FindCloseParenTokenIndex.loop numTokens rest (i + 1) depth1

/-- Source `FindCloseParenTokenIndex`.  The first statement reads
`tokens[startTokenIndex]` (only to warn), then the loop runs from `startTokenIndex`
to the end of the vector. -/
def FindCloseParenTokenIndex (tokens : List Token) (startTokenIndex : Nat) : Except Fault Nat := do
  let _ ← tokenAt tokens startTokenIndex
  pure (FindCloseParenTokenIndex.loop tokens.length (tokens.drop startTokenIndex) startTokenIndex 0)

/-- Source `isSpecialSymbol`. -/
def isSpecialSymbol (token : Token) : Bool :=
  if token.type = TokenType.Symbol then
    decide (token.contents.length > 1) &&
      (firstChar token.contents == ':' || firstChar token.contents == '&' ||
        firstChar token.contents == Char.ofNat 39)
  else
    true

/-- The loop of `getArgument`, started at `i = startTokenIndex + 1` with
`currentArgumentIndex = 0`. -/
def getArgument.loop (tokens : List Token) (desiredArgumentIndex : Int) (endTokenIndex : Nat) :
    Nat → Nat → Int → Except Fault Int
  | 0, _, _ => .error Fault.outOfFuel
  | fuel + 1, i, currentArgumentIndex =>
    if i < endTokenIndex then
      if currentArgumentIndex = desiredArgumentIndex then pure (i : Int)
      else do
        let token ← tokenAt tokens i
        let i1 ← (if token.type = TokenType.OpenParen then FindCloseParenTokenIndex tokens i
                  else pure i)
        getArgument.loop tokens desiredArgumentIndex endTokenIndex fuel (i1 + 1)
          (currentArgumentIndex + 1)
    else pure (-1)

/-- Source `getArgument`.  Every iteration moves `i` forward, so
`endTokenIndex - startTokenIndex + 1` rounds of fuel are enough. -/
def getArgument (tokens : List Token) (startTokenIndex : Nat) (desiredArgumentIndex : Int)
    (endTokenIndex : Nat) : Except Fault Int :=
  getArgument.loop tokens desiredArgumentIndex endTokenIndex
    (endTokenIndex - startTokenIndex + 1) (startTokenIndex + 1) 0

/-- Source `getExpectedArgument`: as `getArgument`; on `-1` it reports at
`tokens[endTokenIndex]`, which has to be readable. -/
def getExpectedArgument (tokens : List Token) (startTokenIndex : Nat)
    (desiredArgumentIndex : Int) (endTokenIndex : Nat) : Except Fault Int := do
  let argumentIndex ← getArgument tokens startTokenIndex desiredArgumentIndex endTokenIndex
  if argumentIndex = -1 then
    let _ ← tokenAt tokens endTokenIndex
    pure argumentIndex
  else pure argumentIndex

/-- The loop of `getNumArguments`. -/
def getNumArguments.loop (tokens : List Token) (endTokenIndex : Nat) :
    Nat → Nat → Int → Except Fault Int
  | 0, _, _ => .error Fault.outOfFuel
  | fuel + 1, i, currentArgumentIndex =>
    if i < endTokenIndex then do
      let token ← tokenAt tokens i
      let i1 ← (if token.type = TokenType.OpenParen then FindCloseParenTokenIndex tokens i
                else pure i)
      getNumArguments.loop tokens endTokenIndex fuel (i1 + 1) (currentArgumentIndex + 1)
    else pure currentArgumentIndex

/-- Source `getNumArguments`. -/
def getNumArguments (tokens : List Token) (startTokenIndex : Nat) (endTokenIndex : Nat) :
    Except Fault Int :=
  getNumArguments.loop tokens endTokenIndex (endTokenIndex - startTokenIndex + 1)
    (startTokenIndex + 1) 0

/-- Source `ExpectNumArguments`; the error is reported at `tokens[startTokenIndex]`. -/
def ExpectNumArguments (tokens : List Token) (startTokenIndex : Nat) (endTokenIndex : Nat)
    (numExpectedArguments : Int) : Except Fault Bool := do
  let numArguments ← getNumArguments tokens startTokenIndex endTokenIndex
  if numArguments ≠ numExpectedArguments then
    let _ ← tokenAt tokens startTokenIndex
    pure false
  else pure true

/-- Source `isLastArgument`. -/
def isLastArgument (tokens : List Token) (startTokenIndex : Nat) (endTokenIndex : Nat) :
    Except Fault Bool := do
  let token ← tokenAt tokens startTokenIndex
  if token.type = TokenType.OpenParen then
    let close ← FindCloseParenTokenIndex tokens startTokenIndex
    if close + 1 < endTokenIndex then pure false else pure true
  else if token.type = TokenType.Symbol ∧ startTokenIndex + 1 < endTokenIndex then pure false
  else pure true

/-- Source `getNextArgument`. -/
def getNextArgument (tokens : List Token) (currentTokenIndex : Nat) (_endArrayTokenIndex : Nat) :
    Except Fault Nat := do
  let token ← tokenAt tokens currentTokenIndex
  if token.type = TokenType.OpenParen then
    let close ← FindCloseParenTokenIndex tokens currentTokenIndex
    pure (close + 1)
  else pure (currentTokenIndex + 1)

/-- Source `ExpectTokenType` (the diagnostic is reported at the token itself). -/
def ExpectTokenType (token : Token) (expectedType : TokenType) : Bool :=
  decide (token.type = expectedType)

/-! ## Type-specifier lowering -/

/-- What a call of `tokenizedCTypeToString_Recursive` leaves behind: the boolean it
returns, the two buffers it was given by reference, and the token handed to
`ErrorAtToken` when it reported a diagnostic. -/
structure TypeLowering where
  success : Bool
  typeOutput : List StringOutput
  afterNameOutput : List StringOutput
  errorToken : Option Nat
  deriving DecidableEq, Repr

/-- The template-parameter loop of the `<>` form, from `startTemplateParameter`;
`recurse` is the recursive call of the lowering. -/
def tokenizedCTypeToString_Recursive.templateLoop
    (recurse : Nat → Bool → List StringOutput → List StringOutput → Except Fault TypeLowering)
    (tokens : List Token) (endTokenIndex : Nat) :
    Nat → Nat → List StringOutput → List StringOutput → Except Fault TypeLowering
  | 0, _, _, _ => .error Fault.outOfFuel
  | fuel + 1, startTemplateParameter, typeOutput, afterNameOutput =>
    if startTemplateParameter < endTokenIndex then do
      let r ← recurse startTemplateParameter false typeOutput afterNameOutput
      if r.success = false then pure r
      else do
        let last ← isLastArgument tokens startTemplateParameter endTokenIndex
        let typeOutput1 :=
          if last = false then
            addLangTokenOutput r.typeOutput StringOutMod_ListSeparator startTemplateParameter
          else r.typeOutput
        let token ← tokenAt tokens startTemplateParameter
        let next ← (if token.type = TokenType.OpenParen then
                      FindCloseParenTokenIndex tokens startTemplateParameter
                    else pure startTemplateParameter)
        tokenizedCTypeToString_Recursive.templateLoop recurse tokens endTokenIndex fuel
          (next + 1) typeOutput1 r.afterNameOutput
    else pure ⟨true, typeOutput, afterNameOutput, none⟩

/-- The scope-component loop of the `in` form, from `startScopeIndex`. -/
def tokenizedCTypeToString_Recursive.scopeLoop
    (recurse : Nat → Bool → List StringOutput → List StringOutput → Except Fault TypeLowering)
    (tokens : List Token) (endTokenIndex : Nat) :
    Nat → Nat → List StringOutput → List StringOutput → Except Fault TypeLowering
  | 0, _, _, _ => .error Fault.outOfFuel
  | fuel + 1, startScopeIndex, typeOutput, afterNameOutput =>
    if startScopeIndex < endTokenIndex then do
      let r ← recurse startScopeIndex false typeOutput afterNameOutput
      if r.success = false then pure r
      else do
        let last ← isLastArgument tokens startScopeIndex endTokenIndex
        let typeOutput1 :=
          if last = false then
            addStringOutput r.typeOutput "::" StringOutMod_None startScopeIndex
          else r.typeOutput
        let next ← getNextArgument tokens startScopeIndex endTokenIndex
        tokenizedCTypeToString_Recursive.scopeLoop recurse tokens endTokenIndex fuel
          next typeOutput1 r.afterNameOutput
    else pure ⟨true, typeOutput, afterNameOutput, none⟩

/-- The `const` branch (source lines 657-672); `endTokenIndex` is the result of
`FindCloseParenTokenIndex` at `startTokenIndex`, the head token is at
`startTokenIndex + 1`. -/
def tokenizedCTypeToString_Recursive.constBranch
    (recurse : Nat → Bool → List StringOutput → List StringOutput → Except Fault TypeLowering)
    (tokens : List Token) (startTokenIndex endTokenIndex : Nat) (allowArray : Bool)
    (typeOutput afterNameOutput : List StringOutput) : Except Fault TypeLowering := do
  let arityOk ← ExpectNumArguments tokens startTokenIndex endTokenIndex 2
  if arityOk = false then
    pure ⟨false, typeOutput, afterNameOutput, some startTokenIndex⟩
  else do
    let typeOutput1 :=
      addStringOutput typeOutput "const" StringOutMod_SpaceAfter (startTokenIndex + 1)
    let typeIndex ← getExpectedArgument tokens startTokenIndex 1 endTokenIndex
    if typeIndex = -1 then
      pure ⟨false, typeOutput1, afterNameOutput, some endTokenIndex⟩
    else recurse typeIndex.toNat allowArray typeOutput1 afterNameOutput

/-- The `*` / `&` branch (source lines 673-691) and the `&&` / `rval-ref-to` branch
(lines 692-708): the two differ only in the text appended after the inner type,
`typeInvocation.contents` for the first and `"&&"` for the second, passed as
`suffixText`. -/
def tokenizedCTypeToString_Recursive.suffixBranch
    (recurse : Nat → Bool → List StringOutput → List StringOutput → Except Fault TypeLowering)
    (tokens : List Token) (startTokenIndex endTokenIndex : Nat) (suffixText : String)
    (allowArray : Bool) (typeOutput afterNameOutput : List StringOutput) :
    Except Fault TypeLowering := do
  let arityOk ← ExpectNumArguments tokens startTokenIndex endTokenIndex 2
  if arityOk = false then
    pure ⟨false, typeOutput, afterNameOutput, some startTokenIndex⟩
  else do
    let typeIndex ← getExpectedArgument tokens startTokenIndex 1 endTokenIndex
    if typeIndex = -1 then
      pure ⟨false, typeOutput, afterNameOutput, some endTokenIndex⟩
    else do
      let r ← recurse typeIndex.toNat allowArray typeOutput afterNameOutput
      if r.success = false then pure r
      else
        pure ⟨true, addStringOutput r.typeOutput suffixText StringOutMod_None
          (startTokenIndex + 1), r.afterNameOutput, none⟩

/-- The `<>` branch (source lines 709-743). -/
def tokenizedCTypeToString_Recursive.templateBranch
    (recurse : Nat → Bool → List StringOutput → List StringOutput → Except Fault TypeLowering)
    (tokens : List Token) (startTokenIndex endTokenIndex : Nat) (allowArray : Bool)
    (typeOutput afterNameOutput : List StringOutput) : Except Fault TypeLowering := do
  let typeIndex ← getExpectedArgument tokens startTokenIndex 1 endTokenIndex
  if typeIndex = -1 then
    pure ⟨false, typeOutput, afterNameOutput, some endTokenIndex⟩
  else do
    let r ← recurse typeIndex.toNat allowArray typeOutput afterNameOutput
    if r.success = false then pure r
    else do
      let typeOutput1 :=
        addStringOutput r.typeOutput "<" StringOutMod_None (startTokenIndex + 1)
      let r2 ← tokenizedCTypeToString_Recursive.templateLoop recurse tokens endTokenIndex
        (endTokenIndex - typeIndex.toNat + 1) (typeIndex.toNat + 1) typeOutput1
        r.afterNameOutput
      if r2.success = false then pure r2
      else
        pure ⟨true, addStringOutput r2.typeOutput ">" StringOutMod_None
          (startTokenIndex + 1), r2.afterNameOutput, none⟩

/-- The `[]` branch (source lines 744-784). -/
def tokenizedCTypeToString_Recursive.arrayBranch
    (recurse : Nat → Bool → List StringOutput → List StringOutput → Except Fault TypeLowering)
    (tokens : List Token) (startTokenIndex endTokenIndex : Nat) (allowArray : Bool)
    (typeOutput afterNameOutput : List StringOutput) : Except Fault TypeLowering :=
  if allowArray = false then
    pure ⟨false, typeOutput, afterNameOutput, some startTokenIndex⟩
  else do
    let firstArgIndex ← getExpectedArgument tokens startTokenIndex 1 endTokenIndex
    if firstArgIndex = -1 then
      pure ⟨false, typeOutput, afterNameOutput, some endTokenIndex⟩
    else do
      let firstArg ← tokenAt tokens firstArgIndex.toNat
      let arraySizeIsFirstArgument : Bool :=
        decide (firstArg.type = TokenType.Symbol) && (firstChar firstArg.contents).isDigit
      if arraySizeIsFirstArgument = true then do
        let typeIndex ← getExpectedArgument tokens startTokenIndex 2 endTokenIndex
        if typeIndex = -1 then
          pure ⟨false, typeOutput, afterNameOutput, some endTokenIndex⟩
        else
          recurse typeIndex.toNat true typeOutput
            (addStringOutput
              (addStringOutput
                (addStringOutput afterNameOutput "[" StringOutMod_None (startTokenIndex + 1))
                firstArg.contents StringOutMod_None firstArgIndex.toNat)
              "]" StringOutMod_None (startTokenIndex + 1))
      else
        recurse firstArgIndex.toNat true typeOutput
          (addStringOutput afterNameOutput "[]" StringOutMod_None (startTokenIndex + 1))

/-- The `in` branch (source lines 786-807). -/
def tokenizedCTypeToString_Recursive.scopeBranch
    (recurse : Nat → Bool → List StringOutput → List StringOutput → Except Fault TypeLowering)
    (tokens : List Token) (startTokenIndex endTokenIndex : Nat)
    (typeOutput afterNameOutput : List StringOutput) : Except Fault TypeLowering := do
  let firstScopeIndex ← getExpectedArgument tokens startTokenIndex 1 endTokenIndex
  if firstScopeIndex = -1 then
    pure ⟨false, typeOutput, afterNameOutput, some endTokenIndex⟩
  else do
    let r ← tokenizedCTypeToString_Recursive.scopeLoop recurse tokens endTokenIndex
      (endTokenIndex - firstScopeIndex.toNat + 1) firstScopeIndex.toNat typeOutput
      afterNameOutput
    if r.success = false then pure r
    else pure ⟨true, r.typeOutput, r.afterNameOutput, none⟩

/-- The dispatch on the head symbol of a parenthesised form (the `if` / `else if`
chain of source lines 657-813). -/
def tokenizedCTypeToString_Recursive.formBranch
    (recurse : Nat → Bool → List StringOutput → List StringOutput → Except Fault TypeLowering)
    (tokens : List Token) (startTokenIndex endTokenIndex : Nat) (typeInvocation : Token)
    (allowArray : Bool) (typeOutput afterNameOutput : List StringOutput) :
    Except Fault TypeLowering :=
  if typeInvocation.contents = "const" then
    tokenizedCTypeToString_Recursive.constBranch recurse tokens startTokenIndex endTokenIndex
      allowArray typeOutput afterNameOutput
  else if typeInvocation.contents = "*" ∨ typeInvocation.contents = "&" then
    tokenizedCTypeToString_Recursive.suffixBranch recurse tokens startTokenIndex endTokenIndex
      typeInvocation.contents allowArray typeOutput afterNameOutput
  else if typeInvocation.contents = "&&" ∨ typeInvocation.contents = "rval-ref-to" then
    tokenizedCTypeToString_Recursive.suffixBranch recurse tokens startTokenIndex endTokenIndex
      "&&" allowArray typeOutput afterNameOutput
  else if typeInvocation.contents = "<>" then
    tokenizedCTypeToString_Recursive.templateBranch recurse tokens startTokenIndex endTokenIndex
      allowArray typeOutput afterNameOutput
  else if typeInvocation.contents = "[]" then
    tokenizedCTypeToString_Recursive.arrayBranch recurse tokens startTokenIndex endTokenIndex
      allowArray typeOutput afterNameOutput
  else if typeInvocation.contents = "in" then
    tokenizedCTypeToString_Recursive.scopeBranch recurse tokens startTokenIndex endTokenIndex
      typeOutput afterNameOutput
  else
    pure ⟨false, typeOutput, afterNameOutput, some (startTokenIndex + 1)⟩

/-- The body of `tokenizedCTypeToString_Recursive`, with the recursive call as the
parameter `recurse`.  The two buffers are two values, so the guard against being
handed one buffer twice has nothing to reject. -/
def tokenizedCTypeToString_Recursive.body
    (recurse : Nat → Bool → List StringOutput → List StringOutput → Except Fault TypeLowering)
    (tokens : List Token) (startTokenIndex : Nat) (allowArray : Bool)
    (typeOutput afterNameOutput : List StringOutput) : Except Fault TypeLowering := do
  let startToken ← tokenAt tokens startTokenIndex
  if startToken.type = TokenType.Symbol then
    if isSpecialSymbol startToken = true then
      pure ⟨false, typeOutput, afterNameOutput, some startTokenIndex⟩
    else
      pure ⟨true, addStringOutput typeOutput startToken.contents StringOutMod_ConvertTypeName
        startTokenIndex, afterNameOutput, none⟩
  else do
    let typeInvocation ← tokenAt tokens (startTokenIndex + 1)
    if ExpectTokenType typeInvocation TokenType.Symbol = false then
      pure ⟨false, typeOutput, afterNameOutput, some (startTokenIndex + 1)⟩
    else do
      let endTokenIndex ← FindCloseParenTokenIndex tokens startTokenIndex
      tokenizedCTypeToString_Recursive.formBranch recurse tokens startTokenIndex endTokenIndex
        typeInvocation allowArray typeOutput afterNameOutput

/-- The recursion of `tokenizedCTypeToString_Recursive`, unrolled `fuel` levels deep. -/
def tokenizedCTypeToString_Recursive.run :
    Nat → List Token → Nat → Bool → List StringOutput → List StringOutput →
      Except Fault TypeLowering
  | 0, _, _, _, _, _ => .error Fault.outOfFuel
  | fuel + 1, tokens, startTokenIndex, allowArray, typeOutput, afterNameOutput =>
    tokenizedCTypeToString_Recursive.body
      (fun i a t f => tokenizedCTypeToString_Recursive.run fuel tokens i a t f)
      tokens startTokenIndex allowArray typeOutput afterNameOutput

/-- Source `tokenizedCTypeToString_Recursive`.  Every recursive call is made at a
larger token index, so `tokens.length - startTokenIndex + 1` levels are enough. -/
def tokenizedCTypeToString_Recursive (tokens : List Token) (startTokenIndex : Nat)
    (allowArray : Bool) (typeOutput afterNameOutput : List StringOutput) :
    Except Fault TypeLowering :=
  tokenizedCTypeToString_Recursive.run (tokens.length - startTokenIndex + 1) tokens
    startTokenIndex allowArray typeOutput afterNameOutput

/-! ## Function signatures -/

/-- Source `ExpectInInvocation`: `false` when `indexToCheck` is at or past the end of
the invocation; the error is reported at `tokens[endInvocationIndex]`. -/
def ExpectInInvocation (tokens : List Token) (indexToCheck endInvocationIndex : Nat) :
    Except Fault Bool :=
  if indexToCheck ≥ endInvocationIndex then do
    let _ ← tokenAt tokens endInvocationIndex
    pure false
  else pure true

/-- Source `FunctionArgumentTokens`: where the type and the name of one parameter
start.  The value-initialised record `{}` holds zeros. -/
structure FunctionArgumentTokens where
  startTypeIndex : Nat
  nameIndex : Nat
  deriving DecidableEq, Repr

/-- The local `enum DefunState` of `parseFunctionSignature` (`Type` is written
`TypeState`). -/
inductive DefunState where
  | Name
  | TypeState
  | ReturnType
  deriving DecidableEq, Repr

/-- What a call of `parseFunctionSignature` leaves behind: the boolean it returns,
the `arguments` vector and the `returnTypeStart` integer it was given by reference,
and the token handed to `ErrorAtToken` when it reported a diagnostic. -/
structure SignatureParse where
  success : Bool
  arguments : List FunctionArgumentTokens
  returnTypeStart : Int
  errorToken : Option Nat
  deriving DecidableEq, Repr

/-- The loop of `parseFunctionSignature` from index `i`; `continue` and the end of
the loop body both go on at the next index. -/
def parseFunctionSignature.loop (tokens : List Token) (endArgsIndex : Nat) :
    Nat → Nat → DefunState → FunctionArgumentTokens → List FunctionArgumentTokens → Int →
      Except Fault SignatureParse
  | 0, _, _, _, _, _ => .error Fault.outOfFuel
  | fuel + 1, i, state, currentArgument, arguments, returnTypeStart =>
    if i < endArgsIndex then do
      let currentToken ← tokenAt tokens i
      match state with
      | DefunState.ReturnType =>
        pure ⟨true, arguments, (i : Int), none⟩
      | DefunState.Name =>
        if currentToken.type = TokenType.Symbol ∧ currentToken.contents = "&return" then do
          let inside ← ExpectInInvocation tokens (i + 1) endArgsIndex
          if inside = false then
            pure ⟨false, arguments, returnTypeStart, some endArgsIndex⟩
          else
            parseFunctionSignature.loop tokens endArgsIndex fuel (i + 1) DefunState.ReturnType
              currentArgument arguments returnTypeStart
        else if ExpectTokenType currentToken TokenType.Symbol = false then
          pure ⟨false, arguments, returnTypeStart, some i⟩
        else do
          let currentArgument1 := { currentArgument with nameIndex := i }
          let inside ← ExpectInInvocation tokens (i + 1) endArgsIndex
          if inside = false then
            pure ⟨false, arguments, returnTypeStart, some endArgsIndex⟩
          else
            parseFunctionSignature.loop tokens endArgsIndex fuel (i + 1) DefunState.TypeState
              currentArgument1 arguments returnTypeStart
      | DefunState.TypeState =>
        if currentToken.type = TokenType.Symbol ∧ isSpecialSymbol currentToken = true then
          pure ⟨false, arguments, returnTypeStart, some i⟩
        else if currentToken.type ≠ TokenType.OpenParen ∧
            currentToken.type ≠ TokenType.Symbol then
          pure ⟨false, arguments, returnTypeStart, some i⟩
        else do
          let currentArgument1 := { currentArgument with startTypeIndex := i }
          let arguments1 := arguments ++ [currentArgument1]
          let i1 ← (if currentToken.type = TokenType.OpenParen then
                      FindCloseParenTokenIndex tokens i
                    else pure i)
          parseFunctionSignature.loop tokens endArgsIndex fuel (i1 + 1) DefunState.Name
            ⟨0, 0⟩ arguments1 returnTypeStart
    else pure ⟨true, arguments, returnTypeStart, none⟩

/-- Source `parseFunctionSignature`.  Every iteration moves `i` forward, so
`endArgsIndex - argsIndex + 1` rounds of fuel are enough. -/
def parseFunctionSignature (tokens : List Token) (argsIndex : Nat)
    (arguments : List FunctionArgumentTokens) (returnTypeStart : Int) :
    Except Fault SignatureParse := do
  let endArgsIndex ← FindCloseParenTokenIndex tokens argsIndex
  parseFunctionSignature.loop tokens endArgsIndex (endArgsIndex - argsIndex + 1)
    (argsIndex + 1) DefunState.Name ⟨0, 0⟩ arguments returnTypeStart

/-- Source `GeneratorOutput`: the two ordered buffers. -/
structure GeneratorOutput where
  source : List StringOutput
  header : List StringOutput
  deriving DecidableEq, Repr

/-- What an emitting function leaves behind: the boolean it returns, the
`GeneratorOutput` it was given by reference, and the token handed to `ErrorAtToken`
when it reported a diagnostic. -/
structure Emission where
  success : Bool
  output : GeneratorOutput
  errorToken : Option Nat
  deriving DecidableEq, Repr

/-- The statement `addModifierToStringOutput(typeOutput.back(), flag)`; `back()` of
an empty vector is a read outside the vector. -/
def addModifierToBack (typeOutput : List StringOutput) (flag : StringOutputModifierFlags) :
    Except Fault (List StringOutput) :=
  match typeOutput.getLast? with
  | none => .error Fault.outOfBounds
  | some last => pure (typeOutput.dropLast ++ [addModifierToStringOutput last flag])

/-- Source `outputFunctionReturnType`.  A `returnTypeStart` other than `-1` is read
as an index. -/
def outputFunctionReturnType (tokens : List Token) (output : GeneratorOutput)
    (returnTypeStart : Int) (startInvocationIndex endArgsIndex : Nat)
    (outputSource outputHeader : Bool) : Except Fault Emission :=
  if returnTypeStart = -1 then
    let source1 :=
      if outputSource = true then
        addStringOutput output.source "void" StringOutMod_SpaceAfter startInvocationIndex
      else output.source
    let header1 :=
      if outputHeader = true then
        addStringOutput output.header "void" StringOutMod_SpaceAfter startInvocationIndex
      else output.header
    pure ⟨true, ⟨source1, header1⟩, none⟩
  else if returnTypeStart < 0 then .error Fault.outOfBounds
  else do
    let returnTypeToken ← tokenAt tokens returnTypeStart.toNat
    let returnTypeEndIndex ← (if returnTypeToken.type = TokenType.OpenParen then
                                FindCloseParenTokenIndex tokens returnTypeStart.toNat
                              else pure returnTypeStart.toNat)
    if returnTypeEndIndex + 1 < endArgsIndex then do
      let _ ← tokenAt tokens (returnTypeEndIndex + 1)
      pure ⟨false, output, some (returnTypeEndIndex + 1)⟩
    else do
      let r ← tokenizedCTypeToString_Recursive tokens returnTypeStart.toNat false [] []
      if r.success = false then pure ⟨false, output, r.errorToken⟩
      else
        match r.afterNameOutput with
        | problem :: _ => pure ⟨false, output, some problem.startToken⟩
        | [] => do
          let typeOutput ← addModifierToBack r.typeOutput StringOutMod_SpaceAfter
          let source1 := if outputSource = true then output.source ++ typeOutput
                         else output.source
          let header1 := if outputHeader = true then output.header ++ typeOutput
                         else output.header
          pure ⟨true, ⟨source1, header1⟩, none⟩

/-- The loop of `outputFunctionArguments`: `rest` holds `arguments[i..]`.  The name
token `tokens[arg.nameIndex]` is read only where a buffer is written. -/
def outputFunctionArguments.loop (tokens : List Token) (numFunctionArguments : Nat)
    (outputSource outputHeader : Bool) :
    List FunctionArgumentTokens → Nat → GeneratorOutput → Except Fault Emission
  | [], _, output => pure ⟨true, output, none⟩
  | arg :: rest, i, output => do
    let r ← tokenizedCTypeToString_Recursive tokens arg.startTypeIndex true [] []
    if r.success = false then pure ⟨false, output, r.errorToken⟩
    else do
      let typeOutput ← addModifierToBack r.typeOutput StringOutMod_SpaceAfter
      let source1 := if outputSource = true then output.source ++ typeOutput
                     else output.source
      let header1 := if outputHeader = true then output.header ++ typeOutput
                     else output.header
      let name ← (if outputSource = true ∨ outputHeader = true then
                    (tokenAt tokens arg.nameIndex).map (fun token => token.contents)
                  else pure "")
      let source2 :=
        if outputSource = true then
          addStringOutput source1 name StringOutMod_ConvertVariableName arg.nameIndex
        else source1
      let header2 :=
        if outputHeader = true then
          addStringOutput header1 name StringOutMod_ConvertVariableName arg.nameIndex
        else header1
      let source3 := if outputSource = true then source2 ++ r.afterNameOutput else source2
      let header3 := if outputHeader = true then header2 ++ r.afterNameOutput else header2
      let source4 :=
        if i + 1 < numFunctionArguments ∧ outputSource = true then
          addLangTokenOutput source3 StringOutMod_ListSeparator arg.nameIndex
        else source3
      let header4 :=
        if i + 1 < numFunctionArguments ∧ outputHeader = true then
          addLangTokenOutput header3 StringOutMod_ListSeparator arg.nameIndex
        else header3
      outputFunctionArguments.loop tokens numFunctionArguments outputSource outputHeader rest
        (i + 1) ⟨source4, header4⟩

/-- Source `outputFunctionArguments`. -/
def outputFunctionArguments (tokens : List Token) (output : GeneratorOutput)
    (arguments : List FunctionArgumentTokens) (outputSource outputHeader : Bool) :
    Except Fault Emission :=
  outputFunctionArguments.loop tokens arguments.length outputSource outputHeader arguments 0
    output

/-! ## C statement generation -/

/-- Modelled from the spec: `EvaluatorScope` is declared outside the sources at hand;
the spec gives its three values. -/
inductive EvaluatorScope where
  | Module
  | Body
  | ExpressionsOnly
  deriving DecidableEq, Repr

/-- The `delimiterTemplate` of a context.  In the source it is a `StringOutput` that
belongs to no token (its `startToken` and `spliceOutput` are null), so it is kept as
its text and modifier flags. -/
structure DelimiterTemplate where
  output : String
  modifiers : StringOutputModifierFlags
  deriving DecidableEq, Repr

/-- Source `addModifierToStringOutput`, on a delimiter template. -/
def DelimiterTemplate.addModifier (template : DelimiterTemplate)
    (flag : StringOutputModifierFlags) : DelimiterTemplate :=
  { template with modifiers := template.modifiers ||| flag }

/-- Modelled from the spec: `EvaluatorContext` is declared outside the sources at
hand; the spec gives its three parts (`definitionName` is a pointer to a token, null
when there is no enclosing definition). -/
structure EvaluatorContext where
  scope : EvaluatorScope
  definitionName : Option Token
  delimiterTemplate : DelimiterTemplate
  deriving DecidableEq, Repr

/-- Modelled from the spec: the `CStatementOperationType` enum is declared outside
the sources at hand; these are the kinds of the spec's operation table, which are
the cases of the `switch` in `CStatementOutput`. -/
inductive CStatementOperationType where
  | Keyword
  | KeywordNoSpace
  | Splice
  | SpliceNoSpace
  | OpenParen
  | CloseParen
  | OpenBlock
  | CloseBlock
  | OpenList
  | CloseList
  | SmartEndStatement
  | TypeNoArray
  | Expression
  | ExpressionOptional
  | ExpressionList
  | Body
  deriving DecidableEq, Repr

/-- Modelled from the spec: `CStatementOperation` is declared outside the sources at
hand; `CStatementOutput` reads these three members (the text is a `const char*`;
operations that use it are taken to have one). -/
structure CStatementOperation where
  type : CStatementOperationType
  keywordOrSymbol : String
  argumentIndex : Int
  deriving DecidableEq, Repr

/-- What a call into the evaluator leaves behind: the number of errors it returns,
and the environment and the output it was given by reference. -/
structure Evaluation (Env : Type) where
  numErrors : Int
  environment : Env
  output : GeneratorOutput

/-- The evaluator that `CStatementOutput` calls back into.  `EvaluateGenerate_Recursive`
and `EvaluateGenerateAll_Recursive` are defined outside the sources at hand, so they
are parameters: any two functions of the environment, the context, the tokens, the
start index and the output. -/
structure Evaluator (Env : Type) where
  EvaluateGenerate_Recursive :
    Env → EvaluatorContext → List Token → Nat → GeneratorOutput → Evaluation Env
  EvaluateGenerateAll_Recursive :
    Env → EvaluatorContext → List Token → Nat → GeneratorOutput → Evaluation Env

/-- What a call of `CStatementOutput` leaves behind: the boolean it returns, and the
environment and the output it was given by reference. -/
structure StatementEmission (Env : Type) where
  success : Bool
  environment : Env
  output : GeneratorOutput

/-- The loop of `CStatementOutput` over the operations that are left;
`endTokenIndex` is the result of `FindCloseParenTokenIndex` at `startTokenIndex`, and
every record is blamed on the name token at `startTokenIndex + 1`. -/
def CStatementOutput.loop {Env : Type} (evaluator : Evaluator Env) (context : EvaluatorContext)
    (tokens : List Token) (startTokenIndex endTokenIndex : Nat) :
    List CStatementOperation → Env → GeneratorOutput → Except Fault (StatementEmission Env)
  | [], environment, output => pure ⟨true, environment, output⟩
  | operation :: rest, environment, output =>
    match operation.type with
    | CStatementOperationType.Keyword =>
      CStatementOutput.loop evaluator context tokens startTokenIndex endTokenIndex rest
        environment
        ⟨addStringOutput output.source operation.keywordOrSymbol StringOutMod_SpaceAfter (startTokenIndex + 1),
          output.header⟩
    | CStatementOperationType.KeywordNoSpace =>
      CStatementOutput.loop evaluator context tokens startTokenIndex endTokenIndex rest
        environment
        ⟨addStringOutput output.source operation.keywordOrSymbol StringOutMod_None (startTokenIndex + 1),
          output.header⟩
    | CStatementOperationType.SpliceNoSpace
    | CStatementOperationType.Splice =>
      if operation.argumentIndex < 0 then pure ⟨false, environment, output⟩
      else do
        let startSpliceListIndex ← getExpectedArgument tokens startTokenIndex
          operation.argumentIndex endTokenIndex
        if startSpliceListIndex = -1 then pure ⟨false, environment, output⟩
        else
          let spliceDelimiterTemplate : DelimiterTemplate :=
            ((DelimiterTemplate.mk operation.keywordOrSymbol StringOutMod_None).addModifier
              StringOutMod_SpaceBefore).addModifier StringOutMod_SpaceAfter
          let bodyContext : EvaluatorContext :=
            { context with scope := EvaluatorScope.ExpressionsOnly,
                           delimiterTemplate := spliceDelimiterTemplate }
          let evaluation := evaluator.EvaluateGenerateAll_Recursive environment bodyContext
            tokens startSpliceListIndex.toNat output
          if evaluation.numErrors ≠ 0 then
            pure ⟨false, evaluation.environment, evaluation.output⟩
          else
            CStatementOutput.loop evaluator context tokens startTokenIndex endTokenIndex rest
              evaluation.environment evaluation.output
    | CStatementOperationType.OpenParen =>
      CStatementOutput.loop evaluator context tokens startTokenIndex endTokenIndex rest
        environment
        ⟨addLangTokenOutput output.source StringOutMod_OpenParen (startTokenIndex + 1),
          output.header⟩
    | CStatementOperationType.CloseParen =>
      CStatementOutput.loop evaluator context tokens startTokenIndex endTokenIndex rest
        environment
        ⟨addLangTokenOutput output.source StringOutMod_CloseParen (startTokenIndex + 1),
          output.header⟩
    | CStatementOperationType.OpenBlock =>
      CStatementOutput.loop evaluator context tokens startTokenIndex endTokenIndex rest
        environment
        ⟨addLangTokenOutput output.source StringOutMod_OpenBlock (startTokenIndex + 1),
          output.header⟩
    | CStatementOperationType.CloseBlock =>
      CStatementOutput.loop evaluator context tokens startTokenIndex endTokenIndex rest
        environment
        ⟨addLangTokenOutput output.source StringOutMod_CloseBlock (startTokenIndex + 1),
          output.header⟩
    | CStatementOperationType.OpenList =>
      CStatementOutput.loop evaluator context tokens startTokenIndex endTokenIndex rest
        environment
        ⟨addLangTokenOutput output.source StringOutMod_OpenList (startTokenIndex + 1),
          output.header⟩
    | CStatementOperationType.CloseList =>
      CStatementOutput.loop evaluator context tokens startTokenIndex endTokenIndex rest
        environment
        ⟨addLangTokenOutput output.source StringOutMod_CloseList (startTokenIndex + 1),
          output.header⟩
    | CStatementOperationType.SmartEndStatement =>
      CStatementOutput.loop evaluator context tokens startTokenIndex endTokenIndex rest
        environment
        (if context.scope ≠ EvaluatorScope.ExpressionsOnly then
          ⟨addLangTokenOutput output.source StringOutMod_EndStatement (startTokenIndex + 1),
          output.header⟩
         else output)
    | CStatementOperationType.TypeNoArray =>
      if operation.argumentIndex < 0 then pure ⟨false, environment, output⟩
      else do
        let startTypeIndex ← getExpectedArgument tokens startTokenIndex
          operation.argumentIndex endTokenIndex
        if startTypeIndex = -1 then pure ⟨false, environment, output⟩
        else do
          let r ← tokenizedCTypeToString_Recursive tokens startTypeIndex.toNat false [] []
          if r.success = false then pure ⟨false, environment, output⟩
          else
            CStatementOutput.loop evaluator context tokens startTokenIndex endTokenIndex rest
              environment ⟨output.source ++ r.typeOutput,
          output.header⟩
    | CStatementOperationType.ExpressionOptional =>
      if operation.argumentIndex < 0 then pure ⟨false, environment, output⟩
      else do
        let startExpressionIndex ← getArgument tokens startTokenIndex
          operation.argumentIndex endTokenIndex
        if startExpressionIndex = -1 then
          CStatementOutput.loop evaluator context tokens startTokenIndex endTokenIndex rest
            environment output
        else
          let expressionContext : EvaluatorContext :=
            { context with scope := EvaluatorScope.ExpressionsOnly }
          let evaluation := evaluator.EvaluateGenerate_Recursive environment
            expressionContext tokens startExpressionIndex.toNat output
          if evaluation.numErrors ≠ 0 then
            pure ⟨false, evaluation.environment, evaluation.output⟩
          else
            CStatementOutput.loop evaluator context tokens startTokenIndex endTokenIndex rest
              evaluation.environment evaluation.output
    | CStatementOperationType.Expression =>
      if operation.argumentIndex < 0 then pure ⟨false, environment, output⟩
      else do
        let startExpressionIndex ← getExpectedArgument tokens startTokenIndex
          operation.argumentIndex endTokenIndex
        if startExpressionIndex = -1 then pure ⟨false, environment, output⟩
        else
          let expressionContext : EvaluatorContext :=
            { context with scope := EvaluatorScope.ExpressionsOnly }
          let evaluation := evaluator.EvaluateGenerate_Recursive environment
            expressionContext tokens startExpressionIndex.toNat output
          if evaluation.numErrors ≠ 0 then
            pure ⟨false, evaluation.environment, evaluation.output⟩
          else
            CStatementOutput.loop evaluator context tokens startTokenIndex endTokenIndex rest
              evaluation.environment evaluation.output
    | CStatementOperationType.ExpressionList =>
      if operation.argumentIndex < 0 then pure ⟨false, environment, output⟩
      else do
        let startExpressionIndex ← getArgument tokens startTokenIndex
          operation.argumentIndex endTokenIndex
        if startExpressionIndex = -1 then
          CStatementOutput.loop evaluator context tokens startTokenIndex endTokenIndex rest
            environment output
        else
          let expressionContext : EvaluatorContext :=
            { context with scope := EvaluatorScope.ExpressionsOnly,
                           delimiterTemplate := ⟨"", StringOutMod_ListSeparator⟩ }
          let evaluation := evaluator.EvaluateGenerateAll_Recursive environment
            expressionContext tokens startExpressionIndex.toNat output
          if evaluation.numErrors ≠ 0 then
            pure ⟨false, evaluation.environment, evaluation.output⟩
          else
            CStatementOutput.loop evaluator context tokens startTokenIndex endTokenIndex rest
              evaluation.environment evaluation.output
    | CStatementOperationType.Body =>
      if operation.argumentIndex < 0 then pure ⟨false, environment, output⟩
      else do
        let startBodyIndex ← getExpectedArgument tokens startTokenIndex
          operation.argumentIndex endTokenIndex
        if startBodyIndex = -1 then pure ⟨false, environment, output⟩
        else
          let bodyContext : EvaluatorContext :=
            { context with scope := EvaluatorScope.Body,
                           delimiterTemplate := ⟨"", StringOutMod_None⟩ }
          let evaluation := evaluator.EvaluateGenerateAll_Recursive environment bodyContext
            tokens startBodyIndex.toNat output
          if evaluation.numErrors ≠ 0 then
            pure ⟨false, evaluation.environment, evaluation.output⟩
          else
            CStatementOutput.loop evaluator context tokens startTokenIndex endTokenIndex rest
              evaluation.environment evaluation.output

/-- Source `CStatementOutput`; the operation array and its length are the list
`operations`. -/
def CStatementOutput {Env : Type} (evaluator : Evaluator Env) (environment : Env)
    (context : EvaluatorContext) (tokens : List Token) (startTokenIndex : Nat)
    (operations : List CStatementOperation) (output : GeneratorOutput) :
    Except Fault (StatementEmission Env) := do
  let endTokenIndex ← FindCloseParenTokenIndex tokens startTokenIndex
  CStatementOutput.loop evaluator context tokens startTokenIndex endTokenIndex operations
    environment output

/-! ## Environment, symbol minting, definition cloning and signature matching -/

/-- A `const Token*`: the token vector it points into, by its number in the store
of vectors, and the index of the token there. -/
structure TokenPointer where
  buffer : Nat
  index : Nat
  deriving DecidableEq, Repr

/-- The token vectors that pointers point into, by number. -/
abbrev TokenStore := List (List Token)

/-- The vector with the given number; a pointer into no vector is a read outside
every vector. -/
def TokenStore.vector (store : TokenStore) (buffer : Nat) : Except Fault (List Token) :=
  match store[buffer]? with
  | some tokens => .ok tokens
  | none => .error Fault.outOfBounds

/-- Modelled from the spec: `MacroExpansion` is declared outside the sources at hand;
the spec gives its two parts, `atToken` (the opening paren of the original macro
invocation) and the owned token vector that replaces it (`tokens`, a pointer to a
vector, kept as the number of that vector in the store). -/
structure MacroExpansion where
  atToken : TokenPointer
  tokens : Nat
  deriving DecidableEq, Repr

/-- Modelled from the spec: the `ObjectType` enum is declared outside the sources at
hand; the spec names `Function` and `Variable` and leaves the other kinds open. -/
inductive ObjectType where
  | Function
  | Variable
  | Other
  deriving DecidableEq, Repr

/-- Modelled from the spec: `ObjectDefinition` is declared outside the sources at
hand; the spec gives these four parts.  `definitionInvocation` is a pointer that may
be null.  The counter is printed with `%d` and only ever counted up from zero; it is
kept as a natural number and its machine width is left out. -/
structure ObjectDefinition where
  type : ObjectType
  definitionInvocation : Option TokenPointer
  macroExpansions : List MacroExpansion
  nextFreeUniqueSymbolNum : Nat
  deriving DecidableEq, Repr

/-- Modelled from the spec: `CompileTimeFunctionMetadata` is declared outside the
sources at hand; `CompileTimeFunctionSignatureMatches` reads its `startArgsToken`,
the open paren of the argument list the user wrote. -/
structure CompileTimeFunctionMetadata where
  startArgsToken : TokenPointer
  deriving DecidableEq, Repr

/-- Modelled from the spec: `EvaluatorEnvironment` is declared outside the sources at
hand; the spec gives the three parts used here, a counter and two maps keyed by
name, kept as functions from the key. -/
structure EvaluatorEnvironment where
  nextFreeUniqueSymbolNum : Nat
  objectDefinitions : String → Option ObjectDefinition
  compileTimeFunctionInfo : String → Option CompileTimeFunctionMetadata

/-- Modelled from the spec: `findObjectDefinition` is defined outside the sources at
hand; it looks the name up in the map `objectDefinitions` and returns a null pointer
when there is no such definition. -/
def findObjectDefinition (environment : EvaluatorEnvironment) (name : String) :
    Option ObjectDefinition :=
  environment.objectDefinitions name

/-- Modelled from the spec: the macro `PrintfBuffer` is defined outside the sources
at hand.  It formats into the fixed-size character array it is given; by the spec a
text that is too long for the array is truncated consistently, so the array holds
the first `capacity - 1` characters of the formatted text and the terminating null.
`formatted` is the text the format string and its arguments spell out. -/
def PrintfBuffer (capacity : Nat) (formatted : String) : String :=
  ⟨formatted.data.take (capacity - 1)⟩

/-- The text that the format `"%s_%d"` spells out for a stem and a counter value:
the stem, an underscore, the number in decimal. -/
def uniqueSymbolText (stem : String) (number : Nat) : String :=
  stem ++ "_" ++ Nat.repr number

/-- Source `MakeUniqueSymbolName`: the environment and the token it was given by
reference, as it leaves them.  `symbolNameBuffer` is a `char[64]`. -/
def MakeUniqueSymbolName (environment : EvaluatorEnvironment) (stem : String)
    (tokenToChange : Token) : EvaluatorEnvironment × Token :=
  let symbolNameBuffer := PrintfBuffer 64 (uniqueSymbolText stem environment.nextFreeUniqueSymbolNum)
  ({ environment with nextFreeUniqueSymbolNum := environment.nextFreeUniqueSymbolNum + 1 },
    { tokenToChange with type := TokenType.Symbol, contents := symbolNameBuffer })

/-- Source `MakeContextUniqueSymbolName`.  The definition found is changed in place,
that is, under its key in the map. -/
def MakeContextUniqueSymbolName (environment : EvaluatorEnvironment)
    (context : EvaluatorContext) (stem : String) (tokenToChange : Token) :
    EvaluatorEnvironment × Token :=
  match context.definitionName with
  | none => MakeUniqueSymbolName environment stem tokenToChange
  | some definitionName =>
    match findObjectDefinition environment definitionName.contents with
    | none => MakeUniqueSymbolName environment stem tokenToChange
    | some definition =>
      let symbolNameBuffer :=
        PrintfBuffer 64 (uniqueSymbolText stem definition.nextFreeUniqueSymbolNum)
      ({ environment with
          objectDefinitions := fun name =>
            if name = definitionName.contents then
              some { definition with
                nextFreeUniqueSymbolNum := definition.nextFreeUniqueSymbolNum + 1 }
            else environment.objectDefinitions name },
        { tokenToChange with type := TokenType.Symbol, contents := symbolNameBuffer })

/-- The scanning loop of `FindTokenExpressionEnd`: `rest` holds the tokens from
`currentToken` on, `i` is its index, `depth` the depth before it is looked at.  The
loop test `depth >= 0` fails for no depth the loop reaches from zero; walking past
the last token of the vector is a read outside it. -/
def FindTokenExpressionEnd.loop : List Token → Nat → Int → Except Fault Nat
  | [], _, _ => .error Fault.outOfBounds
  | currentToken :: rest, i, depth =>
    if depth ≥ 0 then
      if currentToken.type = TokenType.OpenParen then
        FindTokenExpressionEnd.loop rest (i + 1) (depth + 1)
      else if currentToken.type = TokenType.CloseParen then
        if depth - 1 ≤ 0 then pure i
        else FindTokenExpressionEnd.loop rest (i + 1) (depth - 1)
      else FindTokenExpressionEnd.loop rest (i + 1) depth
    else .error Fault.outOfBounds

/-- Source `FindTokenExpressionEnd`, on the vector `startToken` points into: the
index of the token that ends the expression starting at `startTokenIndex`.  The
`return nullptr` after the loop is kept as a fault: both callers step on from the
pointer they get. -/
def FindTokenExpressionEnd (tokens : List Token) (startTokenIndex : Nat) : Except Fault Nat := do
  let startToken ← tokenAt tokens startTokenIndex
  if startToken.type ≠ TokenType.OpenParen then pure startTokenIndex
  else FindTokenExpressionEnd.loop (tokens.drop startTokenIndex) startTokenIndex 0

/-- Source `CopyTokensWithMacrosExpanded_Recursive`, from `currentToken` to
`endToken` in the vector numbered `buffer`.  The recursive call gets the expansion
table it was given itself.  `fuel` bounds the loop rounds and nested calls together:
an expansion whose tokens hold its own `atToken` makes the source recurse for ever.
An empty expansion vector has no first token to point at. -/
def CopyTokensWithMacrosExpanded_Recursive (store : TokenStore)
    (expansions : List MacroExpansion) :
    Nat → Nat → Nat → Nat → List Token → Except Fault (List Token)
  | 0, _, _, _, _ => .error Fault.outOfFuel
  | fuel + 1, buffer, currentToken, endToken, tokensOut =>
    if currentToken ≤ endToken then
      match expansions.find? (fun expansion => expansion.atToken = ⟨buffer, currentToken⟩) with
      | some expansion => do
        let expansionTokens ← store.vector expansion.tokens
        if expansionTokens.length = 0 then .error Fault.outOfBounds
        else do
          let tokensOut1 ← CopyTokensWithMacrosExpanded_Recursive store expansions fuel
            expansion.tokens 0 (expansionTokens.length - 1) tokensOut
          let tokens ← store.vector buffer
          let expressionEnd ← FindTokenExpressionEnd tokens currentToken
          CopyTokensWithMacrosExpanded_Recursive store expansions fuel buffer
            (expressionEnd + 1) endToken tokensOut1
      | none => do
        let tokens ← store.vector buffer
        let token ← tokenAt tokens currentToken
        CopyTokensWithMacrosExpanded_Recursive store expansions fuel buffer
          (currentToken + 1) endToken (tokensOut ++ [token])
    else pure tokensOut

/-- Source `CreateDefinitionCopyMacroExpanded`: the boolean it returns and
`tokensOut` as it leaves it. -/
def CreateDefinitionCopyMacroExpanded (store : TokenStore) (definition : ObjectDefinition)
    (tokensOut : List Token) (fuel : Nat) : Except Fault (Bool × List Token) :=
  if ¬ (definition.type = ObjectType.Function ∨ definition.type = ObjectType.Variable) then
    pure (false, tokensOut)
  else
    match definition.definitionInvocation with
    | none => pure (false, tokensOut)
    | some definitionInvocation => do
      let tokens ← store.vector definitionInvocation.buffer
      let endToken ← FindTokenExpressionEnd tokens definitionInvocation.index
      let tokensOut1 ← CopyTokensWithMacrosExpanded_Recursive store
        definition.macroExpansions fuel definitionInvocation.buffer
        definitionInvocation.index endToken tokensOut
      pure (true, tokensOut1)

/-- The comparing loop of `CompileTimeFunctionSignatureMatches`: `expected` holds
`expectedSignature[i..]`, `currentUserArgToken` is an index into the user's
vector. -/
def CompileTimeFunctionSignatureMatches.loop (tokens : List Token) (endUserArgs : Nat) :
    List Token → Nat → Except Fault Bool
  | [], _ => pure true
  | expectedToken :: expected, currentUserArgToken =>
    if currentUserArgToken = endUserArgs then pure true
    else if expectedToken.type = TokenType.Symbol ∧
        firstChar expectedToken.contents = Char.ofNat 39 then
      CompileTimeFunctionSignatureMatches.loop tokens endUserArgs expected
        (currentUserArgToken + 1)
    else do
      let userToken ← tokenAt tokens currentUserArgToken
      if expectedToken.type ≠ userToken.type ∨ expectedToken.contents ≠ userToken.contents then
        pure false
      else
        CompileTimeFunctionSignatureMatches.loop tokens endUserArgs expected
          (currentUserArgToken + 1)

/-- Source `CompileTimeFunctionSignatureMatches` (`errorToken` is only reported
at). -/
def CompileTimeFunctionSignatureMatches (store : TokenStore)
    (environment : EvaluatorEnvironment) (compileTimeFunctionName : String)
    (expectedSignature : List Token) : Except Fault Bool :=
  match environment.compileTimeFunctionInfo compileTimeFunctionName with
  | none => pure false
  | some functionMetadata => do
    let tokens ← store.vector functionMetadata.startArgsToken.buffer
    let endUserArgs ← FindTokenExpressionEnd tokens functionMetadata.startArgsToken.index
    let numArgumentsProvided : Int :=
      ((endUserArgs : Int) - (functionMetadata.startArgsToken.index : Int)) + 1
    if numArgumentsProvided ≠ (expectedSignature.length : Int) then pure false
    else
      CompileTimeFunctionSignatureMatches.loop tokens endUserArgs expectedSignature
        functionMetadata.startArgsToken.index

/-! ## Vocabulary of the specification -/

/-- The kind of `tokens[i]`, when there is such a token. -/
def typeAt (tokens : List Token) (i : Nat) : Option TokenType :=
  (tokens[i]?).map (fun t => t.type)

/-- Depth scan: every close paren in the list has an earlier open paren left to
close, and `depth` open parens from before the list plus those of the list are
all closed at its end. -/
def balancedFrom : Nat → List Token → Bool
  | depth, [] => depth == 0
  | depth, token :: rest =>
    if token.type = TokenType.OpenParen then balancedFrom (depth + 1) rest
    else if token.type = TokenType.CloseParen then depth != 0 && balancedFrom (depth - 1) rest
    else balancedFrom depth rest

/-- The tokens strictly between the indices `s` and `e`. -/
def tokensBetween (tokens : List Token) (s e : Nat) : List Token :=
  (tokens.drop (s + 1)).take (e - (s + 1))

/-- A balanced invocation range `[s, e]`: an open paren at `s`, a close paren at
`e`, and balanced tokens strictly between them, which makes `e` the match of `s`. -/
def InvocationRange (tokens : List Token) (s e : Nat) : Prop :=
  s < e ∧ typeAt tokens s = some TokenType.OpenParen ∧
    typeAt tokens e = some TokenType.CloseParen ∧
    balancedFrom 0 (tokensBetween tokens s e) = true

instance (tokens : List Token) (s e : Nat) : Decidable (InvocationRange tokens s e) := by
  unfold InvocationRange; infer_instance

/-- Prepending to both buffers of a result. -/
def TypeLowering.prepend (ty0 af0 : List StringOutput) (r : TypeLowering) : TypeLowering :=
  { r with typeOutput := ty0 ++ r.typeOutput, afterNameOutput := af0 ++ r.afterNameOutput }

/-- A lowering function that treats what is already in the buffers as a prefix it
neither reads nor changes. -/
def Framed
    (recurse : Nat → Bool → List StringOutput → List StringOutput → Except Fault TypeLowering) :
    Prop :=
  ∀ i a ty0 af0 ty af,
    recurse i a (ty0 ++ ty) (af0 ++ af) = (recurse i a ty af).map (TypeLowering.prepend ty0 af0)

/-- One top-level argument occupying the indices `p..e`: a lone Symbol or String
token (`e = p`), or a balanced parenthesised group from `p` to its match `e`. -/
def ArgumentAt (tokens : List Token) (p e : Nat) : Prop :=
  ((typeAt tokens p = some TokenType.Symbol ∨ typeAt tokens p = some TokenType.String) ∧ e = p) ∨
    InvocationRange tokens p e

instance (tokens : List Token) (p e : Nat) : Decidable (ArgumentAt tokens p e) := by
  unfold ArgumentAt; infer_instance

/-- The arguments `spans` (first and last index of each) follow one another from
index `p` and the last one ends right before index `q`. -/
def ArgumentsAt (tokens : List Token) : Nat → List (Nat × Nat) → Nat → Prop
  | p, [], q => p = q
  | p, span :: rest, q =>
    span.1 = p ∧ ArgumentAt tokens span.1 span.2 ∧ ArgumentsAt tokens (span.2 + 1) rest q

instance instDecidableArgumentsAt (tokens : List Token) :
    ∀ (p : Nat) (spans : List (Nat × Nat)) (q : Nat), Decidable (ArgumentsAt tokens p spans q)
  | p, [], q => by unfold ArgumentsAt; infer_instance
  | p, span :: rest, q => by
    unfold ArgumentsAt
    have := instDecidableArgumentsAt tokens (span.2 + 1) rest q
    infer_instance

/-- A balanced invocation written out: the open paren at `s`, the invocation name
and the arguments `spans` (the name is the first of them), the close paren at `e`. -/
def FormAt (tokens : List Token) (s : Nat) (spans : List (Nat × Nat)) (e : Nat) : Prop :=
  typeAt tokens s = some TokenType.OpenParen ∧ ArgumentsAt tokens (s + 1) spans e ∧
    typeAt tokens e = some TokenType.CloseParen

instance (tokens : List Token) (s : Nat) (spans : List (Nat × Nat)) (e : Nat) :
    Decidable (FormAt tokens s spans e) := by
  unfold FormAt; infer_instance

/-- Token builders for the examples. -/
def Token.openParen : Token := ⟨TokenType.OpenParen, "("⟩

def Token.closeParen : Token := ⟨TokenType.CloseParen, ")"⟩

def Token.symbol (contents : String) : Token := ⟨TokenType.Symbol, contents⟩

/-- Example `(* (const char))`. -/
def examplePointerToConstChar : List Token :=
  [Token.openParen, Token.symbol "*", Token.openParen, Token.symbol "const", Token.symbol "char",
    Token.closeParen, Token.closeParen]

/-- The tokens at the indices `a, a+1, .., b-1`. -/
def segment (tokens : List Token) (a b : Nat) : List Token :=
  (tokens.drop a).take (b - a)

/-- A lowering function whose successful results carry no blamed token. -/
def Quiet
    (recurse : Nat → Bool → List StringOutput → List StringOutput → Except Fault TypeLowering) :
    Prop :=
  ∀ i a ty af r, recurse i a ty af = .ok r → r.success = true → r.errorToken = none

/-- The token at index `i` is an array size: a Symbol whose first character is a
digit. -/
def isArraySize (tokens : List Token) (i : Nat) : Bool :=
  match tokens[i]? with
  | some t => decide (t.type = TokenType.Symbol) && (firstChar t.contents).isDigit
  | none => false

/-- Nested array forms.  `ArrayNest tokens s dims p e`: starting at index `s` and
ending at index `e` there is one array form per entry of `dims`, outermost first
(`some n` for `([] n ..)`, `none` for `([] ..)`), each wrapping the next, and the
innermost wraps the argument that starts at index `p`. -/
def ArrayNest (tokens : List Token) : Nat → List (Option String) → Nat → Nat → Prop
  | s, [], p, e => s = p ∧ ArgumentAt tokens p e
  | s, none :: dims, p, e =>
    typeAt tokens s = some TokenType.OpenParen ∧
      tokens[s + 1]? = some ⟨TokenType.Symbol, "[]"⟩ ∧
      isArraySize tokens (s + 2) = false ∧
      0 < e ∧ ArrayNest tokens (s + 2) dims p (e - 1) ∧
      typeAt tokens e = some TokenType.CloseParen
  | s, some size :: dims, p, e =>
    typeAt tokens s = some TokenType.OpenParen ∧
      tokens[s + 1]? = some ⟨TokenType.Symbol, "[]"⟩ ∧
      tokens[s + 2]? = some ⟨TokenType.Symbol, size⟩ ∧
      (firstChar size).isDigit = true ∧
      0 < e ∧ ArrayNest tokens (s + 3) dims p (e - 1) ∧
      typeAt tokens e = some TokenType.CloseParen

instance instDecidableArrayNest (tokens : List Token) :
    ∀ (s : Nat) (dims : List (Option String)) (p e : Nat),
      Decidable (ArrayNest tokens s dims p e)
  | s, [], p, e => by unfold ArrayNest; infer_instance
  | s, none :: dims, p, e => by
    unfold ArrayNest
    have := instDecidableArrayNest tokens (s + 2) dims p (e - 1)
    infer_instance
  | s, some size :: dims, p, e => by
    unfold ArrayNest
    have := instDecidableArrayNest tokens (s + 3) dims p (e - 1)
    infer_instance

/-- The after-name records of nested array forms that start at index `s`, outermost
dimension first: `[`, the size, `]` for a sized dimension and `[]` for an unsized
one, each blamed on the tokens of its own form. -/
def arrayBrackets : Nat → List (Option String) → List StringOutput
  | _, [] => []
  | s, none :: dims =>
    ⟨"[]", StringOutMod_None, s + 1⟩ :: arrayBrackets (s + 2) dims
  | s, some size :: dims =>
    ⟨"[", StringOutMod_None, s + 1⟩ :: ⟨size, StringOutMod_None, s + 2⟩ ::
      ⟨"]", StringOutMod_None, s + 1⟩ :: arrayBrackets (s + 3) dims

/-- Example `([] 10 float)`. -/
def exampleArrayOfTenFloats : List Token :=
  [Token.openParen, Token.symbol "[]", Token.symbol "10", Token.symbol "float",
    Token.closeParen]

/-- Example `([] ([] 10 float))`. -/
def exampleTwoDimensionalArray : List Token :=
  [Token.openParen, Token.symbol "[]", Token.openParen, Token.symbol "[]", Token.symbol "10",
    Token.symbol "float", Token.closeParen, Token.closeParen]

/-- The type records of a scope-resolution form whose components, in order, start
at the given index and lower to the given records: the components' records with one
`::` text record, blamed on the component before it, between consecutive ones. -/
def scopeOutput : List (Nat × List StringOutput) → List StringOutput
  | [] => []
  | [c] => c.2
  | c :: rest => c.2 ++ ⟨"::", StringOutMod_None, c.1⟩ :: scopeOutput rest

/-- Example `(in std (<> vector int float) iterator)`. -/
def exampleScopedIterator : List Token :=
  [Token.openParen, Token.symbol "in", Token.symbol "std", Token.openParen, Token.symbol "<>",
    Token.symbol "vector", Token.symbol "int", Token.symbol "float", Token.closeParen,
    Token.symbol "iterator", Token.closeParen]

/-- Example `(& (const (<> std::vector Token)))`. -/
def exampleReferenceToConstVector : List Token :=
  [Token.openParen, Token.symbol "&", Token.openParen, Token.symbol "const", Token.openParen,
    Token.symbol "<>", Token.symbol "std::vector", Token.symbol "Token", Token.closeParen,
    Token.closeParen, Token.closeParen]

/-- Example `(<> ([] int))`: a template form whose name is an array form. -/
def exampleTemplateOfArray : List Token :=
  [Token.openParen, Token.symbol "<>", Token.openParen, Token.symbol "[]", Token.symbol "int",
    Token.closeParen, Token.closeParen]

/-- Example `(<> (in std vector) int)`: a template form whose name is a
parenthesised type expression. -/
def exampleTemplateWithScopedName : List Token :=
  [Token.openParen, Token.symbol "<>", Token.openParen, Token.symbol "in", Token.symbol "std",
    Token.symbol "vector", Token.closeParen, Token.symbol "int", Token.closeParen]

/-- Example `([] float extra)`: an unsized array form with one argument too many. -/
def exampleArrayWithExtraArgument : List Token :=
  [Token.openParen, Token.symbol "[]", Token.symbol "float", Token.symbol "extra",
    Token.closeParen]

/-- Example `([] 10 float extra)`: a sized array form with one argument too many. -/
def exampleSizedArrayWithExtraArgument : List Token :=
  [Token.openParen, Token.symbol "[]", Token.symbol "10", Token.symbol "float",
    Token.symbol "extra", Token.closeParen]

/-- Token builder for the examples: a string literal token. -/
def Token.string (contents : String) : Token := ⟨TokenType.String, contents⟩

/-- Example `(f "a" b)`: a String argument followed by one more argument. -/
def exampleCallWithStringArgument : List Token :=
  [Token.openParen, Token.symbol "f", Token.string "a", Token.symbol "b", Token.closeParen]

/-- Example `(name)`: an invocation with an empty argument list. -/
def exampleEmptyArgumentList : List Token :=
  [Token.openParen, Token.symbol "name", Token.closeParen]

/-- The token at index `i` is a Symbol that is not special: what a parameter name,
or a type given as one token, has to be. -/
def PlainSymbolAt (tokens : List Token) (i : Nat) : Prop :=
  match tokens[i]? with
  | some t => t.type = TokenType.Symbol ∧ isSpecialSymbol t = false
  | none => False

instance (tokens : List Token) (i : Nat) : Decidable (PlainSymbolAt tokens i) := by
  unfold PlainSymbolAt; split <;> infer_instance

/-- A type specifier occupying the indices `t..te`: one plain Symbol, or a balanced
parenthesised group. -/
def TypeSpecifierAt (tokens : List Token) (t te : Nat) : Prop :=
  (PlainSymbolAt tokens t ∧ te = t) ∨ InvocationRange tokens t te

instance (tokens : List Token) (t te : Nat) : Decidable (TypeSpecifierAt tokens t te) := by
  unfold TypeSpecifierAt; infer_instance

/-- Well-formed parameters `n1 t1 ... nk tk` from index `p` up to, not including,
index `q`: each entry of `params` gives the index of a name, a plain Symbol, and the
first and last index of its type specifier, which starts right after the name. -/
def ParametersAt (tokens : List Token) : Nat → List (Nat × Nat × Nat) → Nat → Prop
  | p, [], q => p = q
  | p, param :: rest, q =>
    param.1 = p ∧ PlainSymbolAt tokens param.1 ∧ param.2.1 = param.1 + 1 ∧
      TypeSpecifierAt tokens param.2.1 param.2.2 ∧ ParametersAt tokens (param.2.2 + 1) rest q

instance instDecidableParametersAt (tokens : List Token) :
    ∀ (p : Nat) (params : List (Nat × Nat × Nat)) (q : Nat),
      Decidable (ParametersAt tokens p params q)
  | p, [], q => by unfold ParametersAt; infer_instance
  | p, param :: rest, q => by
    unfold ParametersAt
    have := instDecidableParametersAt tokens (param.2.2 + 1) rest q
    infer_instance

/-- How a signature ends at index `q`, where its parameters stop, before the close
paren at `e`: with nothing more (`none`), or with `&return r`, the return type `r`
being one argument at the indices `ret.1..ret.2`. -/
def ReturnAt (tokens : List Token) (q : Nat) : Option (Nat × Nat) → Nat → Prop
  | none, e => q = e
  | some ret, e =>
    tokens[q]? = some ⟨TokenType.Symbol, "&return"⟩ ∧ ret.1 = q + 1 ∧
      ArgumentAt tokens ret.1 ret.2 ∧ ret.2 + 1 = e

instance (tokens : List Token) (q : Nat) (ret : Option (Nat × Nat)) (e : Nat) :
    Decidable (ReturnAt tokens q ret e) := by
  cases ret <;> (unfold ReturnAt; infer_instance)

/-- The `FunctionArgumentTokens` of well-formed parameters, in order. -/
def parameterTokens (params : List (Nat × Nat × Nat)) : List FunctionArgumentTokens :=
  params.map (fun param => ⟨param.2.1, param.1⟩)

/-- Example `(a int b int &return int)`. -/
def exampleSignature : List Token :=
  [Token.openParen, Token.symbol "a", Token.symbol "int", Token.symbol "b",
    Token.symbol "int", Token.symbol "&return", Token.symbol "int", Token.closeParen]

/-- Example `(xs ([] 10 float) n int)`: no return type. -/
def exampleSignatureWithArray : List Token :=
  [Token.openParen, Token.symbol "xs", Token.openParen, Token.symbol "[]", Token.symbol "10",
    Token.symbol "float", Token.closeParen, Token.symbol "n", Token.symbol "int",
    Token.closeParen]

/-- The top-level items of well-formed parameters: each name, then its type. -/
def parameterSpans : List (Nat × Nat × Nat) → List (Nat × Nat)
  | [] => []
  | param :: rest => (param.1, param.1) :: (param.2.1, param.2.2) :: parameterSpans rest

/-- The top-level items of the end of a signature: none, or `&return` and the
return type. -/
def returnSpans (q : Nat) : Option (Nat × Nat) → List (Nat × Nat)
  | none => []
  | some ret => [(q, q), ret]

/-- The `returnTypeStart` after parsing a well-formed signature: left as it was
without `&return`, the start of the return type with it. -/
def returnTypeStartAfter (returnTypeStart : Int) : Option (Nat × Nat) → Int
  | none => returnTypeStart
  | some ret => (ret.1 : Int)

/-- Example `(defun add ((a int) (b int) &return int))`: the signature as the spec's
scenario writes it, each parameter in parentheses of its own.  The argument list
opens at index 3. -/
def exampleDefunParenthesisedParameters : List Token :=
  [Token.openParen, Token.symbol "defun", Token.symbol "add",
    Token.openParen,
    Token.openParen, Token.symbol "a", Token.symbol "int", Token.closeParen,
    Token.openParen, Token.symbol "b", Token.symbol "int", Token.closeParen,
    Token.symbol "&return", Token.symbol "int",
    Token.closeParen, Token.closeParen]

/-- Example `(defun add (a int b int &return int))`: the same signature as a flat
list of names and types.  The argument list opens at index 3 and closes at 10. -/
def exampleDefunFlatParameters : List Token :=
  [Token.openParen, Token.symbol "defun", Token.symbol "add",
    Token.openParen,
    Token.symbol "a", Token.symbol "int", Token.symbol "b", Token.symbol "int",
    Token.symbol "&return", Token.symbol "int",
    Token.closeParen, Token.closeParen]

/-- Example `(:x int)`: a parameter whose name is a special symbol. -/
def exampleSpecialParameterName : List Token :=
  [Token.openParen, Token.symbol ":x", Token.symbol "int", Token.closeParen]

/-- Example `(&rest int)`: a parameter whose name is a sentinel other than
`&return`. -/
def exampleSentinelParameterName : List Token :=
  [Token.openParen, Token.symbol "&rest", Token.symbol "int", Token.closeParen]

/-- No token of the vector is the Symbol `&return`. -/
def NoReturnMarker (tokens : List Token) : Prop :=
  ∀ t ∈ tokens, ¬ (t.type = TokenType.Symbol ∧ t.contents = "&return")

instance (tokens : List Token) : Decidable (NoReturnMarker tokens) := by
  unfold NoReturnMarker; infer_instance

/-- The token at index `i` is a Symbol other than `&return`: what the parser takes
for a parameter name. -/
def ScannedNameAt (tokens : List Token) (i : Nat) : Prop :=
  match tokens[i]? with
  | some t => t.type = TokenType.Symbol ∧ t.contents ≠ "&return"
  | none => False

instance (tokens : List Token) (i : Nat) : Decidable (ScannedNameAt tokens i) := by
  unfold ScannedNameAt; split <;> infer_instance

/-- Items `n1 t1 ... nk tk` from index `p` up to, not including, index `q` that the
parser scans without complaint: each name a Symbol other than `&return`, each type a
plain Symbol or a balanced parenthesised group right after its name. -/
def ScannedParametersAt (tokens : List Token) : Nat → List (Nat × Nat × Nat) → Nat → Prop
  | p, [], q => p = q
  | p, param :: rest, q =>
    param.1 = p ∧ ScannedNameAt tokens param.1 ∧ param.2.1 = param.1 + 1 ∧
      TypeSpecifierAt tokens param.2.1 param.2.2 ∧
      ScannedParametersAt tokens (param.2.2 + 1) rest q

instance instDecidableScannedParametersAt (tokens : List Token) :
    ∀ (p : Nat) (params : List (Nat × Nat × Nat)) (q : Nat),
      Decidable (ScannedParametersAt tokens p params q)
  | p, [], q => by unfold ScannedParametersAt; infer_instance
  | p, param :: rest, q => by
    unfold ScannedParametersAt
    have := instDecidableScannedParametersAt tokens (param.2.2 + 1) rest q
    infer_instance

/-- The token at a type position is not acceptable: a special Symbol, or neither a
Symbol nor an OpenParen. -/
def BadTypeTokenAt (tokens : List Token) (i : Nat) : Prop :=
  match tokens[i]? with
  | some t =>
    (t.type = TokenType.Symbol ∧ isSpecialSymbol t = true) ∨
      (t.type ≠ TokenType.Symbol ∧ t.type ≠ TokenType.OpenParen)
  | none => False

instance (tokens : List Token) (i : Nat) : Decidable (BadTypeTokenAt tokens i) := by
  unfold BadTypeTokenAt; split <;> infer_instance

/-- The token at index `i` is there and is not a Symbol. -/
def NotSymbolAt (tokens : List Token) (i : Nat) : Prop :=
  match tokens[i]? with
  | some t => t.type ≠ TokenType.Symbol
  | none => False

instance (tokens : List Token) (i : Nat) : Decidable (NotSymbolAt tokens i) := by
  unfold NotSymbolAt; split <;> infer_instance

/-- The four malformations of a signature whose next name position is index `q`, in
a list that closes at index `e`: (a) the token at `q` is not a Symbol; (b) it is a
name and the last token of the list; (c) it is a name and the token after it cannot
start a type; (d) it is `&return` and the last token of the list. -/
def MalformedAt (tokens : List Token) (q e : Nat) : Prop :=
  q < e ∧
    (NotSymbolAt tokens q ∨
      (ScannedNameAt tokens q ∧ q + 1 = e) ∨
      (ScannedNameAt tokens q ∧ q + 1 < e ∧ BadTypeTokenAt tokens (q + 1)) ∨
      (tokens[q]? = some ⟨TokenType.Symbol, "&return"⟩ ∧ q + 1 = e))

instance (tokens : List Token) (q e : Nat) : Decidable (MalformedAt tokens q e) := by
  unfold MalformedAt; infer_instance

/-- Example `(a int b)`: the name `b` is the last token of the list. -/
def exampleSignatureNameLast : List Token :=
  [Token.openParen, Token.symbol "a", Token.symbol "int", Token.symbol "b", Token.closeParen]

/-- Example `(a int b "text")`: a string literal at a type position. -/
def exampleSignatureStringType : List Token :=
  [Token.openParen, Token.symbol "a", Token.symbol "int", Token.symbol "b",
    Token.string "text", Token.closeParen]

/-- A lowering function whose successful results have a longer type buffer than
they were given. -/
def Grows
    (recurse : Nat → Bool → List StringOutput → List StringOutput → Except Fault TypeLowering) :
    Prop :=
  ∀ i a ty af r, recurse i a ty af = .ok r → r.success = true →
    ty.length < r.typeOutput.length

/-- A parameter as the emitter meets it: where its type and its name start, the
text of the name token, and the two record sequences its type lowers to. -/
structure LoweredParameter where
  argument : FunctionArgumentTokens
  name : String
  typeRecords : List StringOutput
  afterName : List StringOutput
  deriving DecidableEq, Repr

/-- The name token of the parameter reads `name`, and lowering its type from empty
buffers with `allowArray = true` succeeds with `typeRecords` and `afterName`. -/
def LowersTo (tokens : List Token) (p : LoweredParameter) : Prop :=
  (tokens[p.argument.nameIndex]?).map (fun token => token.contents) = some p.name ∧
    match tokenizedCTypeToString_Recursive tokens p.argument.startTypeIndex true [] [] with
    | .ok r => r.success = true ∧ r.typeOutput = p.typeRecords ∧ r.afterNameOutput = p.afterName
    | .error _ => False

instance (tokens : List Token) (p : LoweredParameter) : Decidable (LowersTo tokens p) := by
  unfold LowersTo; split <;> infer_instance

/-- A record sequence with SpaceAfter OR-ed into its last record. -/
def withSpaceAfterLast : List StringOutput → List StringOutput
  | [] => []
  | [r] => [⟨r.output, r.modifiers ||| StringOutMod_SpaceAfter, r.startToken⟩]
  | r :: r1 :: rest => r :: withSpaceAfterLast (r1 :: rest)

/-- The records of one parameter: its type with a space after it, its name marked
ConvertVariableName, its after-name records. -/
def oneParameterRecords (p : LoweredParameter) : List StringOutput :=
  withSpaceAfterLast p.typeRecords ++
    ⟨p.name, StringOutMod_ConvertVariableName, p.argument.nameIndex⟩ :: p.afterName

/-- The records of a parameter list: those of each parameter in order, a
ListSeparator record after every parameter but the last. -/
def parameterRecords : List LoweredParameter → List StringOutput
  | [] => []
  | [p] => oneParameterRecords p
  | p :: p1 :: rest =>
    oneParameterRecords p ++
      ⟨"", StringOutMod_ListSeparator, p.argument.nameIndex⟩ :: parameterRecords (p1 :: rest)

/-- The parameter `xs ([] 10 float)` of `exampleSignatureWithArray`, lowered. -/
def exampleLoweredArrayParameter : LoweredParameter :=
  ⟨⟨2, 1⟩, "xs", [⟨"float", StringOutMod_ConvertTypeName, 5⟩],
    [⟨"[", StringOutMod_None, 3⟩, ⟨"10", StringOutMod_None, 4⟩, ⟨"]", StringOutMod_None, 3⟩]⟩

/-- The parameter `n int` of `exampleSignatureWithArray`, lowered. -/
def exampleLoweredIntParameter : LoweredParameter :=
  ⟨⟨8, 7⟩, "n", [⟨"int", StringOutMod_ConvertTypeName, 8⟩], []⟩

/-- An evaluator for the examples: it reports no error, writes nothing, and keeps
in the environment the log of the calls made to it, each with the context and the
start index it was given. -/
def recordingEvaluator : Evaluator (List (EvaluatorContext × Nat)) :=
  { EvaluateGenerate_Recursive := fun environment context _ startTokenIndex output =>
      ⟨0, environment ++ [(context, startTokenIndex)], output⟩
    EvaluateGenerateAll_Recursive := fun environment context _ startTokenIndex output =>
      ⟨0, environment ++ [(context, startTokenIndex)], output⟩ }

/-- Example `(+ a b)`: an invocation whose arguments are spliced with its name. -/
def exampleSpliceInvocation : List Token :=
  [Token.openParen, Token.symbol "+", Token.symbol "a", Token.symbol "b", Token.closeParen]

/-- A context for the examples: Body scope, no enclosing definition, an empty
delimiter template. -/
def exampleBodyContext : EvaluatorContext :=
  ⟨EvaluatorScope.Body, none, ⟨"", StringOutMod_None⟩⟩

/-- The operation kinds that require their argument: `Expression`, `TypeNoArray`
and `Body`. -/
def CStatementOperationType.requiresArgument : CStatementOperationType → Bool
  | CStatementOperationType.Expression => true
  | CStatementOperationType.TypeNoArray => true
  | CStatementOperationType.Body => true
  | _ => false

/-- The operation kinds that take an argument index. -/
def CStatementOperationType.takesArgument : CStatementOperationType → Bool
  | CStatementOperationType.Splice => true
  | CStatementOperationType.SpliceNoSpace => true
  | CStatementOperationType.TypeNoArray => true
  | CStatementOperationType.Expression => true
  | CStatementOperationType.ExpressionOptional => true
  | CStatementOperationType.ExpressionList => true
  | CStatementOperationType.Body => true
  | _ => false

/-- The result of a program that got as far as `r` and then returned `false`. -/
def StatementEmission.failed {Env : Type} (r : StatementEmission Env) : StatementEmission Env :=
  ⟨false, r.environment, r.output⟩

/-- Example `(return)`: an invocation without arguments. -/
def exampleReturnNothing : List Token :=
  [Token.openParen, Token.symbol "return", Token.closeParen]

/-- Example `(<> (* x) <>)`: a template form whose name is parenthesised and whose
only parameter is the Symbol `<>`; the whole vector is this one balanced form. -/
def exampleTemplateParameterIsHead : List Token :=
  [Token.openParen, Token.symbol "<>", Token.openParen, Token.symbol "*", Token.symbol "x",
    Token.closeParen, Token.symbol "<>", Token.closeParen]

/-- Example `(defun f (a) (m x) b)`: a definition with the macro invocation `(m x)`
at the indices 6..9. -/
def exampleDefinitionWithMacro : List Token :=
  [Token.openParen, Token.symbol "defun", Token.symbol "f", Token.openParen, Token.symbol "a",
    Token.closeParen, Token.openParen, Token.symbol "m", Token.symbol "x", Token.closeParen,
    Token.symbol "b", Token.closeParen]

/-- Example `(+ x 1)`: what the macro invocation `(m x)` expanded to. -/
def exampleMacroOutput : List Token :=
  [Token.openParen, Token.symbol "+", Token.symbol "x", Token.symbol "1", Token.closeParen]

/-- The store of the cloning example: vector 0 is the definition, vector 1 the macro
output. -/
def exampleCloneStore : TokenStore := [exampleDefinitionWithMacro, exampleMacroOutput]

/-- The definition of the cloning example: a function whose invocation is the open
paren at index 0 of vector 0, with one expansion recorded at index 6. -/
def exampleClonedDefinition : ObjectDefinition :=
  ⟨ObjectType.Function, some ⟨0, 0⟩, [⟨⟨0, 6⟩, 1⟩], 0⟩

/-- An environment for the minting examples: the counter at 5, one definition `f`
with its own counter at 7, no compile-time functions. -/
def exampleEnvironment : EvaluatorEnvironment :=
  { nextFreeUniqueSymbolNum := 5
    objectDefinitions := fun name =>
      if name = "f" then some ⟨ObjectType.Function, none, [], 7⟩ else none
    compileTimeFunctionInfo := fun _ => none }

/-- A stem of 70 characters, longer than the name buffer. -/
def exampleLongStem : String := ⟨List.replicate 70 'a'⟩

/-- The names that `k` successive calls of `MakeUniqueSymbolName` with one stem
give, in order, and the environment after the last call. -/
def mintSuccessively (stem : String) : Nat → EvaluatorEnvironment →
    EvaluatorEnvironment × List String
  | 0, environment => (environment, [])
  | k + 1, environment =>
    let minted := MakeUniqueSymbolName environment stem ⟨TokenType.Symbol, ""⟩
    let later := mintSuccessively stem k minted.1
    (later.1, minted.2.contents :: later.2)

/-- The name `stem_N` is short enough for the 64-character name buffer, which holds
63 characters and the terminating null. -/
def FitsNameBuffer (stem : String) (number : Nat) : Prop :=
  (uniqueSymbolText stem number).length ≤ 63

instance (stem : String) (number : Nat) : Decidable (FitsNameBuffer stem number) := by
  unfold FitsNameBuffer; infer_instance

/-- A context for the minting examples: inside the definition `f`. -/
def exampleContextInDefinition : EvaluatorContext :=
  ⟨EvaluatorScope.Body, some (Token.symbol "f"), ⟨"", StringOutMod_None⟩⟩

/-- A context for the minting examples: inside a definition `g` that the
environment does not hold. -/
def exampleContextInUnknownDefinition : EvaluatorContext :=
  ⟨EvaluatorScope.Body, some (Token.symbol "g"), ⟨"", StringOutMod_None⟩⟩

/-- An expected token accepts a user token: it is a Symbol whose contents start with
an apostrophe (a name that need not match), or the two have the same kind and the
same contents. -/
def signatureTokenMatches (expected user : Token) : Bool :=
  (decide (expected.type = TokenType.Symbol) &&
      decide (firstChar expected.contents = Char.ofNat 39)) ||
    (decide (expected.type = user.type) && decide (expected.contents = user.contents))

/-- Example `(x int)`: the argument list a user wrote for a compile-time function. -/
def exampleUserArguments : List Token :=
  [Token.openParen, Token.symbol "x", Token.symbol "int", Token.closeParen]

/-- An environment in which the compile-time function `square` is registered with
the argument list at index 0 of vector 0. -/
def exampleCompileTimeEnvironment : EvaluatorEnvironment :=
  { nextFreeUniqueSymbolNum := 0
    objectDefinitions := fun _ => none
    compileTimeFunctionInfo := fun name => if name = "square" then some ⟨⟨0, 0⟩⟩ else none }

/-- An expected signature whose last token is not a close paren: open paren, a
quoted name, `int`, and the Symbol `extra`. -/
def exampleExpectedSignatureOpenEnded : List Token :=
  [Token.openParen, Token.symbol (String.mk [Char.ofNat 39, 'n']), Token.symbol "int",
    Token.symbol "extra"]

/-- The expected signature that goes with `(x int)`: open paren, a quoted name,
`int`, close paren. -/
def exampleExpectedSignature : List Token :=
  [Token.openParen, Token.symbol (String.mk [Char.ofNat 39, 'n']), Token.symbol "int",
    Token.closeParen]

/-- No token strictly between the indices `argsIndex` and `e`, the parens of an
argument list, is the Symbol `&return`; what stands elsewhere in the vector does
not count. -/
def NoReturnMarkerIn (tokens : List Token) (argsIndex e : Nat) : Prop :=
  ∀ t ∈ tokensBetween tokens argsIndex e,
    ¬ (t.type = TokenType.Symbol ∧ t.contents = "&return")

instance (tokens : List Token) (argsIndex e : Nat) :
    Decidable (NoReturnMarkerIn tokens argsIndex e) := by
  unfold NoReturnMarkerIn; infer_instance

/-- Example `(a int) (b int &return int)`: two argument lists in one vector, the
first at the indices 0..3 without `&return`, the second with it. -/
def exampleTwoArgumentLists : List Token :=
  [Token.openParen, Token.symbol "a", Token.symbol "int", Token.closeParen,
    Token.openParen, Token.symbol "b", Token.symbol "int", Token.symbol "&return",
    Token.symbol "int", Token.closeParen]

/-! ## Theorems -/

theorem typeAt_eq_some {tokens : List Token} {i : Nat} {k : TokenType}
    (h : typeAt tokens i = some k) :
    ∃ t, tokens[i]? = some t ∧ t.type = k ∧ i < tokens.length := by
  unfold typeAt at h
  cases ht : tokens[i]? with
  | none => simp [ht] at h
  | some t =>
    simp [ht] at h
    exact ⟨t, rfl, h, (List.getElem?_eq_some_iff.1 ht).1⟩

theorem tokenAt_of_getElem? {tokens : List Token} {i : Nat} {t : Token}
    (h : tokens[i]? = some t) : tokenAt tokens i = .ok t := by
  simp [tokenAt, h]

theorem findClose_loop_cons (n : Nat) (t : Token) (rest : List Token) (i : Nat) (d : Int) :
    FindCloseParenTokenIndex.loop n (t :: rest) i d =
      if (if t.type = TokenType.OpenParen then d + 1
          else if t.type = TokenType.CloseParen then d - 1 else d) = 0 then i
      else FindCloseParenTokenIndex.loop n rest (i + 1)
        (if t.type = TokenType.OpenParen then d + 1
          else if t.type = TokenType.CloseParen then d - 1 else d) := rfl

theorem findClose_loop_balanced (n : Nat) (l : List Token) :
    ∀ (k : Nat) (d : Int) (rest : List Token) (i : Nat), balancedFrom k l = true → 0 < d →
      FindCloseParenTokenIndex.loop n (l ++ rest) i (d + k) =
        FindCloseParenTokenIndex.loop n rest (i + l.length) d := by
  induction l with
  | nil =>
    intro k d rest i hb hd
    simp [balancedFrom] at hb
    simp [hb]
  | cons t l ih =>
    intro k d rest i hb hd
    simp only [balancedFrom] at hb
    rw [List.cons_append, findClose_loop_cons, List.length_cons,
      show i + (l.length + 1) = i + 1 + l.length by omega]
    by_cases h1 : t.type = TokenType.OpenParen
    · simp only [h1, if_true] at hb ⊢
      have hne : ¬ (d + (k : Int) + 1 = 0) := by omega
      rw [if_neg hne, ← ih (k + 1) d rest (i + 1) hb hd]
      congr 1; push_cast; ring
    · by_cases h2 : t.type = TokenType.CloseParen
      · have hco : ¬ (TokenType.CloseParen = TokenType.OpenParen) := by decide
        simp only [h2, hco, if_true, if_false] at hb ⊢
        simp at hb
        obtain ⟨hk, hb⟩ := hb
        have hne : ¬ (d + (k : Int) - 1 = 0) := by omega
        rw [if_neg hne, ← ih (k - 1) d rest (i + 1) hb hd]
        congr 1; omega
      · simp only [h1, h2, if_false] at hb ⊢
        have hne : ¬ (d + (k : Int) = 0) := by omega
        rw [if_neg hne, ← ih k d rest (i + 1) hb hd]

theorem drop_eq_between {tokens : List Token} {s e : Nat} {ts te : Token}
    (hse : s < e) (hs : tokens[s]? = some ts) (he : tokens[e]? = some te) :
    tokens.drop s = ts :: (tokensBetween tokens s e ++ te :: tokens.drop (e + 1)) ∧
      (tokensBetween tokens s e).length = e - (s + 1) := by
  have hsl := (List.getElem?_eq_some_iff.1 hs).1
  have hel := (List.getElem?_eq_some_iff.1 he).1
  have h1 : tokens.drop s = ts :: tokens.drop (s + 1) := by
    rw [List.drop_eq_getElem_cons hsl]
    congr 1
    exact (List.getElem?_eq_some_iff.1 hs).2
  have h2 : tokens.drop e = te :: tokens.drop (e + 1) := by
    rw [List.drop_eq_getElem_cons hel]
    congr 1
    exact (List.getElem?_eq_some_iff.1 he).2
  have h3 : tokens.drop (s + 1) =
      tokensBetween tokens s e ++ tokens.drop e := by
    unfold tokensBetween
    have := List.take_append_drop (e - (s + 1)) (tokens.drop (s + 1))
    rw [List.drop_drop] at this
    rw [show s + 1 + (e - (s + 1)) = e by omega] at this
    exact this.symm
  refine ⟨by rw [h1, h3, h2], ?_⟩
  unfold tokensBetween
  simp
  omega

theorem findClose_of_range {tokens : List Token} {s e : Nat}
    (h : InvocationRange tokens s e) : FindCloseParenTokenIndex tokens s = .ok e := by
  obtain ⟨hse, hs, he, hb⟩ := h
  obtain ⟨ts, hts, htst, _⟩ := typeAt_eq_some hs
  obtain ⟨te, hte, htet, _⟩ := typeAt_eq_some he
  obtain ⟨hd, hlen⟩ := drop_eq_between hse hts hte
  unfold FindCloseParenTokenIndex
  rw [tokenAt_of_getElem? hts, hd]
  simp only [bind, Except.bind, pure, Except.pure, FindCloseParenTokenIndex.loop, htst, if_true]
  have := findClose_loop_balanced tokens.length (tokensBetween tokens s e) 0 1
    (te :: tokens.drop (e + 1)) (s + 1) hb (by norm_num)
  simp only [Nat.cast_zero, add_zero] at this
  simp only [zero_add, one_ne_zero, if_false]
  rw [this]
  simp [FindCloseParenTokenIndex.loop, htet, hlen]
  omega


@[simp] theorem ok_bind {α β : Type} (a : α) (f : α → Except Fault β) :
    (Except.ok a >>= f) = f a := rfl

@[simp] theorem error_bind {α β : Type} (e : Fault) (f : α → Except Fault β) :
    ((Except.error e : Except Fault α) >>= f) = Except.error e := rfl

@[simp] theorem pure_eq_ok {α : Type} (a : α) : (pure a : Except Fault α) = Except.ok a := rfl

theorem findClose_loop_ge (n : Nat) (rest : List Token) :
    ∀ (i : Nat) (d : Int), i + rest.length ≤ n →
      i ≤ FindCloseParenTokenIndex.loop n rest i d ∧
        FindCloseParenTokenIndex.loop n rest i d ≤ n := by
  induction rest with
  | nil => intro i d h; simp [FindCloseParenTokenIndex.loop] at h ⊢; exact h
  | cons t rest ih =>
    intro i d h
    rw [findClose_loop_cons]
    simp only [List.length_cons] at h
    generalize (if t.type = TokenType.OpenParen then d + 1
      else if t.type = TokenType.CloseParen then d - 1 else d) = d1
    by_cases hz : d1 = 0
    · rw [if_pos hz]; omega
    · rw [if_neg hz]
      have := ih (i + 1) d1 (by omega)
      omega

theorem findClose_bounds {tokens : List Token} {i c : Nat}
    (h : FindCloseParenTokenIndex tokens i = .ok c) : i ≤ c ∧ c ≤ tokens.length := by
  unfold FindCloseParenTokenIndex at h
  cases ht : tokens[i]? with
  | none => simp [tokenAt, ht] at h
  | some t =>
    have hi := (List.getElem?_eq_some_iff.1 ht).1
    simp [tokenAt, ht] at h
    have := findClose_loop_ge tokens.length (tokens.drop i) i 0 (by simp; omega)
    rw [h] at this
    exact this

theorem findClose_ok {tokens : List Token} {i : Nat} (h : i < tokens.length) :
    ∃ c, FindCloseParenTokenIndex tokens i = .ok c := by
  unfold FindCloseParenTokenIndex
  have : tokens[i]? = some tokens[i] := List.getElem?_eq_getElem h
  simp [tokenAt, this]

theorem tokenAt_ok {tokens : List Token} {i : Nat} (h : i < tokens.length) :
    ∃ t, tokenAt tokens i = .ok t ∧ tokens[i]? = some t := by
  have : tokens[i]? = some tokens[i] := List.getElem?_eq_getElem h
  exact ⟨tokens[i], by simp [tokenAt, this], this⟩

/-- The step both argument loops take from the argument at `i`. -/
theorem skip_ok {tokens : List Token} {i : Nat} (t : Token) (h : i < tokens.length) :
    ∃ i1, (if t.type = TokenType.OpenParen then FindCloseParenTokenIndex tokens i
      else pure i) = .ok i1 ∧ i ≤ i1 := by
  split
  · obtain ⟨c, hc⟩ := findClose_ok h
    exact ⟨c, hc, (findClose_bounds hc).1⟩
  · exact ⟨i, rfl, le_refl _⟩

theorem navigation_loops (tokens : List Token) (e : Nat) (he : e ≤ tokens.length) :
    ∀ (fuel i : Nat) (cur : Int), e - i + 1 ≤ fuel →
      ∃ n, getNumArguments.loop tokens e fuel i cur = .ok n ∧ cur ≤ n ∧ (i < e → cur < n) ∧
        ∀ d : Int, cur ≤ d → d < n →
          ∃ a : Nat, getArgument.loop tokens d e fuel i cur = .ok (a : Int) ∧ i ≤ a ∧ a < e ∧
            (d + 1 < n → ∃ b : Nat, getNextArgument tokens a e = .ok b ∧
              getArgument.loop tokens (d + 1) e fuel i cur = .ok (b : Int)) := by
  intro fuel
  induction fuel with
  | zero => intro i cur h; omega
  | succ fuel ih =>
    intro i cur hf
    by_cases hie : i < e
    · obtain ⟨t, ht, _⟩ := tokenAt_ok (lt_of_lt_of_le hie he)
      obtain ⟨i1, hi1, hle⟩ := skip_ok t (lt_of_lt_of_le hie he)
      obtain ⟨n, hn, hcn, hlt, hall⟩ := ih (i1 + 1) (cur + 1) (by omega)
      refine ⟨n, ?_, by omega, fun _ => by omega, ?_⟩
      · simp only [getNumArguments.loop, hie, if_true, ht, ok_bind, hi1, hn]
      · intro d hd hdn
        by_cases hdc : cur = d
        · subst hdc
          refine ⟨i, ?_, le_refl _, hie, ?_⟩
          · simp only [getArgument.loop, hie, if_true, pure_eq_ok]
          · intro hn1
            have hi1e : i1 + 1 < e := by
              by_contra hcon
              have : getNumArguments.loop tokens e fuel (i1 + 1) (cur + 1) = .ok (cur + 1) := by
                cases fuel with
                | zero => omega
                | succ f => simp only [getNumArguments.loop, hcon, if_false, pure_eq_ok]
              rw [this] at hn
              cases hn
              omega
            refine ⟨i1 + 1, ?_, ?_⟩
            · simp only [getNextArgument, ht, ok_bind]
              split
              · rename_i ho
                simp only [ho, if_true] at hi1
                simp only [hi1, ok_bind, pure_eq_ok]
              · rename_i ho
                simp only [ho, if_false, pure_eq_ok] at hi1
                cases hi1
                rfl
            · have hne : ¬ (cur = cur + 1) := by omega
              simp only [getArgument.loop, hie, if_true, hne, if_false, ht, ok_bind, hi1]
              cases fuel with
              | zero => omega
              | succ f => simp only [getArgument.loop, hi1e, if_true, pure_eq_ok]
        · obtain ⟨a, ha, hia, hae, hnext⟩ := hall d (by omega) hdn
          refine ⟨a, ?_, by omega, hae, ?_⟩
          · simp only [getArgument.loop, hie, if_true, hdc, if_false, ht, ok_bind, hi1, ha]
          · intro hn1
            obtain ⟨b, hb, hb2⟩ := hnext hn1
            refine ⟨b, hb, ?_⟩
            have hne : ¬ (cur = d + 1) := by omega
            simp only [getArgument.loop, hie, if_true, hne, if_false, ht, ok_bind, hi1, hb2]
    · refine ⟨cur, ?_, le_refl _, fun h => absurd h hie, ?_⟩
      · simp only [getNumArguments.loop, hie, if_false, pure_eq_ok]
      · intro d hd hdn; omega

theorem bind_eq_ok {α β : Type} {x : Except Fault α} {f : α → Except Fault β} {b : β} :
    (x >>= f) = .ok b ↔ ∃ a, x = .ok a ∧ f a = .ok b := by
  cases x with
  | error e => simp
  | ok a => simp

theorem templateLoop_noArray
    (recurse : Nat → Bool → List StringOutput → List StringOutput → Except Fault TypeLowering)
    (hrec : ∀ i ty af r, recurse i false ty af = .ok r → r.afterNameOutput = af)
    (tokens : List Token) (e : Nat) :
    ∀ (fuel p : Nat) (ty af : List StringOutput) (r : TypeLowering),
      tokenizedCTypeToString_Recursive.templateLoop recurse tokens e fuel p ty af = .ok r →
        r.afterNameOutput = af := by
  intro fuel
  induction fuel with
  | zero => intro p ty af r h; simp [tokenizedCTypeToString_Recursive.templateLoop] at h
  | succ fuel ih =>
    intro p ty af r h
    simp only [tokenizedCTypeToString_Recursive.templateLoop] at h
    split at h
    · simp only [bind_eq_ok] at h
      obtain ⟨r1, h1, h⟩ := h
      have := hrec _ _ _ _ h1
      split at h
      · simp at h; subst h; exact this
      · simp only [bind_eq_ok] at h
        obtain ⟨l, _, t, _, nx, _, h⟩ := h
        rw [ih _ _ _ _ h, this]
    · simp at h; subst h; rfl

theorem scopeLoop_noArray
    (recurse : Nat → Bool → List StringOutput → List StringOutput → Except Fault TypeLowering)
    (hrec : ∀ i ty af r, recurse i false ty af = .ok r → r.afterNameOutput = af)
    (tokens : List Token) (e : Nat) :
    ∀ (fuel p : Nat) (ty af : List StringOutput) (r : TypeLowering),
      tokenizedCTypeToString_Recursive.scopeLoop recurse tokens e fuel p ty af = .ok r →
        r.afterNameOutput = af := by
  intro fuel
  induction fuel with
  | zero => intro p ty af r h; simp [tokenizedCTypeToString_Recursive.scopeLoop] at h
  | succ fuel ih =>
    intro p ty af r h
    simp only [tokenizedCTypeToString_Recursive.scopeLoop] at h
    split at h
    · simp only [bind_eq_ok] at h
      obtain ⟨r1, h1, h⟩ := h
      have := hrec _ _ _ _ h1
      split at h
      · simp at h; subst h; exact this
      · simp only [bind_eq_ok] at h
        obtain ⟨l, _, nx, _, h⟩ := h
        rw [ih _ _ _ _ h, this]
    · simp at h; subst h; rfl

theorem constBranch_noArray
    (recurse : Nat → Bool → List StringOutput → List StringOutput → Except Fault TypeLowering)
    (hrec : ∀ i ty af r, recurse i false ty af = .ok r → r.afterNameOutput = af)
    (tokens : List Token) (s e : Nat) (ty af : List StringOutput) (r : TypeLowering)
    (h : tokenizedCTypeToString_Recursive.constBranch recurse tokens s e false ty af = .ok r) :
    r.afterNameOutput = af := by
  unfold tokenizedCTypeToString_Recursive.constBranch at h
  rw [bind_eq_ok] at h
  obtain ⟨ar, _, h⟩ := h
  split at h
  · simp at h; subst h; rfl
  · rw [bind_eq_ok] at h
    obtain ⟨ti, _, h⟩ := h
    split at h
    · simp at h; subst h; rfl
    · exact hrec _ _ _ _ h

theorem suffixBranch_noArray
    (recurse : Nat → Bool → List StringOutput → List StringOutput → Except Fault TypeLowering)
    (hrec : ∀ i ty af r, recurse i false ty af = .ok r → r.afterNameOutput = af)
    (tokens : List Token) (s e : Nat) (x : String) (ty af : List StringOutput) (r : TypeLowering)
    (h : tokenizedCTypeToString_Recursive.suffixBranch recurse tokens s e x false ty af = .ok r) :
    r.afterNameOutput = af := by
  unfold tokenizedCTypeToString_Recursive.suffixBranch at h
  rw [bind_eq_ok] at h
  obtain ⟨ar, _, h⟩ := h
  split at h
  · simp at h; subst h; rfl
  · rw [bind_eq_ok] at h
    obtain ⟨ti, _, h⟩ := h
    split at h
    · simp at h; subst h; rfl
    · rw [bind_eq_ok] at h
      obtain ⟨r1, h1, h⟩ := h
      have := hrec _ _ _ _ h1
      split at h <;> (simp at h; subst h; simpa using this)

theorem templateBranch_noArray
    (recurse : Nat → Bool → List StringOutput → List StringOutput → Except Fault TypeLowering)
    (hrec : ∀ i ty af r, recurse i false ty af = .ok r → r.afterNameOutput = af)
    (tokens : List Token) (s e : Nat) (ty af : List StringOutput) (r : TypeLowering)
    (h : tokenizedCTypeToString_Recursive.templateBranch recurse tokens s e false ty af = .ok r) :
    r.afterNameOutput = af := by
  unfold tokenizedCTypeToString_Recursive.templateBranch at h
  rw [bind_eq_ok] at h
  obtain ⟨ti, _, h⟩ := h
  split at h
  · simp at h; subst h; rfl
  · rw [bind_eq_ok] at h
    obtain ⟨r1, h1, h⟩ := h
    have h1a := hrec _ _ _ _ h1
    split at h
    · simp at h; subst h; exact h1a
    · rw [bind_eq_ok] at h
      obtain ⟨r2, h2, h⟩ := h
      have h2a := templateLoop_noArray recurse hrec tokens e _ _ _ _ _ h2
      split at h <;> (simp at h; subst h; simp [h2a, h1a])

theorem scopeBranch_noArray
    (recurse : Nat → Bool → List StringOutput → List StringOutput → Except Fault TypeLowering)
    (hrec : ∀ i ty af r, recurse i false ty af = .ok r → r.afterNameOutput = af)
    (tokens : List Token) (s e : Nat) (ty af : List StringOutput) (r : TypeLowering)
    (h : tokenizedCTypeToString_Recursive.scopeBranch recurse tokens s e ty af = .ok r) :
    r.afterNameOutput = af := by
  unfold tokenizedCTypeToString_Recursive.scopeBranch at h
  rw [bind_eq_ok] at h
  obtain ⟨ti, _, h⟩ := h
  split at h
  · simp at h; subst h; rfl
  · rw [bind_eq_ok] at h
    obtain ⟨r1, h1, h⟩ := h
    have h1a := scopeLoop_noArray recurse hrec tokens e _ _ _ _ _ h1
    split at h <;> (simp at h; subst h; simp [h1a])

theorem formBranch_noArray
    (recurse : Nat → Bool → List StringOutput → List StringOutput → Except Fault TypeLowering)
    (hrec : ∀ i ty af r, recurse i false ty af = .ok r → r.afterNameOutput = af)
    (tokens : List Token) (s e : Nat) (hd : Token) (ty af : List StringOutput) (r : TypeLowering)
    (h : tokenizedCTypeToString_Recursive.formBranch recurse tokens s e hd false ty af = .ok r) :
    r.afterNameOutput = af := by
  unfold tokenizedCTypeToString_Recursive.formBranch at h
  split at h
  · exact constBranch_noArray recurse hrec _ _ _ _ _ _ h
  split at h
  · exact suffixBranch_noArray recurse hrec _ _ _ _ _ _ _ h
  split at h
  · exact suffixBranch_noArray recurse hrec _ _ _ _ _ _ _ h
  split at h
  · exact templateBranch_noArray recurse hrec _ _ _ _ _ _ h
  split at h
  · simp [tokenizedCTypeToString_Recursive.arrayBranch] at h; subst h; rfl
  split at h
  · exact scopeBranch_noArray recurse hrec _ _ _ _ _ _ h
  · simp at h; subst h; rfl

theorem body_noArray
    (recurse : Nat → Bool → List StringOutput → List StringOutput → Except Fault TypeLowering)
    (hrec : ∀ i ty af r, recurse i false ty af = .ok r → r.afterNameOutput = af)
    (tokens : List Token) (s : Nat) (ty af : List StringOutput) (r : TypeLowering)
    (h : tokenizedCTypeToString_Recursive.body recurse tokens s false ty af = .ok r) :
    r.afterNameOutput = af := by
  unfold tokenizedCTypeToString_Recursive.body at h
  rw [bind_eq_ok] at h
  obtain ⟨t, _, h⟩ := h
  split at h
  · split at h <;> (simp at h; subst h; rfl)
  · rw [bind_eq_ok] at h
    obtain ⟨hd, _, h⟩ := h
    split at h
    · simp at h; subst h; rfl
    · rw [bind_eq_ok] at h
      obtain ⟨e, _, h⟩ := h
      exact formBranch_noArray recurse hrec _ _ _ _ _ _ _ h

theorem run_noArray (tokens : List Token) :
    ∀ (fuel s : Nat) (ty af : List StringOutput) (r : TypeLowering),
      tokenizedCTypeToString_Recursive.run fuel tokens s false ty af = .ok r →
        r.afterNameOutput = af := by
  intro fuel
  induction fuel with
  | zero => intro s ty af r h; simp [tokenizedCTypeToString_Recursive.run] at h
  | succ fuel ih =>
    intro s ty af r h
    rw [tokenizedCTypeToString_Recursive.run] at h
    exact body_noArray _ (fun i ty af r h => ih i ty af r h) _ _ _ _ _ h

theorem getArgument_loop_bounds (tokens : List Token) (d : Int) (e : Nat) :
    ∀ (fuel i : Nat) (cur : Int) (a : Int),
      getArgument.loop tokens d e fuel i cur = .ok a → a = -1 ∨ ((i : Int) ≤ a ∧ a < e) := by
  intro fuel
  induction fuel with
  | zero => intro i cur a h; simp [getArgument.loop] at h
  | succ fuel ih =>
    intro i cur a h
    rw [getArgument.loop] at h
    split at h
    · split at h
      · simp at h; subst h; right; constructor <;> omega
      · rw [bind_eq_ok] at h
        obtain ⟨t, ht, h⟩ := h
        rw [bind_eq_ok] at h
        obtain ⟨i1, hi1, h⟩ := h
        have hle : i ≤ i1 := by
          split at hi1
          · exact (findClose_bounds hi1).1
          · simp at hi1; omega
        rcases ih _ _ _ h with h | h
        · left; exact h
        · right; constructor <;> omega
    · simp at h; left; exact h.symm

theorem getArgument_bounds {tokens : List Token} {s e : Nat} {d a : Int}
    (h : getArgument tokens s d e = .ok a) : a = -1 ∨ ((s : Int) < a ∧ a < e) := by
  rcases getArgument_loop_bounds tokens d e _ _ _ _ h with h | h
  · left; exact h
  · right; constructor <;> omega

theorem getExpectedArgument_bounds {tokens : List Token} {s e : Nat} {d a : Int}
    (h : getExpectedArgument tokens s d e = .ok a) : a = -1 ∨ ((s : Int) < a ∧ a < e) := by
  unfold getExpectedArgument at h
  rw [bind_eq_ok] at h
  obtain ⟨a1, ha1, h⟩ := h
  have := getArgument_bounds ha1
  split at h
  · rw [bind_eq_ok] at h
    obtain ⟨_, _, h⟩ := h
    simp at h; subst h; exact this
  · simp at h; subst h; exact this

/-! ### The lowering only looks at larger indices -/

theorem templateLoop_congr
    (rec1 rec2 : Nat → Bool → List StringOutput → List StringOutput → Except Fault TypeLowering)
    (tokens : List Token) (e : Nat) :
    ∀ (fuel p : Nat) (ty af : List StringOutput),
      (∀ i a t f, p ≤ i → rec1 i a t f = rec2 i a t f) →
      tokenizedCTypeToString_Recursive.templateLoop rec1 tokens e fuel p ty af =
        tokenizedCTypeToString_Recursive.templateLoop rec2 tokens e fuel p ty af := by
  intro fuel
  induction fuel with
  | zero => intro p ty af _; simp only [tokenizedCTypeToString_Recursive.templateLoop]
  | succ fuel ih =>
    intro p ty af hrec
    simp only [tokenizedCTypeToString_Recursive.templateLoop]
    split
    · rw [hrec p false ty af (le_refl _)]
      cases rec2 p false ty af with
      | error err => simp only [error_bind]
      | ok r =>
        simp only [ok_bind]
        split
        · rfl
        · cases isLastArgument tokens p e with
          | error err => simp only [error_bind]
          | ok l =>
            simp only [ok_bind]
            cases ht : tokenAt tokens p with
            | error err => simp only [error_bind]
            | ok t =>
              simp only [ok_bind]
              cases hn : (if t.type = TokenType.OpenParen then FindCloseParenTokenIndex tokens p
                  else pure p) with
              | error err => simp only [error_bind]
              | ok nx =>
                simp only [ok_bind]
                have hle : p ≤ nx := by
                  split at hn
                  · exact (findClose_bounds hn).1
                  · simp at hn; omega
                exact ih _ _ _ (fun i a t f hi => hrec i a t f (by omega))
    · rfl

theorem getNextArgument_gt {tokens : List Token} {p e nx : Nat}
    (h : getNextArgument tokens p e = .ok nx) : p < nx := by
  unfold getNextArgument at h
  rw [bind_eq_ok] at h
  obtain ⟨t, _, h⟩ := h
  split at h
  · rw [bind_eq_ok] at h
    obtain ⟨c, hc, h⟩ := h
    have := (findClose_bounds hc).1
    simp at h; omega
  · simp at h; omega

theorem scopeLoop_congr
    (rec1 rec2 : Nat → Bool → List StringOutput → List StringOutput → Except Fault TypeLowering)
    (tokens : List Token) (e : Nat) :
    ∀ (fuel p : Nat) (ty af : List StringOutput),
      (∀ i a t f, p ≤ i → rec1 i a t f = rec2 i a t f) →
      tokenizedCTypeToString_Recursive.scopeLoop rec1 tokens e fuel p ty af =
        tokenizedCTypeToString_Recursive.scopeLoop rec2 tokens e fuel p ty af := by
  intro fuel
  induction fuel with
  | zero => intro p ty af _; simp only [tokenizedCTypeToString_Recursive.scopeLoop]
  | succ fuel ih =>
    intro p ty af hrec
    simp only [tokenizedCTypeToString_Recursive.scopeLoop]
    split
    · rw [hrec p false ty af (le_refl _)]
      cases rec2 p false ty af with
      | error err => simp only [error_bind]
      | ok r =>
        simp only [ok_bind]
        split
        · rfl
        · cases isLastArgument tokens p e with
          | error err => simp only [error_bind]
          | ok l =>
            simp only [ok_bind]
            cases hn : getNextArgument tokens p e with
            | error err => simp only [error_bind]
            | ok nx =>
              simp only [ok_bind]
              have hle := getNextArgument_gt hn
              exact ih _ _ _ (fun i a t f hi => hrec i a t f (by omega))
    · rfl

theorem toNat_gt_of_bounds {s e : Nat} {a : Int} (h : a = -1 ∨ ((s : Int) < a ∧ a < e))
    (hne : ¬ a = -1) : s < a.toNat ∧ a.toNat < e := by
  rcases h with h | h
  · exact absurd h hne
  · omega

theorem constBranch_congr
    (rec1 rec2 : Nat → Bool → List StringOutput → List StringOutput → Except Fault TypeLowering)
    (tokens : List Token) (s e : Nat) (allow : Bool) (ty af : List StringOutput)
    (hrec : ∀ i a t f, s < i → rec1 i a t f = rec2 i a t f) :
    tokenizedCTypeToString_Recursive.constBranch rec1 tokens s e allow ty af
      = tokenizedCTypeToString_Recursive.constBranch rec2 tokens s e allow ty af := by
  unfold tokenizedCTypeToString_Recursive.constBranch
  cases ExpectNumArguments tokens s e 2 with
  | error err => simp only [error_bind]
  | ok ar =>
    simp only [ok_bind]
    split
    · rfl
    · cases hti : getExpectedArgument tokens s 1 e with
      | error err => simp only [error_bind]
      | ok ti =>
        simp only [ok_bind]
        split
        · rfl
        · rename_i hne
          exact hrec _ _ _ _ (toNat_gt_of_bounds (getExpectedArgument_bounds hti) hne).1

theorem suffixBranch_congr
    (rec1 rec2 : Nat → Bool → List StringOutput → List StringOutput → Except Fault TypeLowering)
    (tokens : List Token) (s e : Nat) (x : String) (allow : Bool) (ty af : List StringOutput)
    (hrec : ∀ i a t f, s < i → rec1 i a t f = rec2 i a t f) :
    tokenizedCTypeToString_Recursive.suffixBranch rec1 tokens s e x allow ty af
      = tokenizedCTypeToString_Recursive.suffixBranch rec2 tokens s e x allow ty af := by
  unfold tokenizedCTypeToString_Recursive.suffixBranch
  cases ExpectNumArguments tokens s e 2 with
  | error err => simp only [error_bind]
  | ok ar =>
    simp only [ok_bind]
    split
    · rfl
    · cases hti : getExpectedArgument tokens s 1 e with
      | error err => simp only [error_bind]
      | ok ti =>
        simp only [ok_bind]
        split
        · rfl
        · rename_i hne
          rw [hrec _ _ _ _ (toNat_gt_of_bounds (getExpectedArgument_bounds hti) hne).1]

theorem templateBranch_congr
    (rec1 rec2 : Nat → Bool → List StringOutput → List StringOutput → Except Fault TypeLowering)
    (tokens : List Token) (s e : Nat) (allow : Bool) (ty af : List StringOutput)
    (hrec : ∀ i a t f, s < i → rec1 i a t f = rec2 i a t f) :
    tokenizedCTypeToString_Recursive.templateBranch rec1 tokens s e allow ty af
      = tokenizedCTypeToString_Recursive.templateBranch rec2 tokens s e allow ty af := by
  unfold tokenizedCTypeToString_Recursive.templateBranch
  cases hti : getExpectedArgument tokens s 1 e with
  | error err => simp only [error_bind]
  | ok ti =>
    simp only [ok_bind]
    split
    · rfl
    · rename_i hne
      have hb := (toNat_gt_of_bounds (getExpectedArgument_bounds hti) hne).1
      rw [hrec _ _ _ _ hb]
      cases rec2 ti.toNat allow ty af with
      | error err => simp only [error_bind]
      | ok r =>
        simp only [ok_bind]
        split
        · rfl
        · rw [templateLoop_congr rec1 rec2 tokens e _ _ _ _
            (fun i a t f hi => hrec i a t f (by omega))]

theorem arrayBranch_congr
    (rec1 rec2 : Nat → Bool → List StringOutput → List StringOutput → Except Fault TypeLowering)
    (tokens : List Token) (s e : Nat) (allow : Bool) (ty af : List StringOutput)
    (hrec : ∀ i a t f, s < i → rec1 i a t f = rec2 i a t f) :
    tokenizedCTypeToString_Recursive.arrayBranch rec1 tokens s e allow ty af
      = tokenizedCTypeToString_Recursive.arrayBranch rec2 tokens s e allow ty af := by
  unfold tokenizedCTypeToString_Recursive.arrayBranch
  split
  · rfl
  · cases hfi : getExpectedArgument tokens s 1 e with
    | error err => simp only [error_bind]
    | ok fi =>
      simp only [ok_bind]
      split
      · rfl
      · rename_i hne
        have hb := (toNat_gt_of_bounds (getExpectedArgument_bounds hfi) hne).1
        cases tokenAt tokens fi.toNat with
        | error err => simp only [error_bind]
        | ok fa =>
          simp only [ok_bind]
          split
          · cases hti : getExpectedArgument tokens s 2 e with
            | error err => simp only [error_bind]
            | ok ti =>
              simp only [ok_bind]
              split
              · rfl
              · rename_i hne2
                exact hrec _ _ _ _
                  (toNat_gt_of_bounds (getExpectedArgument_bounds hti) hne2).1
          · exact hrec _ _ _ _ hb

theorem scopeBranch_congr
    (rec1 rec2 : Nat → Bool → List StringOutput → List StringOutput → Except Fault TypeLowering)
    (tokens : List Token) (s e : Nat) (ty af : List StringOutput)
    (hrec : ∀ i a t f, s < i → rec1 i a t f = rec2 i a t f) :
    tokenizedCTypeToString_Recursive.scopeBranch rec1 tokens s e ty af
      = tokenizedCTypeToString_Recursive.scopeBranch rec2 tokens s e ty af := by
  unfold tokenizedCTypeToString_Recursive.scopeBranch
  cases hti : getExpectedArgument tokens s 1 e with
  | error err => simp only [error_bind]
  | ok ti =>
    simp only [ok_bind]
    split
    · rfl
    · rename_i hne
      have hb := (toNat_gt_of_bounds (getExpectedArgument_bounds hti) hne).1
      rw [scopeLoop_congr rec1 rec2 tokens e _ _ _ _
        (fun i a t f hi => hrec i a t f (by omega))]

theorem formBranch_congr
    (rec1 rec2 : Nat → Bool → List StringOutput → List StringOutput → Except Fault TypeLowering)
    (tokens : List Token) (s e : Nat) (hd : Token) (allow : Bool) (ty af : List StringOutput)
    (hrec : ∀ i a t f, s < i → rec1 i a t f = rec2 i a t f) :
    tokenizedCTypeToString_Recursive.formBranch rec1 tokens s e hd allow ty af
      = tokenizedCTypeToString_Recursive.formBranch rec2 tokens s e hd allow ty af := by
  unfold tokenizedCTypeToString_Recursive.formBranch
  rw [constBranch_congr rec1 rec2 tokens s e allow ty af hrec,
    suffixBranch_congr rec1 rec2 tokens s e hd.contents allow ty af hrec,
    suffixBranch_congr rec1 rec2 tokens s e "&&" allow ty af hrec,
    templateBranch_congr rec1 rec2 tokens s e allow ty af hrec,
    arrayBranch_congr rec1 rec2 tokens s e allow ty af hrec,
    scopeBranch_congr rec1 rec2 tokens s e ty af hrec]

theorem body_congr
    (rec1 rec2 : Nat → Bool → List StringOutput → List StringOutput → Except Fault TypeLowering)
    (tokens : List Token) (s : Nat) (allow : Bool) (ty af : List StringOutput)
    (hrec : ∀ i a t f, s < i → rec1 i a t f = rec2 i a t f) :
    tokenizedCTypeToString_Recursive.body rec1 tokens s allow ty af =
      tokenizedCTypeToString_Recursive.body rec2 tokens s allow ty af := by
  unfold tokenizedCTypeToString_Recursive.body
  cases tokenAt tokens s with
  | error err => simp only [error_bind]
  | ok t =>
    simp only [ok_bind]
    split
    · rfl
    · cases tokenAt tokens (s + 1) with
      | error err => simp only [error_bind]
      | ok hd =>
        simp only [ok_bind]
        split
        · rfl
        · cases FindCloseParenTokenIndex tokens s with
          | error err => simp only [error_bind]
          | ok e =>
            simp only [ok_bind]
            exact formBranch_congr rec1 rec2 tokens s e hd allow ty af hrec

theorem run_fuel_irrelevant (tokens : List Token) :
    ∀ (n s : Nat), tokens.length - s + 1 ≤ n → ∀ (m : Nat), n ≤ m →
      ∀ (allow : Bool) (ty af : List StringOutput),
        tokenizedCTypeToString_Recursive.run m tokens s allow ty af =
          tokenizedCTypeToString_Recursive.run n tokens s allow ty af := by
  intro n
  induction n with
  | zero => intro s h; omega
  | succ n ih =>
    intro s hn m hm allow ty af
    obtain ⟨m, rfl⟩ : ∃ m', m = m' + 1 := ⟨m - 1, by omega⟩
    rw [tokenizedCTypeToString_Recursive.run, tokenizedCTypeToString_Recursive.run]
    by_cases hs : s < tokens.length
    · apply body_congr
      intro i a t f hi
      exact ih i (by omega) m (by omega) a t f
    · unfold tokenizedCTypeToString_Recursive.body
      have : tokenAt tokens s = .error Fault.outOfBounds := by
        unfold tokenAt
        rw [List.getElem?_eq_none (by omega)]
      rw [this]
      simp only [error_bind]

/-- The recursive call inside a lowering at a smaller index is the lowering itself. -/
theorem run_eq_top (tokens : List Token) (m s : Nat) (h : tokens.length - s + 1 ≤ m)
    (allow : Bool) (ty af : List StringOutput) :
    tokenizedCTypeToString_Recursive.run m tokens s allow ty af =
      tokenizedCTypeToString_Recursive tokens s allow ty af :=
  run_fuel_irrelevant tokens _ s (le_refl _) m h allow ty af

@[simp] theorem map_ok {α β : Type} (f : α → β) (a : α) :
    Except.map f (Except.ok a : Except Fault α) = Except.ok (f a) := rfl

@[simp] theorem map_error {α β : Type} (f : α → β) (e : Fault) :
    Except.map f (Except.error e : Except Fault α) = Except.error e := rfl

@[simp] theorem prepend_success (ty0 af0 : List StringOutput) (r : TypeLowering) :
    (r.prepend ty0 af0).success = r.success := rfl

@[simp] theorem prepend_typeOutput (ty0 af0 : List StringOutput) (r : TypeLowering) :
    (r.prepend ty0 af0).typeOutput = ty0 ++ r.typeOutput := rfl

@[simp] theorem prepend_afterNameOutput (ty0 af0 : List StringOutput) (r : TypeLowering) :
    (r.prepend ty0 af0).afterNameOutput = af0 ++ r.afterNameOutput := rfl

@[simp] theorem prepend_errorToken (ty0 af0 : List StringOutput) (r : TypeLowering) :
    (r.prepend ty0 af0).errorToken = r.errorToken := rfl

theorem prepend_mk (ty0 af0 : List StringOutput) (b : Bool) (ty af : List StringOutput)
    (err : Option Nat) :
    (TypeLowering.mk b ty af err).prepend ty0 af0 = ⟨b, ty0 ++ ty, af0 ++ af, err⟩ := rfl

theorem addStringOutput_append (ty0 ty : List StringOutput) (x : String)
    (m : StringOutputModifierFlags) (k : Nat) :
    addStringOutput (ty0 ++ ty) x m k = ty0 ++ addStringOutput ty x m k := by
  simp [addStringOutput]

theorem addLangTokenOutput_append (ty0 ty : List StringOutput)
    (m : StringOutputModifierFlags) (k : Nat) :
    addLangTokenOutput (ty0 ++ ty) m k = ty0 ++ addLangTokenOutput ty m k := by
  simp [addLangTokenOutput]

theorem templateLoop_framed
    (recurse : Nat → Bool → List StringOutput → List StringOutput → Except Fault TypeLowering)
    (hrec : Framed recurse) (tokens : List Token) (e : Nat) :
    ∀ (fuel p : Nat) (ty0 af0 ty af : List StringOutput),
      tokenizedCTypeToString_Recursive.templateLoop recurse tokens e fuel p (ty0 ++ ty)
          (af0 ++ af) =
        (tokenizedCTypeToString_Recursive.templateLoop recurse tokens e fuel p ty af).map
          (TypeLowering.prepend ty0 af0) := by
  intro fuel
  induction fuel with
  | zero =>
    intro p ty0 af0 ty af
    simp only [tokenizedCTypeToString_Recursive.templateLoop, map_error]
  | succ fuel ih =>
    intro p ty0 af0 ty af
    simp only [tokenizedCTypeToString_Recursive.templateLoop]
    split
    · rw [hrec p false ty0 af0 ty af]
      cases recurse p false ty af with
      | error err => simp only [map_error, error_bind]
      | ok r =>
        simp only [map_ok, ok_bind, prepend_success]
        split
        · simp only [pure_eq_ok, map_ok]
        · cases isLastArgument tokens p e with
          | error err => simp only [map_error, error_bind]
          | ok l =>
            simp only [ok_bind]
            cases tokenAt tokens p with
            | error err => simp only [map_error, error_bind]
            | ok t =>
              simp only [ok_bind]
              cases (if t.type = TokenType.OpenParen then FindCloseParenTokenIndex tokens p
                  else pure p) with
              | error err => simp only [map_error, error_bind]
              | ok nx =>
                simp only [ok_bind, prepend_typeOutput, prepend_afterNameOutput]
                rw [← ih]
                congr 1
                split
                · rw [addLangTokenOutput_append]
                · rfl
    · simp only [pure_eq_ok, map_ok, prepend_mk]

theorem scopeLoop_framed
    (recurse : Nat → Bool → List StringOutput → List StringOutput → Except Fault TypeLowering)
    (hrec : Framed recurse) (tokens : List Token) (e : Nat) :
    ∀ (fuel p : Nat) (ty0 af0 ty af : List StringOutput),
      tokenizedCTypeToString_Recursive.scopeLoop recurse tokens e fuel p (ty0 ++ ty)
          (af0 ++ af) =
        (tokenizedCTypeToString_Recursive.scopeLoop recurse tokens e fuel p ty af).map
          (TypeLowering.prepend ty0 af0) := by
  intro fuel
  induction fuel with
  | zero =>
    intro p ty0 af0 ty af
    simp only [tokenizedCTypeToString_Recursive.scopeLoop, map_error]
  | succ fuel ih =>
    intro p ty0 af0 ty af
    simp only [tokenizedCTypeToString_Recursive.scopeLoop]
    split
    · rw [hrec p false ty0 af0 ty af]
      cases recurse p false ty af with
      | error err => simp only [map_error, error_bind]
      | ok r =>
        simp only [map_ok, ok_bind, prepend_success]
        split
        · simp only [pure_eq_ok, map_ok]
        · cases isLastArgument tokens p e with
          | error err => simp only [map_error, error_bind]
          | ok l =>
            simp only [ok_bind]
            cases getNextArgument tokens p e with
            | error err => simp only [map_error, error_bind]
            | ok nx =>
              simp only [ok_bind, prepend_typeOutput, prepend_afterNameOutput]
              rw [← ih]
              congr 1
              split
              · rw [addStringOutput_append]
              · rfl
    · simp only [pure_eq_ok, map_ok, prepend_mk]

theorem constBranch_framed
    (recurse : Nat → Bool → List StringOutput → List StringOutput → Except Fault TypeLowering)
    (hrec : Framed recurse) (tokens : List Token) (s e : Nat) (allow : Bool)
    (ty0 af0 ty af : List StringOutput) :
    tokenizedCTypeToString_Recursive.constBranch recurse tokens s e allow (ty0 ++ ty)
        (af0 ++ af) =
      (tokenizedCTypeToString_Recursive.constBranch recurse tokens s e allow ty af).map
        (TypeLowering.prepend ty0 af0) := by
  unfold tokenizedCTypeToString_Recursive.constBranch
  cases ExpectNumArguments tokens s e 2 with
  | error err => simp only [map_error, error_bind]
  | ok ar =>
    simp only [ok_bind]
    split
    · simp only [pure_eq_ok, map_ok, prepend_mk]
    · cases getExpectedArgument tokens s 1 e with
      | error err => simp only [map_error, error_bind]
      | ok ti =>
        simp only [ok_bind]
        split
        · simp only [pure_eq_ok, map_ok, prepend_mk, addStringOutput_append]
        · rw [addStringOutput_append, hrec]

theorem suffixBranch_framed
    (recurse : Nat → Bool → List StringOutput → List StringOutput → Except Fault TypeLowering)
    (hrec : Framed recurse) (tokens : List Token) (s e : Nat) (x : String) (allow : Bool)
    (ty0 af0 ty af : List StringOutput) :
    tokenizedCTypeToString_Recursive.suffixBranch recurse tokens s e x allow (ty0 ++ ty)
        (af0 ++ af) =
      (tokenizedCTypeToString_Recursive.suffixBranch recurse tokens s e x allow ty af).map
        (TypeLowering.prepend ty0 af0) := by
  unfold tokenizedCTypeToString_Recursive.suffixBranch
  cases ExpectNumArguments tokens s e 2 with
  | error err => simp only [map_error, error_bind]
  | ok ar =>
    simp only [ok_bind]
    split
    · simp only [pure_eq_ok, map_ok, prepend_mk]
    · cases getExpectedArgument tokens s 1 e with
      | error err => simp only [map_error, error_bind]
      | ok ti =>
        simp only [ok_bind]
        split
        · simp only [pure_eq_ok, map_ok, prepend_mk]
        · rw [hrec]
          cases recurse ti.toNat allow ty af with
          | error err => simp only [map_error, error_bind]
          | ok r =>
            simp only [map_ok, ok_bind, prepend_success]
            split
            · simp only [pure_eq_ok, map_ok]
            · simp only [pure_eq_ok, map_ok, prepend_mk, prepend_typeOutput,
                prepend_afterNameOutput, addStringOutput_append]

theorem templateBranch_framed
    (recurse : Nat → Bool → List StringOutput → List StringOutput → Except Fault TypeLowering)
    (hrec : Framed recurse) (tokens : List Token) (s e : Nat) (allow : Bool)
    (ty0 af0 ty af : List StringOutput) :
    tokenizedCTypeToString_Recursive.templateBranch recurse tokens s e allow (ty0 ++ ty)
        (af0 ++ af) =
      (tokenizedCTypeToString_Recursive.templateBranch recurse tokens s e allow ty af).map
        (TypeLowering.prepend ty0 af0) := by
  unfold tokenizedCTypeToString_Recursive.templateBranch
  cases getExpectedArgument tokens s 1 e with
  | error err => simp only [map_error, error_bind]
  | ok ti =>
    simp only [ok_bind]
    split
    · simp only [pure_eq_ok, map_ok, prepend_mk]
    · rw [hrec]
      cases recurse ti.toNat allow ty af with
      | error err => simp only [map_error, error_bind]
      | ok r =>
        simp only [map_ok, ok_bind, prepend_success]
        split
        · simp only [pure_eq_ok, map_ok]
        · simp only [prepend_typeOutput, prepend_afterNameOutput, addStringOutput_append]
          rw [templateLoop_framed recurse hrec]
          cases tokenizedCTypeToString_Recursive.templateLoop recurse tokens e
              (e - ti.toNat + 1) (ti.toNat + 1)
              (addStringOutput r.typeOutput "<" StringOutMod_None (s + 1))
              r.afterNameOutput with
          | error err => simp only [map_error, error_bind]
          | ok r2 =>
            simp only [map_ok, ok_bind, prepend_success]
            split
            · simp only [pure_eq_ok, map_ok]
            · simp only [pure_eq_ok, map_ok, prepend_mk, prepend_typeOutput,
                prepend_afterNameOutput, addStringOutput_append]

theorem arrayBranch_framed
    (recurse : Nat → Bool → List StringOutput → List StringOutput → Except Fault TypeLowering)
    (hrec : Framed recurse) (tokens : List Token) (s e : Nat) (allow : Bool)
    (ty0 af0 ty af : List StringOutput) :
    tokenizedCTypeToString_Recursive.arrayBranch recurse tokens s e allow (ty0 ++ ty)
        (af0 ++ af) =
      (tokenizedCTypeToString_Recursive.arrayBranch recurse tokens s e allow ty af).map
        (TypeLowering.prepend ty0 af0) := by
  unfold tokenizedCTypeToString_Recursive.arrayBranch
  split
  · simp only [pure_eq_ok, map_ok, prepend_mk]
  · cases getExpectedArgument tokens s 1 e with
    | error err => simp only [map_error, error_bind]
    | ok fi =>
      simp only [ok_bind]
      split
      · simp only [pure_eq_ok, map_ok, prepend_mk]
      · cases tokenAt tokens fi.toNat with
        | error err => simp only [map_error, error_bind]
        | ok fa =>
          simp only [ok_bind]
          split
          · cases getExpectedArgument tokens s 2 e with
            | error err => simp only [map_error, error_bind]
            | ok ti =>
              simp only [ok_bind]
              split
              · simp only [pure_eq_ok, map_ok, prepend_mk]
              · simp only [addStringOutput_append]
                rw [hrec]
          · simp only [addStringOutput_append]
            rw [hrec]

theorem scopeBranch_framed
    (recurse : Nat → Bool → List StringOutput → List StringOutput → Except Fault TypeLowering)
    (hrec : Framed recurse) (tokens : List Token) (s e : Nat)
    (ty0 af0 ty af : List StringOutput) :
    tokenizedCTypeToString_Recursive.scopeBranch recurse tokens s e (ty0 ++ ty)
        (af0 ++ af) =
      (tokenizedCTypeToString_Recursive.scopeBranch recurse tokens s e ty af).map
        (TypeLowering.prepend ty0 af0) := by
  unfold tokenizedCTypeToString_Recursive.scopeBranch
  cases getExpectedArgument tokens s 1 e with
  | error err => simp only [map_error, error_bind]
  | ok ti =>
    simp only [ok_bind]
    split
    · simp only [pure_eq_ok, map_ok, prepend_mk]
    · rw [scopeLoop_framed recurse hrec]
      cases tokenizedCTypeToString_Recursive.scopeLoop recurse tokens e
          (e - ti.toNat + 1) ti.toNat ty af with
      | error err => simp only [map_error, error_bind]
      | ok r =>
        simp only [map_ok, ok_bind, prepend_success]
        split
        · simp only [pure_eq_ok, map_ok]
        · simp only [pure_eq_ok, map_ok, prepend_mk, prepend_typeOutput,
            prepend_afterNameOutput]

theorem formBranch_framed
    (recurse : Nat → Bool → List StringOutput → List StringOutput → Except Fault TypeLowering)
    (hrec : Framed recurse) (tokens : List Token) (s e : Nat) (hd : Token) (allow : Bool)
    (ty0 af0 ty af : List StringOutput) :
    tokenizedCTypeToString_Recursive.formBranch recurse tokens s e hd allow (ty0 ++ ty)
        (af0 ++ af) =
      (tokenizedCTypeToString_Recursive.formBranch recurse tokens s e hd allow ty af).map
        (TypeLowering.prepend ty0 af0) := by
  unfold tokenizedCTypeToString_Recursive.formBranch
  split
  · exact constBranch_framed recurse hrec _ _ _ _ _ _ _ _
  split
  · exact suffixBranch_framed recurse hrec _ _ _ _ _ _ _ _ _
  split
  · exact suffixBranch_framed recurse hrec _ _ _ _ _ _ _ _ _
  split
  · exact templateBranch_framed recurse hrec _ _ _ _ _ _ _ _
  split
  · exact arrayBranch_framed recurse hrec _ _ _ _ _ _ _ _
  split
  · exact scopeBranch_framed recurse hrec _ _ _ _ _ _ _
  · simp only [pure_eq_ok, map_ok, prepend_mk]

theorem body_framed
    (recurse : Nat → Bool → List StringOutput → List StringOutput → Except Fault TypeLowering)
    (hrec : Framed recurse) (tokens : List Token) (s : Nat) (allow : Bool)
    (ty0 af0 ty af : List StringOutput) :
    tokenizedCTypeToString_Recursive.body recurse tokens s allow (ty0 ++ ty) (af0 ++ af) =
      (tokenizedCTypeToString_Recursive.body recurse tokens s allow ty af).map
        (TypeLowering.prepend ty0 af0) := by
  unfold tokenizedCTypeToString_Recursive.body
  cases tokenAt tokens s with
  | error err => simp only [map_error, error_bind]
  | ok t =>
    simp only [ok_bind]
    split
    · split
      · simp only [pure_eq_ok, map_ok, prepend_mk]
      · simp only [pure_eq_ok, map_ok, prepend_mk, addStringOutput_append]
    · cases tokenAt tokens (s + 1) with
      | error err => simp only [map_error, error_bind]
      | ok hd =>
        simp only [ok_bind]
        split
        · simp only [pure_eq_ok, map_ok, prepend_mk]
        · cases FindCloseParenTokenIndex tokens s with
          | error err => simp only [map_error, error_bind]
          | ok e =>
            simp only [ok_bind]
            exact formBranch_framed recurse hrec _ _ _ _ _ _ _ _ _

theorem run_framed (tokens : List Token) :
    ∀ fuel : Nat, Framed (fun i a t f => tokenizedCTypeToString_Recursive.run fuel tokens i a t f) := by
  intro fuel
  induction fuel with
  | zero =>
    intro i a ty0 af0 ty af
    simp only [tokenizedCTypeToString_Recursive.run, map_error]
  | succ fuel ih =>
    intro i a ty0 af0 ty af
    simp only [tokenizedCTypeToString_Recursive.run]
    exact body_framed _ ih _ _ _ _ _ _ _

/-- Frame property of the lowering: what the buffers held before the call stays in
front, and the records appended do not depend on it. -/
theorem lowering_framed (tokens : List Token) (s : Nat) (allow : Bool)
    (ty af : List StringOutput) :
    tokenizedCTypeToString_Recursive tokens s allow ty af =
      (tokenizedCTypeToString_Recursive tokens s allow [] []).map
        (TypeLowering.prepend ty af) := by
  have := run_framed tokens (tokens.length - s + 1) s allow ty af [] []
  simpa [tokenizedCTypeToString_Recursive] using this

/-! ### Balanced segments -/

theorem tokensBetween_eq_segment (tokens : List Token) (s e : Nat) :
    tokensBetween tokens s e = segment tokens (s + 1) e := rfl

theorem segment_split (tokens : List Token) {a b c : Nat} (hab : a ≤ b) (hbc : b ≤ c) :
    segment tokens a c = segment tokens a b ++ segment tokens b c := by
  unfold segment
  rw [show c - a = (b - a) + (c - b) by omega, List.take_add, List.drop_drop,
    show a + (b - a) = b by omega]

theorem segment_self (tokens : List Token) (a : Nat) : segment tokens a a = [] := by
  simp [segment]

theorem segment_single {tokens : List Token} {a : Nat} {t : Token} (h : tokens[a]? = some t) :
    segment tokens a (a + 1) = [t] := by
  have hl := (List.getElem?_eq_some_iff.1 h).1
  unfold segment
  rw [List.drop_eq_getElem_cons hl, show a + 1 - a = 1 by omega, List.take_succ_cons,
    List.take_zero, (List.getElem?_eq_some_iff.1 h).2]

theorem balancedFrom_cons (d : Nat) (t : Token) (rest : List Token) :
    balancedFrom d (t :: rest) =
      if t.type = TokenType.OpenParen then balancedFrom (d + 1) rest
      else if t.type = TokenType.CloseParen then d != 0 && balancedFrom (d - 1) rest
      else balancedFrom d rest := rfl

theorem balancedFrom_append (l1 : List Token) :
    ∀ (j k : Nat) (l2 : List Token), balancedFrom j l1 = true →
      balancedFrom (k + j) (l1 ++ l2) = balancedFrom k l2 := by
  induction l1 with
  | nil =>
    intro j k l2 h
    simp [balancedFrom] at h
    simp [h]
  | cons t l1 ih =>
    intro j k l2 h
    rw [balancedFrom_cons] at h
    rw [List.cons_append, balancedFrom_cons]
    by_cases h1 : t.type = TokenType.OpenParen
    · rw [if_pos h1] at h ⊢
      exact ih (j + 1) k l2 h
    · by_cases h2 : t.type = TokenType.CloseParen
      · rw [if_neg h1, if_pos h2] at h ⊢
        simp at h
        obtain ⟨hj, h⟩ := h
        have := ih (j - 1) k l2 h
        rw [show k + j - 1 = k + (j - 1) by omega, this]
        simp
        omega
      · rw [if_neg h1, if_neg h2] at h ⊢
        exact ih j k l2 h

theorem argumentAt_bounds {tokens : List Token} {p e : Nat} (h : ArgumentAt tokens p e) :
    p ≤ e ∧ e < tokens.length := by
  rcases h with ⟨h, rfl⟩ | ⟨hlt, _, he, _⟩
  · rcases h with h | h
    · obtain ⟨_, _, _, hl⟩ := typeAt_eq_some h
      exact ⟨le_refl _, hl⟩
    · obtain ⟨_, _, _, hl⟩ := typeAt_eq_some h
      exact ⟨le_refl _, hl⟩
  · obtain ⟨_, _, _, hl⟩ := typeAt_eq_some he
    exact ⟨le_of_lt hlt, hl⟩

theorem argumentAt_balanced {tokens : List Token} {p e : Nat} (h : ArgumentAt tokens p e) :
    balancedFrom 0 (segment tokens p (e + 1)) = true := by
  rcases h with ⟨h, rfl⟩ | ⟨hlt, hs, he, hb⟩
  · rcases h with h | h
    · obtain ⟨t, ht, htt, _⟩ := typeAt_eq_some h
      rw [segment_single ht]
      simp [balancedFrom, htt]
    · obtain ⟨t, ht, htt, _⟩ := typeAt_eq_some h
      rw [segment_single ht]
      simp [balancedFrom, htt]
  · obtain ⟨ts, hts, htst, _⟩ := typeAt_eq_some hs
    obtain ⟨te, hte, htet, _⟩ := typeAt_eq_some he
    rw [segment_split tokens (show p ≤ p + 1 by omega) (show p + 1 ≤ e + 1 by omega),
      segment_split tokens (show p + 1 ≤ e by omega) (show e ≤ e + 1 by omega),
      segment_single hts, segment_single hte]
    rw [tokensBetween_eq_segment] at hb
    rw [List.singleton_append, balancedFrom_cons, if_pos htst]
    have := balancedFrom_append (segment tokens (p + 1) e) 0 1 [te] hb
    simp only [Nat.add_zero] at this
    rw [zero_add, this]
    simp [balancedFrom, htet]

theorem argumentsAt_le {tokens : List Token} :
    ∀ {spans : List (Nat × Nat)} {p q : Nat}, ArgumentsAt tokens p spans q → p ≤ q
  | [], p, q, h => by simp [ArgumentsAt] at h; omega
  | span :: rest, p, q, h => by
    obtain ⟨h1, h2, h3⟩ := h
    have := argumentsAt_le h3
    have := argumentAt_bounds h2
    omega

theorem argumentsAt_balanced {tokens : List Token} :
    ∀ {spans : List (Nat × Nat)} {p q : Nat}, ArgumentsAt tokens p spans q →
      balancedFrom 0 (segment tokens p q) = true
  | [], p, q, h => by
    simp [ArgumentsAt] at h
    subst h
    rw [segment_self]
    rfl
  | span :: rest, p, q, h => by
    obtain ⟨h1, h2, h3⟩ := h
    have hle := argumentsAt_le h3
    have hb := argumentAt_bounds h2
    rw [h1] at h2 hb
    rw [segment_split tokens (show p ≤ span.2 + 1 by omega) hle]
    have := balancedFrom_append _ 0 0 (segment tokens (span.2 + 1) q) (argumentAt_balanced h2)
    simp only [Nat.add_zero] at this
    rw [this]
    exact argumentsAt_balanced h3

theorem formAt_range {tokens : List Token} {s e : Nat} {spans : List (Nat × Nat)}
    (h : FormAt tokens s spans e) : InvocationRange tokens s e := by
  obtain ⟨hs, ha, he⟩ := h
  have hle := argumentsAt_le ha
  refine ⟨by omega, hs, he, ?_⟩
  rw [tokensBetween_eq_segment]
  exact argumentsAt_balanced ha

theorem formAt_findClose {tokens : List Token} {s e : Nat} {spans : List (Nat × Nat)}
    (h : FormAt tokens s spans e) : FindCloseParenTokenIndex tokens s = .ok e :=
  findClose_of_range (formAt_range h)

/-! ### Navigation over a written-out argument list -/

theorem argumentAt_step {tokens : List Token} {p e : Nat} (h : ArgumentAt tokens p e) :
    ∃ t, tokens[p]? = some t ∧ tokenAt tokens p = .ok t ∧
      (if t.type = TokenType.OpenParen then FindCloseParenTokenIndex tokens p else pure p)
        = .ok e := by
  rcases h with ⟨h, rfl⟩ | h
  · rcases h with h | h
    · obtain ⟨t, ht, htt, _⟩ := typeAt_eq_some h
      exact ⟨t, ht, tokenAt_of_getElem? ht, by simp [htt]⟩
    · obtain ⟨t, ht, htt, _⟩ := typeAt_eq_some h
      exact ⟨t, ht, tokenAt_of_getElem? ht, by simp [htt]⟩
  · obtain ⟨t, ht, htt, _⟩ := typeAt_eq_some h.2.1
    exact ⟨t, ht, tokenAt_of_getElem? ht, by simp [htt, findClose_of_range h]⟩

theorem getNumArguments_loop_arguments {tokens : List Token} {q : Nat} :
    ∀ (spans : List (Nat × Nat)) (p fuel : Nat) (cur : Int),
      ArgumentsAt tokens p spans q → q - p + 1 ≤ fuel →
        getNumArguments.loop tokens q fuel p cur = .ok (cur + spans.length)
  | [], p, fuel, cur, h, hf => by
    simp [ArgumentsAt] at h
    obtain ⟨fuel, rfl⟩ : ∃ f, fuel = f + 1 := ⟨fuel - 1, by omega⟩
    simp [getNumArguments.loop, h]
  | span :: rest, p, fuel, cur, h, hf => by
    obtain ⟨h1, h2, h3⟩ := h
    have hle := argumentsAt_le h3
    have hb := argumentAt_bounds h2
    obtain ⟨t, _, ht, hstep⟩ := argumentAt_step h2
    rw [h1] at ht hstep hb
    obtain ⟨fuel, rfl⟩ : ∃ f, fuel = f + 1 := ⟨fuel - 1, by omega⟩
    have hpq : p < q := by omega
    simp only [getNumArguments.loop, hpq, if_true, ht, ok_bind, hstep]
    rw [getNumArguments_loop_arguments rest (span.2 + 1) fuel (cur + 1) h3 (by omega)]
    simp only [List.length_cons]
    congr 1
    push_cast
    ring

theorem getArgument_loop_arguments {tokens : List Token} {q : Nat} :
    ∀ (spans : List (Nat × Nat)) (p fuel : Nat) (cur : Int) (k : Nat),
      ArgumentsAt tokens p spans q → q - p + 1 ≤ fuel →
        getArgument.loop tokens (cur + k) q fuel p cur =
          .ok (match spans[k]? with
            | some span => (span.1 : Int)
            | none => -1)
  | [], p, fuel, cur, k, h, hf => by
    simp [ArgumentsAt] at h
    obtain ⟨fuel, rfl⟩ : ∃ f, fuel = f + 1 := ⟨fuel - 1, by omega⟩
    simp [getArgument.loop, h]
  | span :: rest, p, fuel, cur, k, h, hf => by
    obtain ⟨h1, h2, h3⟩ := h
    have hle := argumentsAt_le h3
    have hb := argumentAt_bounds h2
    obtain ⟨t, _, ht, hstep⟩ := argumentAt_step h2
    rw [h1] at ht hstep hb
    obtain ⟨fuel, rfl⟩ : ∃ f, fuel = f + 1 := ⟨fuel - 1, by omega⟩
    have hpq : p < q := by omega
    cases k with
    | zero =>
      simp [getArgument.loop, hpq, h1]
    | succ k =>
      have hne : ¬ (cur = cur + ((k + 1 : Nat) : Int)) := by push_cast; omega
      simp only [getArgument.loop, hpq, if_true, hne, if_false, ht, ok_bind, hstep]
      have := getArgument_loop_arguments rest (span.2 + 1) fuel (cur + 1) k h3 (by omega)
      rw [show cur + ((k + 1 : Nat) : Int) = cur + 1 + (k : Int) by push_cast; ring, this]
      simp

theorem getArgument_loop_negative {tokens : List Token} {q : Nat} (d : Int) :
    ∀ (spans : List (Nat × Nat)) (p fuel : Nat) (cur : Int),
      ArgumentsAt tokens p spans q → q - p + 1 ≤ fuel → d < cur →
        getArgument.loop tokens d q fuel p cur = .ok (-1)
  | [], p, fuel, cur, h, hf, hd => by
    simp [ArgumentsAt] at h
    obtain ⟨fuel, rfl⟩ : ∃ f, fuel = f + 1 := ⟨fuel - 1, by omega⟩
    simp [getArgument.loop, h]
  | span :: rest, p, fuel, cur, h, hf, hd => by
    obtain ⟨h1, h2, h3⟩ := h
    have hle := argumentsAt_le h3
    have hb := argumentAt_bounds h2
    obtain ⟨t, _, ht, hstep⟩ := argumentAt_step h2
    rw [h1] at ht hstep hb
    obtain ⟨fuel, rfl⟩ : ∃ f, fuel = f + 1 := ⟨fuel - 1, by omega⟩
    have hpq : p < q := by omega
    have hne : ¬ (cur = d) := by omega
    simp only [getArgument.loop, hpq, if_true, hne, if_false, ht, ok_bind, hstep]
    exact getArgument_loop_negative d rest (span.2 + 1) fuel (cur + 1) h3 (by omega) (by omega)

theorem formAt_getNumArguments {tokens : List Token} {s e : Nat} {spans : List (Nat × Nat)}
    (h : FormAt tokens s spans e) : getNumArguments tokens s e = .ok (spans.length : Int) := by
  have := getNumArguments_loop_arguments spans (s + 1) (e - s + 1) 0 h.2.1 (by omega)
  simpa [getNumArguments] using this

theorem formAt_getArgument {tokens : List Token} {s e : Nat} {spans : List (Nat × Nat)}
    (h : FormAt tokens s spans e) (k : Nat) :
    getArgument tokens s k e =
      .ok (match spans[k]? with
        | some span => (span.1 : Int)
        | none => -1) := by
  have := getArgument_loop_arguments spans (s + 1) (e - s + 1) 0 k h.2.1 (by omega)
  simpa [getArgument] using this

theorem formAt_close_bound {tokens : List Token} {s e : Nat} {spans : List (Nat × Nat)}
    (h : FormAt tokens s spans e) : ∃ t, tokenAt tokens e = .ok t := by
  obtain ⟨t, ht, _, _⟩ := typeAt_eq_some h.2.2
  exact ⟨t, tokenAt_of_getElem? ht⟩

theorem formAt_getExpectedArgument {tokens : List Token} {s e : Nat}
    {spans : List (Nat × Nat)} (h : FormAt tokens s spans e) (k : Nat) :
    getExpectedArgument tokens s k e =
      .ok (match spans[k]? with
        | some span => (span.1 : Int)
        | none => -1) := by
  obtain ⟨t, ht⟩ := formAt_close_bound h
  unfold getExpectedArgument
  rw [formAt_getArgument h k]
  simp only [ok_bind, ht]
  split <;> rfl

theorem formAt_expectNumArguments {tokens : List Token} {s e : Nat}
    {spans : List (Nat × Nat)} (h : FormAt tokens s spans e) (n : Int) :
    ExpectNumArguments tokens s e n = .ok (decide ((spans.length : Int) = n)) := by
  obtain ⟨t, ht, _, _⟩ := typeAt_eq_some h.1
  unfold ExpectNumArguments
  rw [formAt_getNumArguments h]
  simp only [ok_bind, tokenAt_of_getElem? ht]
  by_cases hn : (spans.length : Int) = n
  · simp [hn]
  · simp [hn]

/-! ### The lowering satisfies the recursive equation of the source -/

theorem lowering_eq_body (tokens : List Token) (s : Nat) (allow : Bool)
    (ty af : List StringOutput) :
    tokenizedCTypeToString_Recursive tokens s allow ty af =
      tokenizedCTypeToString_Recursive.body
        (fun i a t f => tokenizedCTypeToString_Recursive tokens i a t f) tokens s allow ty af := by
  unfold tokenizedCTypeToString_Recursive
  rw [tokenizedCTypeToString_Recursive.run]
  by_cases hs : s < tokens.length
  · apply body_congr
    intro i a t f hi
    exact run_fuel_irrelevant tokens _ i (le_refl _) _ (by omega) a t f
  · unfold tokenizedCTypeToString_Recursive.body
    have : tokenAt tokens s = .error Fault.outOfBounds := by
      unfold tokenAt
      rw [List.getElem?_eq_none (by omega)]
    rw [this]
    simp only [error_bind]

theorem lowering_symbol {tokens : List Token} {s : Nat} {t : Token}
    (ht : tokens[s]? = some t) (hsym : t.type = TokenType.Symbol) (allow : Bool)
    (ty af : List StringOutput) :
    tokenizedCTypeToString_Recursive tokens s allow ty af =
      .ok (if isSpecialSymbol t = true then ⟨false, ty, af, some s⟩
        else ⟨true, addStringOutput ty t.contents StringOutMod_ConvertTypeName s, af, none⟩) := by
  rw [lowering_eq_body]
  unfold tokenizedCTypeToString_Recursive.body
  rw [tokenAt_of_getElem? ht]
  simp only [ok_bind, hsym, if_true]
  split <;> rfl

theorem lowering_form {tokens : List Token} {s e : Nat} {name : String}
    (hs : typeAt tokens s = some TokenType.OpenParen)
    (hh : tokens[s + 1]? = some ⟨TokenType.Symbol, name⟩)
    (he : FindCloseParenTokenIndex tokens s = .ok e) (allow : Bool)
    (ty af : List StringOutput) :
    tokenizedCTypeToString_Recursive tokens s allow ty af =
      tokenizedCTypeToString_Recursive.formBranch
        (fun i a t f => tokenizedCTypeToString_Recursive tokens i a t f) tokens s e
        ⟨TokenType.Symbol, name⟩ allow ty af := by
  obtain ⟨ts, hts, htst, _⟩ := typeAt_eq_some hs
  rw [lowering_eq_body]
  unfold tokenizedCTypeToString_Recursive.body
  rw [tokenAt_of_getElem? hts]
  have hns : ¬ (ts.type = TokenType.Symbol) := by rw [htst]; decide
  simp only [ok_bind, hns, if_false, tokenAt_of_getElem? hh, ExpectTokenType, he]
  simp

theorem findClose_ok_of_typeAt {tokens : List Token} {s : Nat} {k : TokenType}
    (hs : typeAt tokens s = some k) : ∃ e, FindCloseParenTokenIndex tokens s = .ok e := by
  obtain ⟨_, _, _, hl⟩ := typeAt_eq_some hs
  exact findClose_ok hl

/-! ### A successful lowering reports no diagnostic -/

theorem templateLoop_quiet
    (recurse : Nat → Bool → List StringOutput → List StringOutput → Except Fault TypeLowering)
    (hrec : Quiet recurse) (tokens : List Token) (e : Nat) :
    ∀ (fuel p : Nat) (ty af : List StringOutput) (r : TypeLowering),
      tokenizedCTypeToString_Recursive.templateLoop recurse tokens e fuel p ty af = .ok r →
        r.success = true → r.errorToken = none := by
  intro fuel
  induction fuel with
  | zero => intro p ty af r h; simp [tokenizedCTypeToString_Recursive.templateLoop] at h
  | succ fuel ih =>
    intro p ty af r h hs
    simp only [tokenizedCTypeToString_Recursive.templateLoop] at h
    split at h
    · rw [bind_eq_ok] at h
      obtain ⟨r1, h1, h⟩ := h
      split at h
      · simp at h; subst h; exact hrec _ _ _ _ _ h1 hs
      · simp only [bind_eq_ok] at h
        obtain ⟨l, _, t, _, nx, _, h⟩ := h
        exact ih _ _ _ _ h hs
    · simp at h; subst h; rfl

theorem scopeLoop_quiet
    (recurse : Nat → Bool → List StringOutput → List StringOutput → Except Fault TypeLowering)
    (hrec : Quiet recurse) (tokens : List Token) (e : Nat) :
    ∀ (fuel p : Nat) (ty af : List StringOutput) (r : TypeLowering),
      tokenizedCTypeToString_Recursive.scopeLoop recurse tokens e fuel p ty af = .ok r →
        r.success = true → r.errorToken = none := by
  intro fuel
  induction fuel with
  | zero => intro p ty af r h; simp [tokenizedCTypeToString_Recursive.scopeLoop] at h
  | succ fuel ih =>
    intro p ty af r h hs
    simp only [tokenizedCTypeToString_Recursive.scopeLoop] at h
    split at h
    · rw [bind_eq_ok] at h
      obtain ⟨r1, h1, h⟩ := h
      split at h
      · simp at h; subst h; exact hrec _ _ _ _ _ h1 hs
      · simp only [bind_eq_ok] at h
        obtain ⟨l, _, nx, _, h⟩ := h
        exact ih _ _ _ _ h hs
    · simp at h; subst h; rfl

theorem formBranch_quiet
    (recurse : Nat → Bool → List StringOutput → List StringOutput → Except Fault TypeLowering)
    (hrec : Quiet recurse) (tokens : List Token) (s e : Nat) (hd : Token) (allow : Bool)
    (ty af : List StringOutput) (r : TypeLowering)
    (h : tokenizedCTypeToString_Recursive.formBranch recurse tokens s e hd allow ty af = .ok r)
    (hs : r.success = true) : r.errorToken = none := by
  unfold tokenizedCTypeToString_Recursive.formBranch at h
  split at h
  · unfold tokenizedCTypeToString_Recursive.constBranch at h
    rw [bind_eq_ok] at h
    obtain ⟨ar, _, h⟩ := h
    split at h
    · simp at h; subst h; simp at hs
    · rw [bind_eq_ok] at h
      obtain ⟨ti, _, h⟩ := h
      split at h
      · simp at h; subst h; simp at hs
      · exact hrec _ _ _ _ _ h hs
  have hsuffix : ∀ x, tokenizedCTypeToString_Recursive.suffixBranch recurse tokens s e x allow
      ty af = .ok r → r.errorToken = none := by
    intro x h
    unfold tokenizedCTypeToString_Recursive.suffixBranch at h
    rw [bind_eq_ok] at h
    obtain ⟨ar, _, h⟩ := h
    split at h
    · simp at h; subst h; simp at hs
    · rw [bind_eq_ok] at h
      obtain ⟨ti, _, h⟩ := h
      split at h
      · simp at h; subst h; simp at hs
      · rw [bind_eq_ok] at h
        obtain ⟨r1, h1, h⟩ := h
        split at h
        · simp at h; subst h; exact hrec _ _ _ _ _ h1 hs
        · simp at h; subst h; rfl
  split at h
  · exact hsuffix _ h
  split at h
  · exact hsuffix _ h
  split at h
  · unfold tokenizedCTypeToString_Recursive.templateBranch at h
    rw [bind_eq_ok] at h
    obtain ⟨ti, _, h⟩ := h
    split at h
    · simp at h; subst h; simp at hs
    · rw [bind_eq_ok] at h
      obtain ⟨r1, h1, h⟩ := h
      split at h
      · simp at h; subst h; exact hrec _ _ _ _ _ h1 hs
      · rw [bind_eq_ok] at h
        obtain ⟨r2, h2, h⟩ := h
        split at h
        · simp at h; subst h; exact templateLoop_quiet recurse hrec tokens e _ _ _ _ _ h2 hs
        · simp at h; subst h; rfl
  split at h
  · unfold tokenizedCTypeToString_Recursive.arrayBranch at h
    split at h
    · simp at h; subst h; simp at hs
    · rw [bind_eq_ok] at h
      obtain ⟨fi, _, h⟩ := h
      split at h
      · simp at h; subst h; simp at hs
      · rw [bind_eq_ok] at h
        obtain ⟨fa, _, h⟩ := h
        dsimp only at h
        split at h
        · rw [bind_eq_ok] at h
          obtain ⟨ti, _, h⟩ := h
          split at h
          · simp at h; subst h; simp at hs
          · exact hrec _ _ _ _ _ h hs
        · exact hrec _ _ _ _ _ h hs
  split at h
  · unfold tokenizedCTypeToString_Recursive.scopeBranch at h
    rw [bind_eq_ok] at h
    obtain ⟨ti, _, h⟩ := h
    split at h
    · simp at h; subst h; simp at hs
    · rw [bind_eq_ok] at h
      obtain ⟨r1, h1, h⟩ := h
      split at h
      · simp at h; subst h; exact scopeLoop_quiet recurse hrec tokens e _ _ _ _ _ h1 hs
      · simp at h; subst h; rfl
  · simp at h; subst h; simp at hs

theorem body_quiet
    (recurse : Nat → Bool → List StringOutput → List StringOutput → Except Fault TypeLowering)
    (hrec : Quiet recurse) (tokens : List Token) (s : Nat) (allow : Bool)
    (ty af : List StringOutput) (r : TypeLowering)
    (h : tokenizedCTypeToString_Recursive.body recurse tokens s allow ty af = .ok r)
    (hs : r.success = true) : r.errorToken = none := by
  unfold tokenizedCTypeToString_Recursive.body at h
  rw [bind_eq_ok] at h
  obtain ⟨t, _, h⟩ := h
  split at h
  · split at h
    · simp at h; subst h; simp at hs
    · simp at h; subst h; rfl
  · rw [bind_eq_ok] at h
    obtain ⟨hd, _, h⟩ := h
    split at h
    · simp at h; subst h; simp at hs
    · rw [bind_eq_ok] at h
      obtain ⟨e, _, h⟩ := h
      exact formBranch_quiet recurse hrec _ _ _ _ _ _ _ _ h hs

theorem run_quiet (tokens : List Token) :
    ∀ fuel : Nat,
      Quiet (fun i a t f => tokenizedCTypeToString_Recursive.run fuel tokens i a t f) := by
  intro fuel
  induction fuel with
  | zero => intro i a ty af r h; simp [tokenizedCTypeToString_Recursive.run] at h
  | succ fuel ih =>
    intro i a ty af r h hs
    simp only [tokenizedCTypeToString_Recursive.run] at h
    exact body_quiet _ ih _ _ _ _ _ _ h hs

theorem lowering_quiet {tokens : List Token} {s : Nat} {allow : Bool}
    {ty af : List StringOutput} {r : TypeLowering}
    (h : tokenizedCTypeToString_Recursive tokens s allow ty af = .ok r)
    (hs : r.success = true) : r.errorToken = none :=
  run_quiet tokens _ s allow ty af r h hs

theorem lowering_noArray {tokens : List Token} {s : Nat}
    {ty af : List StringOutput} {r : TypeLowering}
    (h : tokenizedCTypeToString_Recursive tokens s false ty af = .ok r) :
    r.afterNameOutput = af :=
  run_noArray tokens _ s ty af r h

/-- What a successful lowering from empty buffers does to buffers that hold
something already. -/
theorem lowering_prepend {tokens : List Token} {s : Nat} {allow : Bool} {r : TypeLowering}
    (h : tokenizedCTypeToString_Recursive tokens s allow [] [] = .ok r)
    (ty af : List StringOutput) :
    tokenizedCTypeToString_Recursive tokens s allow ty af =
      .ok ⟨r.success, ty ++ r.typeOutput, af ++ r.afterNameOutput, r.errorToken⟩ := by
  rw [lowering_framed, h]
  rfl

/-! ### Claims -/

/-- C9: paren matching.  When `s < e`, `tokens[s]` is an open paren, `tokens[e]` is a
close paren, and the tokens strictly between them are balanced (so that `e` is the
match of `s`), `FindCloseParenTokenIndex tokens s` returns `e`. -/
theorem findCloseParen_returns_match (tokens : List Token) (s e : Nat) (hse : s < e)
    (hs : typeAt tokens s = some TokenType.OpenParen)
    (he : typeAt tokens e = some TokenType.CloseParen)
    (hb : balancedFrom 0 (tokensBetween tokens s e) = true) :
    FindCloseParenTokenIndex tokens s = .ok e :=
  findClose_of_range ⟨hse, hs, he, hb⟩

/-- Witness for C9 on `(* (const char))`: the inner group opens at 2 and closes at 5. -/
theorem findCloseParen_returns_match_witness :
    (2 < 5 ∧ typeAt examplePointerToConstChar 2 = some TokenType.OpenParen ∧
      typeAt examplePointerToConstChar 5 = some TokenType.CloseParen ∧
      balancedFrom 0 (tokensBetween examplePointerToConstChar 2 5) = true) ∧
    FindCloseParenTokenIndex examplePointerToConstChar 2 = .ok 5 :=
  ⟨by decide, findCloseParen_returns_match examplePointerToConstChar 2 5 (by decide)
    (by decide) (by decide) (by decide)⟩

/-- C10: argument navigation is consistent.  On a balanced invocation range `[s, e]`
`getNumArguments` returns a count `n`, and for every `i` with `0 ≤ i < n` the call
`getArgument tokens s i e` returns an index `a` with `s < a < e`; when `i + 1 < n`,
`getNextArgument tokens a e` returns the same index as `getArgument tokens s (i + 1) e`. -/
theorem argument_navigation_consistent (tokens : List Token) (s e : Nat)
    (h : InvocationRange tokens s e) :
    ∃ n : Int, getNumArguments tokens s e = .ok n ∧
      ∀ i : Int, 0 ≤ i → i < n →
        ∃ a : Nat, getArgument tokens s i e = .ok (a : Int) ∧ s < a ∧ a < e ∧
          (i + 1 < n → ∃ b : Nat, getNextArgument tokens a e = .ok b ∧
            getArgument tokens s (i + 1) e = .ok (b : Int)) := by
  obtain ⟨_, _, _, hel⟩ := typeAt_eq_some h.2.2.1
  obtain ⟨n, hn, _, _, hall⟩ :=
    navigation_loops tokens e (le_of_lt hel) (e - s + 1) (s + 1) 0 (by omega)
  refine ⟨n, hn, ?_⟩
  intro i hi hin
  obtain ⟨a, ha, hsa, hae, hnext⟩ := hall i hi hin
  exact ⟨a, ha, by omega, hae, hnext⟩

/-- Witness for C10 on `(* (const char))`, the whole range `[0, 6]`. -/
theorem argument_navigation_consistent_witness :
    InvocationRange examplePointerToConstChar 0 6 ∧
    ∃ n : Int, getNumArguments examplePointerToConstChar 0 6 = .ok n ∧
      ∀ i : Int, 0 ≤ i → i < n →
        ∃ a : Nat, getArgument examplePointerToConstChar 0 i 6 = .ok (a : Int) ∧ 0 < a ∧ a < 6 ∧
          (i + 1 < n → ∃ b : Nat, getNextArgument examplePointerToConstChar a 6 = .ok b ∧
            getArgument examplePointerToConstChar 0 (i + 1) 6 = .ok (b : Int)) :=
  ⟨by decide, argument_navigation_consistent examplePointerToConstChar 0 6 (by decide)⟩

/-- C6: an array form where arrays are not allowed.  For every token vector with an
open paren at `s` followed by the Symbol `[]`, the lowering called with
`allowArray = false` returns `false`, reports at `tokens[s]`, and leaves both
buffers as they were. -/
theorem array_form_rejected_without_allowArray (tokens : List Token) (s : Nat)
    (typeOutput afterNameOutput : List StringOutput)
    (hs : typeAt tokens s = some TokenType.OpenParen)
    (hh : tokens[s + 1]? = some ⟨TokenType.Symbol, "[]"⟩) :
    tokenizedCTypeToString_Recursive tokens s false typeOutput afterNameOutput =
      .ok ⟨false, typeOutput, afterNameOutput, some s⟩ := by
  obtain ⟨e, he⟩ := findClose_ok_of_typeAt hs
  rw [lowering_form hs hh he]
  simp [tokenizedCTypeToString_Recursive.formBranch,
    tokenizedCTypeToString_Recursive.arrayBranch]

/-- Witness for C6 on `([] 10 float)`. -/
theorem array_form_rejected_without_allowArray_witness :
    (typeAt exampleArrayOfTenFloats 0 = some TokenType.OpenParen ∧
      exampleArrayOfTenFloats[0 + 1]? = some ⟨TokenType.Symbol, "[]"⟩) ∧
    tokenizedCTypeToString_Recursive exampleArrayOfTenFloats 0 false [] [] =
      .ok ⟨false, [], [], some 0⟩ :=
  ⟨by decide,
    array_form_rejected_without_allowArray exampleArrayOfTenFloats 0 [] [] (by decide)
      (by decide)⟩

/-- C7: the accepted heads are exactly `const`, `*`, `&`, `&&`, `rval-ref-to`, `<>`,
`[]` and `in`.  For every parenthesised form whose head is a Symbol with any other
text, the lowering returns `false`, reports at the head token `tokens[s + 1]`, and
leaves both buffers as they were. -/
theorem unknown_head_rejected (tokens : List Token) (s : Nat) (name : String)
    (allowArray : Bool) (typeOutput afterNameOutput : List StringOutput)
    (hs : typeAt tokens s = some TokenType.OpenParen)
    (hh : tokens[s + 1]? = some ⟨TokenType.Symbol, name⟩)
    (hname : name ∉ ["const", "*", "&", "&&", "rval-ref-to", "<>", "[]", "in"]) :
    tokenizedCTypeToString_Recursive tokens s allowArray typeOutput afterNameOutput =
      .ok ⟨false, typeOutput, afterNameOutput, some (s + 1)⟩ := by
  obtain ⟨e, he⟩ := findClose_ok_of_typeAt hs
  rw [lowering_form hs hh he]
  simp only [List.mem_cons, List.mem_singleton, List.not_mem_nil, or_false, not_or] at hname
  obtain ⟨h1, h2, h3, h4, h5, h6, h7, h8⟩ := hname
  simp [tokenizedCTypeToString_Recursive.formBranch, h1, h2, h3, h4, h5, h6, h7, h8]

/-- Witness for C7: `(vector int)` has the head `vector`. -/
theorem unknown_head_rejected_witness :
    (typeAt [Token.openParen, Token.symbol "vector", Token.symbol "int", Token.closeParen] 0 =
        some TokenType.OpenParen ∧
      [Token.openParen, Token.symbol "vector", Token.symbol "int", Token.closeParen][0 + 1]? =
        some ⟨TokenType.Symbol, "vector"⟩ ∧
      "vector" ∉ ["const", "*", "&", "&&", "rval-ref-to", "<>", "[]", "in"]) ∧
    tokenizedCTypeToString_Recursive
        [Token.openParen, Token.symbol "vector", Token.symbol "int", Token.closeParen] 0 true
        [] [] =
      .ok ⟨false, [], [], some 1⟩ :=
  ⟨by decide, unknown_head_rejected _ 0 "vector" true [] [] (by decide) (by decide)
    (by decide)⟩


theorem typeAt_of_getElem? {tokens : List Token} {i : Nat} {t : Token}
    (h : tokens[i]? = some t) : typeAt tokens i = some t.type := by
  simp [typeAt, h]

/-- The written-out shape of a form with one argument after its head. -/
theorem formAt_unary {tokens : List Token} {s eT : Nat} {name : String}
    (hs : typeAt tokens s = some TokenType.OpenParen)
    (hh : tokens[s + 1]? = some ⟨TokenType.Symbol, name⟩)
    (hT : ArgumentAt tokens (s + 2) eT)
    (hc : typeAt tokens (eT + 1) = some TokenType.CloseParen) :
    FormAt tokens s [(s + 1, s + 1), (s + 2, eT)] (eT + 1) :=
  ⟨hs, ⟨rfl, Or.inl ⟨Or.inl (typeAt_of_getElem? hh), rfl⟩, rfl, hT, rfl⟩, hc⟩

theorem constBranch_unary {tokens : List Token} {s eT : Nat}
    (hf : FormAt tokens s [(s + 1, s + 1), (s + 2, eT)] (eT + 1))
    (recurse : Nat → Bool → List StringOutput → List StringOutput → Except Fault TypeLowering)
    (allow : Bool) (ty af : List StringOutput) :
    tokenizedCTypeToString_Recursive.constBranch recurse tokens s (eT + 1) allow ty af =
      recurse (s + 2) allow
        (addStringOutput ty "const" StringOutMod_SpaceAfter (s + 1)) af := by
  unfold tokenizedCTypeToString_Recursive.constBranch
  rw [formAt_expectNumArguments hf 2]
  have := formAt_getExpectedArgument hf 1
  simp only [Nat.cast_one] at this
  rw [this]
  have h1 : ¬ ((s : Int) + 2 = -1) := by omega
  have h2 : ((s : Int) + 2).toNat = s + 2 := by omega
  simp [h1, h2]

theorem suffixBranch_unary {tokens : List Token} {s eT : Nat}
    (hf : FormAt tokens s [(s + 1, s + 1), (s + 2, eT)] (eT + 1))
    (recurse : Nat → Bool → List StringOutput → List StringOutput → Except Fault TypeLowering)
    (x : String) (allow : Bool) (ty af : List StringOutput) :
    tokenizedCTypeToString_Recursive.suffixBranch recurse tokens s (eT + 1) x allow ty af =
      (do
        let r ← recurse (s + 2) allow ty af
        if r.success = false then pure r
        else
          pure ⟨true, addStringOutput r.typeOutput x StringOutMod_None (s + 1),
            r.afterNameOutput, none⟩) := by
  unfold tokenizedCTypeToString_Recursive.suffixBranch
  rw [formAt_expectNumArguments hf 2]
  have := formAt_getExpectedArgument hf 1
  simp only [Nat.cast_one] at this
  rw [this]
  have h1 : ¬ ((s : Int) + 2 = -1) := by omega
  have h2 : ((s : Int) + 2).toNat = s + 2 := by omega
  simp [h1, h2]

/-- C1: unary wrapper forms lower compositionally.  Let `T` be one argument at
`s + 2 .. eT` inside the form `(name T)` that opens at `s` and closes at `eT + 1`,
and let `T` on its own lower successfully (under `allowArray`) to the type records
`r.typeOutput` and the after-name records `r.afterNameOutput`.  Then the form
lowers successfully, with the after-name buffer receiving `r.afterNameOutput`,
and the type buffer receiving: for `const`, the record `const` (SpaceAfter) followed
by `r.typeOutput`; for `*`, `&`, `&&` and `rval-ref-to`, `r.typeOutput` followed by
the record `*`, `&`, `&&`, `&&` respectively, with no modifier. -/
theorem unary_wrappers_lower_compositionally (tokens : List Token) (s eT : Nat)
    (name : String) (allowArray : Bool) (typeOutput afterNameOutput : List StringOutput)
    (r : TypeLowering)
    (hs : typeAt tokens s = some TokenType.OpenParen)
    (hh : tokens[s + 1]? = some ⟨TokenType.Symbol, name⟩)
    (hT : ArgumentAt tokens (s + 2) eT)
    (hc : typeAt tokens (eT + 1) = some TokenType.CloseParen)
    (hr : tokenizedCTypeToString_Recursive tokens (s + 2) allowArray [] [] = .ok r)
    (hsuccess : r.success = true) :
    (name = "const" →
      tokenizedCTypeToString_Recursive tokens s allowArray typeOutput afterNameOutput =
        .ok ⟨true, typeOutput ++ [⟨"const", StringOutMod_SpaceAfter, s + 1⟩] ++ r.typeOutput,
          afterNameOutput ++ r.afterNameOutput, none⟩) ∧
    (name = "*" →
      tokenizedCTypeToString_Recursive tokens s allowArray typeOutput afterNameOutput =
        .ok ⟨true, typeOutput ++ r.typeOutput ++ [⟨"*", StringOutMod_None, s + 1⟩],
          afterNameOutput ++ r.afterNameOutput, none⟩) ∧
    (name = "&" →
      tokenizedCTypeToString_Recursive tokens s allowArray typeOutput afterNameOutput =
        .ok ⟨true, typeOutput ++ r.typeOutput ++ [⟨"&", StringOutMod_None, s + 1⟩],
          afterNameOutput ++ r.afterNameOutput, none⟩) ∧
    (name = "&&" →
      tokenizedCTypeToString_Recursive tokens s allowArray typeOutput afterNameOutput =
        .ok ⟨true, typeOutput ++ r.typeOutput ++ [⟨"&&", StringOutMod_None, s + 1⟩],
          afterNameOutput ++ r.afterNameOutput, none⟩) ∧
    (name = "rval-ref-to" →
      tokenizedCTypeToString_Recursive tokens s allowArray typeOutput afterNameOutput =
        .ok ⟨true, typeOutput ++ r.typeOutput ++ [⟨"&&", StringOutMod_None, s + 1⟩],
          afterNameOutput ++ r.afterNameOutput, none⟩) := by
  have hf := formAt_unary hs hh hT hc
  have hform := lowering_form hs hh (formAt_findClose hf) allowArray typeOutput afterNameOutput
  have hq := lowering_quiet hr hsuccess
  refine ⟨?_, ?_, ?_, ?_, ?_⟩
  · intro hn
    subst hn
    rw [hform]
    simp only [tokenizedCTypeToString_Recursive.formBranch, if_true]
    rw [constBranch_unary hf, lowering_prepend hr, hsuccess, hq]
    simp [addStringOutput]
  all_goals
    intro hn
    subst hn
    rw [hform]
    simp [tokenizedCTypeToString_Recursive.formBranch]
    rw [suffixBranch_unary hf, lowering_prepend hr, hsuccess, hq]
    simp [addStringOutput]

/-- Witness for C1: `(* (const char))` lowers to the records `const`, `char`, `*`. -/
theorem unary_wrappers_lower_compositionally_witness :
    (typeAt examplePointerToConstChar 0 = some TokenType.OpenParen ∧
      examplePointerToConstChar[0 + 1]? = some ⟨TokenType.Symbol, "*"⟩ ∧
      ArgumentAt examplePointerToConstChar (0 + 2) 5 ∧
      typeAt examplePointerToConstChar (5 + 1) = some TokenType.CloseParen ∧
      tokenizedCTypeToString_Recursive examplePointerToConstChar (0 + 2) false [] [] =
        .ok ⟨true, [⟨"const", StringOutMod_SpaceAfter, 3⟩,
          ⟨"char", StringOutMod_ConvertTypeName, 4⟩], [], none⟩) ∧
    tokenizedCTypeToString_Recursive examplePointerToConstChar 0 false [] [] =
      .ok ⟨true, [⟨"const", StringOutMod_SpaceAfter, 3⟩,
        ⟨"char", StringOutMod_ConvertTypeName, 4⟩, ⟨"*", StringOutMod_None, 1⟩], [], none⟩ :=
  ⟨by decide,
    (unary_wrappers_lower_compositionally examplePointerToConstChar 0 5 "*" false [] []
      ⟨true, [⟨"const", StringOutMod_SpaceAfter, 3⟩,
        ⟨"char", StringOutMod_ConvertTypeName, 4⟩], [], none⟩
      (by decide) (by decide) (by decide) (by decide) (by decide) rfl).2.1 rfl⟩

theorem arrayBranch_sized {tokens : List Token} {s eT : Nat} {size : String}
    (hf : FormAt tokens s [(s + 1, s + 1), (s + 2, s + 2), (s + 3, eT)] (eT + 1))
    (hN : tokens[s + 2]? = some ⟨TokenType.Symbol, size⟩)
    (hdigit : (firstChar size).isDigit = true)
    (recurse : Nat → Bool → List StringOutput → List StringOutput → Except Fault TypeLowering)
    (ty af : List StringOutput) :
    tokenizedCTypeToString_Recursive.arrayBranch recurse tokens s (eT + 1) true ty af =
      recurse (s + 3) true ty
        (af ++ [⟨"[", StringOutMod_None, s + 1⟩, ⟨size, StringOutMod_None, s + 2⟩,
          ⟨"]", StringOutMod_None, s + 1⟩]) := by
  unfold tokenizedCTypeToString_Recursive.arrayBranch
  have g1 := formAt_getExpectedArgument hf 1
  have g2 := formAt_getExpectedArgument hf 2
  simp only [Nat.cast_one, Nat.cast_ofNat] at g1 g2
  rw [g1, g2]
  have h1 : ¬ ((s : Int) + 2 = -1) := by omega
  have h2 : ((s : Int) + 2).toNat = s + 2 := by omega
  have h3 : ¬ ((s : Int) + 3 = -1) := by omega
  have h4 : ((s : Int) + 3).toNat = s + 3 := by omega
  simp [h1, h2, h3, h4, tokenAt_of_getElem? hN, hdigit, addStringOutput]

theorem arrayBranch_unsized {tokens : List Token} {s eT : Nat}
    (hf : FormAt tokens s [(s + 1, s + 1), (s + 2, eT)] (eT + 1))
    (hsize : isArraySize tokens (s + 2) = false)
    (recurse : Nat → Bool → List StringOutput → List StringOutput → Except Fault TypeLowering)
    (ty af : List StringOutput) :
    tokenizedCTypeToString_Recursive.arrayBranch recurse tokens s (eT + 1) true ty af =
      recurse (s + 2) true ty (af ++ [⟨"[]", StringOutMod_None, s + 1⟩]) := by
  unfold tokenizedCTypeToString_Recursive.arrayBranch
  have g1 := formAt_getExpectedArgument hf 1
  simp only [Nat.cast_one] at g1
  rw [g1]
  have h1 : ¬ ((s : Int) + 2 = -1) := by omega
  have h2 : ((s : Int) + 2).toNat = s + 2 := by omega
  obtain ⟨t, ht, _, _⟩ := argumentAt_step hf.2.1.2.2.2.1
  simp only [isArraySize, ht] at hsize
  simp only [List.getElem?_cons_succ, List.getElem?_cons_zero] at *
  simp [h1, h2, tokenAt_of_getElem? ht, addStringOutput]
  intro a b
  simp [a, b] at hsize

theorem formAt_sized {tokens : List Token} {s eT : Nat} {size : String}
    (hs : typeAt tokens s = some TokenType.OpenParen)
    (hh : tokens[s + 1]? = some ⟨TokenType.Symbol, "[]"⟩)
    (hN : tokens[s + 2]? = some ⟨TokenType.Symbol, size⟩)
    (hT : ArgumentAt tokens (s + 3) eT)
    (hc : typeAt tokens (eT + 1) = some TokenType.CloseParen) :
    FormAt tokens s [(s + 1, s + 1), (s + 2, s + 2), (s + 3, eT)] (eT + 1) :=
  ⟨hs, ⟨rfl, Or.inl ⟨Or.inl (typeAt_of_getElem? hh), rfl⟩, rfl,
    Or.inl ⟨Or.inl (typeAt_of_getElem? hN), rfl⟩, rfl, hT, rfl⟩, hc⟩

theorem lowering_array_form {tokens : List Token} {s e : Nat}
    (hs : typeAt tokens s = some TokenType.OpenParen)
    (hh : tokens[s + 1]? = some ⟨TokenType.Symbol, "[]"⟩)
    (he : FindCloseParenTokenIndex tokens s = .ok e) (allow : Bool)
    (ty af : List StringOutput) :
    tokenizedCTypeToString_Recursive tokens s allow ty af =
      tokenizedCTypeToString_Recursive.arrayBranch
        (fun i a t f => tokenizedCTypeToString_Recursive tokens i a t f) tokens s e
        allow ty af := by
  rw [lowering_form hs hh he]
  simp [tokenizedCTypeToString_Recursive.formBranch]

theorem arrayNest_argument {tokens : List Token} :
    ∀ {dims : List (Option String)} {s p e : Nat}, ArrayNest tokens s dims p e →
      ArgumentAt tokens s e
  | [], s, p, e, h => by
    obtain ⟨h1, h2⟩ := h
    rw [h1]; exact h2
  | none :: dims, s, p, e, h => by
    obtain ⟨hs, hh, _, hpos, hin, hc⟩ := h
    have hT := arrayNest_argument hin
    have hc2 : typeAt tokens (e - 1 + 1) = some TokenType.CloseParen := by
      rw [show e - 1 + 1 = e by omega]; exact hc
    have := formAt_range (formAt_unary hs hh hT hc2)
    rw [show e - 1 + 1 = e by omega] at this
    exact Or.inr this
  | some size :: dims, s, p, e, h => by
    obtain ⟨hs, hh, hN, _, hpos, hin, hc⟩ := h
    have hT := arrayNest_argument hin
    have hc2 : typeAt tokens (e - 1 + 1) = some TokenType.CloseParen := by
      rw [show e - 1 + 1 = e by omega]; exact hc
    have := formAt_range (formAt_sized hs hh hN hT hc2)
    rw [show e - 1 + 1 = e by omega] at this
    exact Or.inr this

theorem lowering_arrayNest {tokens : List Token} :
    ∀ {dims : List (Option String)} {s p e : Nat}, ArrayNest tokens s dims p e →
      ∀ (ty af : List StringOutput),
        tokenizedCTypeToString_Recursive tokens s true ty af =
          tokenizedCTypeToString_Recursive tokens p true ty (af ++ arrayBrackets s dims)
  | [], s, p, e, h, ty, af => by
    obtain ⟨h1, _⟩ := h
    simp [arrayBrackets, h1]
  | none :: dims, s, p, e, h, ty, af => by
    obtain ⟨hs, hh, hsize, hpos, hin, hc⟩ := h
    have hT := arrayNest_argument hin
    have hc2 : typeAt tokens (e - 1 + 1) = some TokenType.CloseParen := by
      rw [show e - 1 + 1 = e by omega]; exact hc
    have hf := formAt_unary hs hh hT hc2
    rw [lowering_array_form hs hh (formAt_findClose hf), arrayBranch_unsized hf hsize,
      lowering_arrayNest hin]
    simp [arrayBrackets]
  | some size :: dims, s, p, e, h, ty, af => by
    obtain ⟨hs, hh, hN, hdigit, hpos, hin, hc⟩ := h
    have hT := arrayNest_argument hin
    have hc2 : typeAt tokens (e - 1 + 1) = some TokenType.CloseParen := by
      rw [show e - 1 + 1 = e by omega]; exact hc
    have hf := formAt_sized hs hh hN hT hc2
    rw [lowering_array_form hs hh (formAt_findClose hf), arrayBranch_sized hf hN hdigit,
      lowering_arrayNest hin]
    simp [arrayBrackets]

/-- C3: array brackets go after the name, outermost dimension first.  For every
nesting of array forms `([] N T)` (`N` a Symbol whose first character is a digit)
and `([] T)` (its argument not such a size) that starts at `s` and wraps an
innermost element type `T` at `p`, lowering with `allowArray = true` gives `T`'s
own result with, in front of `T`'s after-name records, the brackets of every array
form from the outermost inwards (`[`, `N`, `]` for a sized form and `[]` for an
unsized one); the type buffer receives `T`'s type records and nothing else. -/
theorem array_brackets_outermost_first (tokens : List Token) (s p e : Nat)
    (dims : List (Option String)) (typeOutput afterNameOutput : List StringOutput)
    (r : TypeLowering)
    (hnest : ArrayNest tokens s dims p e)
    (hr : tokenizedCTypeToString_Recursive tokens p true [] [] = .ok r) :
    tokenizedCTypeToString_Recursive tokens s true typeOutput afterNameOutput =
      .ok ⟨r.success, typeOutput ++ r.typeOutput,
        afterNameOutput ++ arrayBrackets s dims ++ r.afterNameOutput, r.errorToken⟩ := by
  rw [lowering_arrayNest hnest, lowering_prepend hr]

/-- Witness for C3: `([] ([] 10 float))` gives the type record `float` and the
after-name records `[]`, `[`, `10`, `]`; `([] 10 float)` gives `float` and
`[`, `10`, `]`. -/
theorem array_brackets_outermost_first_witness :
    ((ArrayNest exampleTwoDimensionalArray 0 [none, some "10"] 5 7 ∧
        tokenizedCTypeToString_Recursive exampleTwoDimensionalArray 5 true [] [] =
          .ok ⟨true, [⟨"float", StringOutMod_ConvertTypeName, 5⟩], [], none⟩) ∧
      tokenizedCTypeToString_Recursive exampleTwoDimensionalArray 0 true [] [] =
        .ok ⟨true, [⟨"float", StringOutMod_ConvertTypeName, 5⟩],
          [⟨"[]", StringOutMod_None, 1⟩, ⟨"[", StringOutMod_None, 3⟩,
            ⟨"10", StringOutMod_None, 4⟩, ⟨"]", StringOutMod_None, 3⟩], none⟩) ∧
    ((ArrayNest exampleArrayOfTenFloats 0 [some "10"] 3 4 ∧
        tokenizedCTypeToString_Recursive exampleArrayOfTenFloats 3 true [] [] =
          .ok ⟨true, [⟨"float", StringOutMod_ConvertTypeName, 3⟩], [], none⟩) ∧
      tokenizedCTypeToString_Recursive exampleArrayOfTenFloats 0 true [] [] =
        .ok ⟨true, [⟨"float", StringOutMod_ConvertTypeName, 3⟩],
          [⟨"[", StringOutMod_None, 1⟩, ⟨"10", StringOutMod_None, 2⟩,
            ⟨"]", StringOutMod_None, 1⟩], none⟩) :=
  ⟨⟨by decide,
      array_brackets_outermost_first exampleTwoDimensionalArray 0 5 7 [none, some "10"] [] []
        ⟨true, [⟨"float", StringOutMod_ConvertTypeName, 5⟩], [], none⟩ (by decide)
        (by decide)⟩,
    ⟨by decide,
      array_brackets_outermost_first exampleArrayOfTenFloats 0 3 4 [some "10"] [] []
        ⟨true, [⟨"float", StringOutMod_ConvertTypeName, 3⟩], [], none⟩ (by decide)
        (by decide)⟩⟩

theorem argumentAt_getNextArgument {tokens : List Token} {p ep : Nat}
    (h : ArgumentAt tokens p ep) (e : Nat) :
    getNextArgument tokens p e = .ok (ep + 1) := by
  obtain ⟨t, _, ht, hstep⟩ := argumentAt_step h
  unfold getNextArgument
  rw [ht]
  simp only [ok_bind]
  split
  · rename_i ho
    rw [if_pos ho] at hstep
    rw [hstep]
    rfl
  · rename_i ho
    rw [if_neg ho] at hstep
    simp at hstep
    rw [hstep]
    rfl

theorem argumentAt_isLastArgument {tokens : List Token} {p ep : Nat}
    (h : ArgumentAt tokens p ep) (hstr : typeAt tokens p ≠ some TokenType.String) (e : Nat) :
    isLastArgument tokens p e = .ok (decide (¬ (ep + 1 < e))) := by
  obtain ⟨t, htt, ht, hstep⟩ := argumentAt_step h
  have hty := typeAt_of_getElem? htt
  unfold isLastArgument
  rw [ht]
  simp only [ok_bind]
  split
  · rename_i ho
    rw [if_pos ho] at hstep
    rw [hstep]
    simp only [ok_bind]
    split <;> simp [*]
  · rename_i ho
    rw [if_neg ho] at hstep
    simp at hstep
    subst hstep
    have hsym : t.type = TokenType.Symbol := by
      rcases h with ⟨h, _⟩ | h
      · rcases h with h | h
        · rw [hty] at h; exact Option.some.inj h
        · exact absurd h hstr
      · have hop := h.2.1
        rw [hty] at hop
        exact absurd (Option.some.inj hop) ho
    simp only [hsym, true_and]
    split <;> simp [*]

theorem scopeLoop_components (tokens : List Token) (e : Nat) :
    ∀ (comps : List ((Nat × Nat) × List StringOutput)) (p fuel : Nat)
      (ty af : List StringOutput),
      ArgumentsAt tokens p (comps.map (fun c => c.1)) e →
      (∀ c ∈ comps, typeAt tokens c.1.1 ≠ some TokenType.String ∧
        ∃ r, tokenizedCTypeToString_Recursive tokens c.1.1 false [] [] = .ok r ∧
          r.success = true ∧ r.typeOutput = c.2) →
      e - p + 1 ≤ fuel →
      tokenizedCTypeToString_Recursive.scopeLoop
          (fun i a t f => tokenizedCTypeToString_Recursive tokens i a t f) tokens e fuel p
          ty af =
        .ok ⟨true, ty ++ scopeOutput (comps.map (fun c => (c.1.1, c.2))), af, none⟩
  | [], p, fuel, ty, af, hargs, _, hf => by
    simp [ArgumentsAt] at hargs
    obtain ⟨fuel, rfl⟩ : ∃ f, fuel = f + 1 := ⟨fuel - 1, by omega⟩
    simp [tokenizedCTypeToString_Recursive.scopeLoop, hargs, scopeOutput]
  | c :: rest, p, fuel, ty, af, hargs, hcomps, hf => by
    obtain ⟨h1, h2, h3⟩ := hargs
    simp only [List.map_cons] at h1 h2 h3
    obtain ⟨hstr, r, hr, hsucc, hty⟩ := hcomps c (List.mem_cons_self _ _)
    have hle := argumentsAt_le h3
    have hb := argumentAt_bounds h2
    have hpq : p < e := by omega
    obtain ⟨fuel, rfl⟩ : ∃ f, fuel = f + 1 := ⟨fuel - 1, by omega⟩
    have hlow := lowering_prepend hr ty af
    rw [lowering_noArray hr, hsucc, lowering_quiet hr hsucc, hty, h1] at hlow
    have hlast := argumentAt_isLastArgument h2 hstr e
    have hnext := argumentAt_getNextArgument h2 e
    rw [h1] at hlast hnext
    simp only [tokenizedCTypeToString_Recursive.scopeLoop, hpq, if_true, hlow, ok_bind,
      hlast, hnext]
    have ih := scopeLoop_components tokens e rest (c.1.2 + 1) fuel
    cases rest with
    | nil =>
      simp [ArgumentsAt] at h3
      have hnl : ¬ (c.1.2 + 1 < e) := by omega
      rw [ih _ _ (by simp [ArgumentsAt, h3]) (by simp) (by omega)]
      simp [scopeOutput, hnl]
    | cons c2 rest =>
      have hlt : c.1.2 + 1 < e := by
        have h3c := h3
        simp only [List.map_cons, ArgumentsAt] at h3c
        obtain ⟨g1, g2, g3⟩ := h3c
        have := argumentsAt_le g3
        have := argumentAt_bounds g2
        omega
      rw [ih _ _ h3 (fun c' hc' => hcomps c' (List.mem_cons_of_mem _ hc')) (by omega)]
      simp [scopeOutput, hlt, addStringOutput, h1]

/-- C5: scope-resolution lowering.  In a form `(in C1 ... Cn)` with `n ≥ 1` that opens
at `s` and closes at `e`, let the components (each a Symbol or a balanced
parenthesised group, at the index spans `c.1`) each lower successfully with
`allowArray = false` to the type records `c.2`.  Then the form lowers successfully
under either value of `allowArray`: the type buffer receives the components'
records in order with one `::` text record between consecutive components (none
after the last), and the after-name buffer is unchanged. -/
theorem scope_resolution_lowering (tokens : List Token) (s e : Nat) (allowArray : Bool)
    (comps : List ((Nat × Nat) × List StringOutput))
    (typeOutput afterNameOutput : List StringOutput)
    (hs : typeAt tokens s = some TokenType.OpenParen)
    (hh : tokens[s + 1]? = some ⟨TokenType.Symbol, "in"⟩)
    (hne : comps ≠ [])
    (hargs : ArgumentsAt tokens (s + 2) (comps.map (fun c => c.1)) e)
    (hc : typeAt tokens e = some TokenType.CloseParen)
    (hcomps : ∀ c ∈ comps, typeAt tokens c.1.1 ≠ some TokenType.String ∧
      ∃ r, tokenizedCTypeToString_Recursive tokens c.1.1 false [] [] = .ok r ∧
        r.success = true ∧ r.typeOutput = c.2) :
    tokenizedCTypeToString_Recursive tokens s allowArray typeOutput afterNameOutput =
      .ok ⟨true, typeOutput ++ scopeOutput (comps.map (fun c => (c.1.1, c.2))),
        afterNameOutput, none⟩ := by
  have hf : FormAt tokens s ((s + 1, s + 1) :: comps.map (fun c => c.1)) e :=
    ⟨hs, ⟨rfl, Or.inl ⟨Or.inl (typeAt_of_getElem? hh), rfl⟩, hargs⟩, hc⟩
  rw [lowering_form hs hh (formAt_findClose hf)]
  have hfirst := formAt_getExpectedArgument hf 1
  cases comps with
  | nil => exact absurd rfl hne
  | cons c rest =>
    have h1 : c.1.1 = s + 2 := hargs.1
    simp only [Nat.cast_one, List.map_cons, List.getElem?_cons_succ,
      List.getElem?_cons_zero, h1] at hfirst
    have hle := argumentsAt_le hargs
    have hloop := scopeLoop_components tokens e (c :: rest) (s + 2) (e - (s + 2) + 1) typeOutput
      afterNameOutput hargs hcomps (le_refl _)
    have h2 : ¬ (((s + 2 : Nat) : Int) = -1) := by omega
    simp only [tokenizedCTypeToString_Recursive.formBranch,
      tokenizedCTypeToString_Recursive.scopeBranch, hfirst, ok_bind, h2, if_false,
      Int.toNat_ofNat, hloop]
    simp

/-- Witness for C5: `(in std (<> vector int float) iterator)` lowers to
`std`, `::`, the records of `vector<int, float>`, `::`, `iterator`. -/
theorem scope_resolution_lowering_witness :
    (typeAt exampleScopedIterator 0 = some TokenType.OpenParen ∧
      exampleScopedIterator[0 + 1]? = some ⟨TokenType.Symbol, "in"⟩ ∧
      ArgumentsAt exampleScopedIterator (0 + 2) [(2, 2), (3, 8), (9, 9)] 10 ∧
      typeAt exampleScopedIterator 10 = some TokenType.CloseParen) ∧
    tokenizedCTypeToString_Recursive exampleScopedIterator 0 true [] [] =
      .ok ⟨true,
        [⟨"std", StringOutMod_ConvertTypeName, 2⟩, ⟨"::", StringOutMod_None, 2⟩,
          ⟨"vector", StringOutMod_ConvertTypeName, 5⟩, ⟨"<", StringOutMod_None, 4⟩,
          ⟨"int", StringOutMod_ConvertTypeName, 6⟩, ⟨"", StringOutMod_ListSeparator, 6⟩,
          ⟨"float", StringOutMod_ConvertTypeName, 7⟩, ⟨">", StringOutMod_None, 4⟩,
          ⟨"::", StringOutMod_None, 3⟩, ⟨"iterator", StringOutMod_ConvertTypeName, 9⟩],
        [], none⟩ :=
  ⟨by decide,
    scope_resolution_lowering exampleScopedIterator 0 10 true
      [((2, 2), [⟨"std", StringOutMod_ConvertTypeName, 2⟩]),
        ((3, 8), [⟨"vector", StringOutMod_ConvertTypeName, 5⟩, ⟨"<", StringOutMod_None, 4⟩,
          ⟨"int", StringOutMod_ConvertTypeName, 6⟩, ⟨"", StringOutMod_ListSeparator, 6⟩,
          ⟨"float", StringOutMod_ConvertTypeName, 7⟩, ⟨">", StringOutMod_None, 4⟩]),
        ((9, 9), [⟨"iterator", StringOutMod_ConvertTypeName, 9⟩])]
      [] [] (by decide) (by decide) (by decide) (by decide) (by decide)
      (by
        intro c hc
        simp only [List.mem_cons, List.mem_singleton, List.not_mem_nil, or_false] at hc
        rcases hc with rfl | rfl | rfl
        · exact ⟨by decide, _, rfl, rfl, rfl⟩
        · exact ⟨by decide, _, rfl, rfl, rfl⟩
        · exact ⟨by decide, _, rfl, rfl, rfl⟩)⟩

theorem getArgument_one_of_symbol_head {tokens : List Token} {s e : Nat} {name : String}
    (hh : tokens[s + 1]? = some ⟨TokenType.Symbol, name⟩) :
    getArgument tokens s 1 e = .ok (if s + 2 < e then ((s + 2 : Nat) : Int) else -1) := by
  unfold getArgument
  by_cases h1 : s + 1 < e
  · obtain ⟨f, hf⟩ : ∃ f, e - s + 1 = f + 2 := ⟨e - s - 1, by omega⟩
    rw [hf]
    simp [getArgument.loop, h1, tokenAt_of_getElem? hh]
    by_cases h2 : s + 2 < e
    · simp [h2, show s + 1 + 1 = s + 2 by omega]
      omega
    · simp [h2, show s + 1 + 1 = s + 2 by omega]
  · have h2 : ¬ (s + 2 < e) := by omega
    simp [getArgument.loop, h1, h2]

theorem getExpectedArgument_one_of_symbol_head {tokens : List Token} {s e : Nat}
    {name : String} {ti : Int}
    (hh : tokens[s + 1]? = some ⟨TokenType.Symbol, name⟩)
    (h : getExpectedArgument tokens s 1 e = .ok ti) : ti = -1 ∨ ti.toNat = s + 2 := by
  unfold getExpectedArgument at h
  rw [getArgument_one_of_symbol_head hh] at h
  simp only [ok_bind] at h
  by_cases h2 : s + 2 < e
  · simp only [h2, if_true] at h
    have hne : ¬ (((s + 2 : Nat) : Int) = -1) := by omega
    rw [if_neg hne] at h
    simp at h
    right
    omega
  · simp only [h2, if_false, if_true] at h
    rw [bind_eq_ok] at h
    obtain ⟨_, _, h⟩ := h
    simp at h
    left
    exact h.symm

/-- C4 as stated fails: lowering `(<> ([] int))` with `allowArray = true` returns
with the record `[]` written into the after-name buffer. -/
theorem template_form_afterName_counterexample :
    InvocationRange exampleTemplateOfArray 0 6 ∧
    exampleTemplateOfArray[1]? = some ⟨TokenType.Symbol, "<>"⟩ ∧
    ∃ r, tokenizedCTypeToString_Recursive exampleTemplateOfArray 0 true [] [] = .ok r ∧
      r.afterNameOutput = [⟨"[]", StringOutMod_None, 3⟩] ∧ r.afterNameOutput ≠ [] :=
  ⟨by decide, by decide, _, rfl, by decide, by decide⟩

/-- C4, amended: lowering a `(<> ...)` form writes into the after-name buffer only
what lowering its template name writes.  Whatever the call returns, success or
failure, `afterNameOutput` afterwards is either what it was before, or what
lowering the name alone (the argument right after `<>`, same buffers, the caller's
`allowArray`) leaves in it; the template parameters never add to it.  So the buffer
is unchanged whenever `allowArray = false`, and also with `allowArray = true` when
the template name is a Symbol. -/
theorem template_form_preserves_afterName (tokens : List Token) (s : Nat) (allowArray : Bool)
    (typeOutput afterNameOutput : List StringOutput) (r : TypeLowering)
    (hs : typeAt tokens s = some TokenType.OpenParen)
    (hh : tokens[s + 1]? = some ⟨TokenType.Symbol, "<>"⟩)
    (hr : tokenizedCTypeToString_Recursive tokens s allowArray typeOutput afterNameOutput =
      .ok r) :
    (r.afterNameOutput = afterNameOutput ∨
      ∃ rn, tokenizedCTypeToString_Recursive tokens (s + 2) allowArray typeOutput
          afterNameOutput = .ok rn ∧
        r.afterNameOutput = rn.afterNameOutput) ∧
    (allowArray = false ∨ typeAt tokens (s + 2) = some TokenType.Symbol →
      r.afterNameOutput = afterNameOutput) := by
  have hgeneral : r.afterNameOutput = afterNameOutput ∨
      ∃ rn, tokenizedCTypeToString_Recursive tokens (s + 2) allowArray typeOutput
          afterNameOutput = .ok rn ∧
        r.afterNameOutput = rn.afterNameOutput := by
    obtain ⟨e, he⟩ := findClose_ok_of_typeAt hs
    rw [lowering_form hs hh he] at hr
    simp [tokenizedCTypeToString_Recursive.formBranch] at hr
    unfold tokenizedCTypeToString_Recursive.templateBranch at hr
    rw [bind_eq_ok] at hr
    obtain ⟨ti, hti, hr⟩ := hr
    split at hr
    · simp at hr; subst hr; left; rfl
    · rename_i hne
      rcases getExpectedArgument_one_of_symbol_head hh hti with h | h
      · exact absurd h hne
      · rw [h, bind_eq_ok] at hr
        obtain ⟨r1, hr1, hr⟩ := hr
        dsimp only at hr1 hr
        right
        refine ⟨r1, hr1, ?_⟩
        split at hr
        · simp at hr; subst hr; rfl
        · rw [bind_eq_ok] at hr
          obtain ⟨r2, hr2, hr⟩ := hr
          have h2 := templateLoop_noArray _
            (fun i ty af r h => lowering_noArray h) tokens e _ _ _ _ _ hr2
          split at hr <;> (simp at hr; subst hr; simp [h2])
  refine ⟨hgeneral, ?_⟩
  intro hcase
  rcases hgeneral with h | ⟨rn, hrn, h⟩
  · exact h
  · rw [h]
    rcases hcase with hfalse | hname
    · subst hfalse
      exact lowering_noArray hrn
    · obtain ⟨tn, htn, htnt, _⟩ := typeAt_eq_some hname
      rw [lowering_symbol htn htnt] at hrn
      simp only [Except.ok.injEq] at hrn
      subst hrn
      split <;> rfl

/-- Witness for the amended C4: the template form inside
`(& (const (<> std::vector Token)))`, lowered with `allowArray = true`. -/
theorem template_form_preserves_afterName_witness :
    (typeAt exampleReferenceToConstVector 4 = some TokenType.OpenParen ∧
      exampleReferenceToConstVector[4 + 1]? = some ⟨TokenType.Symbol, "<>"⟩ ∧
      tokenizedCTypeToString_Recursive exampleReferenceToConstVector 4 true [] [] =
        .ok ⟨true, [⟨"std::vector", StringOutMod_ConvertTypeName, 6⟩,
          ⟨"<", StringOutMod_None, 5⟩, ⟨"Token", StringOutMod_ConvertTypeName, 7⟩,
          ⟨">", StringOutMod_None, 5⟩], [], none⟩ ∧
      (true = false ∨
        typeAt exampleReferenceToConstVector (4 + 2) = some TokenType.Symbol)) ∧
    (TypeLowering.mk true [⟨"std::vector", StringOutMod_ConvertTypeName, 6⟩,
        ⟨"<", StringOutMod_None, 5⟩, ⟨"Token", StringOutMod_ConvertTypeName, 7⟩,
        ⟨">", StringOutMod_None, 5⟩] [] none).afterNameOutput = [] :=
  ⟨by decide,
    (template_form_preserves_afterName exampleReferenceToConstVector 4 true [] [] _
      (by decide) (by decide) (by decide)).2 (by decide)⟩

/-- C2, the code at the failing input `(<> (in std vector) int)`: the name
`(in std vector)` and the parameter `int` each lower successfully on their own, yet
the form returns `false`.  After the name's records and `<`, the parameter loop
starts one token after the open paren of the name, so it emits the tokens inside
the name once more as parameters and then reports at `int`. -/
theorem template_with_parenthesised_name_fails :
    tokenizedCTypeToString_Recursive exampleTemplateWithScopedName 2 true [] [] =
      .ok ⟨true, [⟨"std", StringOutMod_ConvertTypeName, 4⟩, ⟨"::", StringOutMod_None, 4⟩,
        ⟨"vector", StringOutMod_ConvertTypeName, 5⟩], [], none⟩ ∧
    tokenizedCTypeToString_Recursive exampleTemplateWithScopedName 7 false [] [] =
      .ok ⟨true, [⟨"int", StringOutMod_ConvertTypeName, 7⟩], [], none⟩ ∧
    tokenizedCTypeToString_Recursive exampleTemplateWithScopedName 0 true [] [] =
      .ok ⟨false,
        [⟨"std", StringOutMod_ConvertTypeName, 4⟩, ⟨"::", StringOutMod_None, 4⟩,
          ⟨"vector", StringOutMod_ConvertTypeName, 5⟩, ⟨"<", StringOutMod_None, 1⟩,
          ⟨"in", StringOutMod_ConvertTypeName, 3⟩, ⟨"", StringOutMod_ListSeparator, 3⟩,
          ⟨"std", StringOutMod_ConvertTypeName, 4⟩, ⟨"", StringOutMod_ListSeparator, 4⟩,
          ⟨"vector", StringOutMod_ConvertTypeName, 5⟩, ⟨"", StringOutMod_ListSeparator, 5⟩],
        [], some 7⟩ :=
  ⟨by decide, by decide, by decide⟩

/-- C8, the code at the failing inputs `([] float extra)` and `([] 10 float extra)`
with `allowArray = true`: the array branch never counts its arguments, so both
forms, which have one argument more than their arity, lower successfully and the
extra argument is ignored. -/
theorem array_form_ignores_extra_argument :
    tokenizedCTypeToString_Recursive exampleArrayWithExtraArgument 0 true [] [] =
      .ok ⟨true, [⟨"float", StringOutMod_ConvertTypeName, 2⟩],
        [⟨"[]", StringOutMod_None, 1⟩], none⟩ ∧
    tokenizedCTypeToString_Recursive exampleSizedArrayWithExtraArgument 0 true [] [] =
      .ok ⟨true, [⟨"float", StringOutMod_ConvertTypeName, 3⟩],
        [⟨"[", StringOutMod_None, 1⟩, ⟨"10", StringOutMod_None, 2⟩,
          ⟨"]", StringOutMod_None, 1⟩], none⟩ :=
  ⟨by decide, by decide⟩

/-! ### The fuel handed out is never used up -/

theorem bind_ne_outOfFuel {α β : Type} {x : Except Fault α} {f : α → Except Fault β}
    (hx : x ≠ .error Fault.outOfFuel) (hf : ∀ a, x = .ok a → f a ≠ .error Fault.outOfFuel) :
    (x >>= f) ≠ .error Fault.outOfFuel := by
  cases x with
  | error err =>
    simp only [error_bind]
    intro h
    apply hx
    cases h
    rfl
  | ok a =>
    simp only [ok_bind]
    exact hf a rfl

theorem tokenAt_ne_outOfFuel (tokens : List Token) (i : Nat) :
    tokenAt tokens i ≠ .error Fault.outOfFuel := by
  unfold tokenAt
  split <;> simp

theorem findClose_ne_outOfFuel (tokens : List Token) (i : Nat) :
    FindCloseParenTokenIndex tokens i ≠ .error Fault.outOfFuel := by
  unfold FindCloseParenTokenIndex
  exact bind_ne_outOfFuel (tokenAt_ne_outOfFuel _ _) (fun _ _ => by simp)

theorem skip_ne_outOfFuel (tokens : List Token) (t : Token) (i : Nat) :
    (if t.type = TokenType.OpenParen then FindCloseParenTokenIndex tokens i else pure i)
      ≠ .error Fault.outOfFuel := by
  split
  · exact findClose_ne_outOfFuel _ _
  · simp

theorem skip_ge {tokens : List Token} {t : Token} {i i1 : Nat}
    (h : (if t.type = TokenType.OpenParen then FindCloseParenTokenIndex tokens i else pure i)
      = .ok i1) : i ≤ i1 := by
  split at h
  · exact (findClose_bounds h).1
  · simp at h; omega

theorem getArgument_loop_ne_outOfFuel (tokens : List Token) (d : Int) (e : Nat) :
    ∀ (fuel i : Nat) (cur : Int), e - i + 1 ≤ fuel →
      getArgument.loop tokens d e fuel i cur ≠ .error Fault.outOfFuel := by
  intro fuel
  induction fuel with
  | zero => intro i cur h; omega
  | succ fuel ih =>
    intro i cur hf
    rw [getArgument.loop]
    split
    · split
      · simp
      · exact bind_ne_outOfFuel (tokenAt_ne_outOfFuel _ _) (fun t _ =>
          bind_ne_outOfFuel (skip_ne_outOfFuel _ _ _) (fun i1 h1 =>
            ih _ _ (by have := skip_ge h1; omega)))
    · simp

theorem getNumArguments_loop_ne_outOfFuel (tokens : List Token) (e : Nat) :
    ∀ (fuel i : Nat) (cur : Int), e - i + 1 ≤ fuel →
      getNumArguments.loop tokens e fuel i cur ≠ .error Fault.outOfFuel := by
  intro fuel
  induction fuel with
  | zero => intro i cur h; omega
  | succ fuel ih =>
    intro i cur hf
    rw [getNumArguments.loop]
    split
    · exact bind_ne_outOfFuel (tokenAt_ne_outOfFuel _ _) (fun t _ =>
        bind_ne_outOfFuel (skip_ne_outOfFuel _ _ _) (fun i1 h1 =>
          ih _ _ (by have := skip_ge h1; omega)))
    · simp

theorem getExpectedArgument_ne_outOfFuel (tokens : List Token) (s : Nat) (d : Int) (e : Nat) :
    getExpectedArgument tokens s d e ≠ .error Fault.outOfFuel := by
  unfold getExpectedArgument getArgument
  refine bind_ne_outOfFuel (getArgument_loop_ne_outOfFuel _ _ _ _ _ _ (by omega)) (fun a _ => ?_)
  split
  · exact bind_ne_outOfFuel (tokenAt_ne_outOfFuel _ _) (fun _ _ => by simp)
  · simp

theorem expectNumArguments_ne_outOfFuel (tokens : List Token) (s e : Nat) (n : Int) :
    ExpectNumArguments tokens s e n ≠ .error Fault.outOfFuel := by
  unfold ExpectNumArguments getNumArguments
  refine bind_ne_outOfFuel (getNumArguments_loop_ne_outOfFuel _ _ _ _ _ (by omega))
    (fun a _ => ?_)
  split
  · exact bind_ne_outOfFuel (tokenAt_ne_outOfFuel _ _) (fun _ _ => by simp)
  · simp

theorem isLastArgument_ne_outOfFuel (tokens : List Token) (p e : Nat) :
    isLastArgument tokens p e ≠ .error Fault.outOfFuel := by
  unfold isLastArgument
  refine bind_ne_outOfFuel (tokenAt_ne_outOfFuel _ _) (fun t _ => ?_)
  split
  · refine bind_ne_outOfFuel (findClose_ne_outOfFuel _ _) (fun c _ => ?_)
    split <;> simp
  · split <;> simp

theorem getNextArgument_ne_outOfFuel (tokens : List Token) (p e : Nat) :
    getNextArgument tokens p e ≠ .error Fault.outOfFuel := by
  unfold getNextArgument
  refine bind_ne_outOfFuel (tokenAt_ne_outOfFuel _ _) (fun t _ => ?_)
  split
  · exact bind_ne_outOfFuel (findClose_ne_outOfFuel _ _) (fun c _ => by simp)
  · simp

theorem templateLoop_ne_outOfFuel
    (recurse : Nat → Bool → List StringOutput → List StringOutput → Except Fault TypeLowering)
    (tokens : List Token) (e : Nat) :
    ∀ (fuel p : Nat) (ty af : List StringOutput),
      (∀ i a t f, p ≤ i → recurse i a t f ≠ .error Fault.outOfFuel) → e - p + 1 ≤ fuel →
      tokenizedCTypeToString_Recursive.templateLoop recurse tokens e fuel p ty af ≠
        .error Fault.outOfFuel := by
  intro fuel
  induction fuel with
  | zero => intro p ty af _ h; omega
  | succ fuel ih =>
    intro p ty af hrec hf
    simp only [tokenizedCTypeToString_Recursive.templateLoop]
    split
    · refine bind_ne_outOfFuel (hrec _ _ _ _ (le_refl _)) (fun r _ => ?_)
      split
      · simp
      · refine bind_ne_outOfFuel (isLastArgument_ne_outOfFuel _ _ _) (fun l _ => ?_)
        refine bind_ne_outOfFuel (tokenAt_ne_outOfFuel _ _) (fun t _ => ?_)
        refine bind_ne_outOfFuel (skip_ne_outOfFuel _ _ _) (fun nx hnx => ?_)
        have := skip_ge hnx
        exact ih _ _ _ (fun i a t f hi => hrec i a t f (by omega)) (by omega)
    · simp

theorem scopeLoop_ne_outOfFuel
    (recurse : Nat → Bool → List StringOutput → List StringOutput → Except Fault TypeLowering)
    (tokens : List Token) (e : Nat) :
    ∀ (fuel p : Nat) (ty af : List StringOutput),
      (∀ i a t f, p ≤ i → recurse i a t f ≠ .error Fault.outOfFuel) → e - p + 1 ≤ fuel →
      tokenizedCTypeToString_Recursive.scopeLoop recurse tokens e fuel p ty af ≠
        .error Fault.outOfFuel := by
  intro fuel
  induction fuel with
  | zero => intro p ty af _ h; omega
  | succ fuel ih =>
    intro p ty af hrec hf
    simp only [tokenizedCTypeToString_Recursive.scopeLoop]
    split
    · refine bind_ne_outOfFuel (hrec _ _ _ _ (le_refl _)) (fun r _ => ?_)
      split
      · simp
      · refine bind_ne_outOfFuel (isLastArgument_ne_outOfFuel _ _ _) (fun l _ => ?_)
        refine bind_ne_outOfFuel (getNextArgument_ne_outOfFuel _ _ _) (fun nx hnx => ?_)
        have := getNextArgument_gt hnx
        exact ih _ _ _ (fun i a t f hi => hrec i a t f (by omega)) (by omega)
    · simp

theorem formBranch_ne_outOfFuel
    (recurse : Nat → Bool → List StringOutput → List StringOutput → Except Fault TypeLowering)
    (tokens : List Token) (s e : Nat) (hd : Token) (allow : Bool) (ty af : List StringOutput)
    (hrec : ∀ i a t f, s < i → recurse i a t f ≠ .error Fault.outOfFuel) :
    tokenizedCTypeToString_Recursive.formBranch recurse tokens s e hd allow ty af ≠
      .error Fault.outOfFuel := by
  have hsuffix : ∀ x, tokenizedCTypeToString_Recursive.suffixBranch recurse tokens s e x allow
      ty af ≠ .error Fault.outOfFuel := by
    intro x
    unfold tokenizedCTypeToString_Recursive.suffixBranch
    refine bind_ne_outOfFuel (expectNumArguments_ne_outOfFuel _ _ _ _) (fun ar _ => ?_)
    split
    · simp
    · refine bind_ne_outOfFuel (getExpectedArgument_ne_outOfFuel _ _ _ _) (fun ti hti => ?_)
      split
      · simp
      · rename_i hne
        refine bind_ne_outOfFuel
          (hrec _ _ _ _ (toNat_gt_of_bounds (getExpectedArgument_bounds hti) hne).1)
          (fun r _ => ?_)
        split <;> simp
  unfold tokenizedCTypeToString_Recursive.formBranch
  split
  · unfold tokenizedCTypeToString_Recursive.constBranch
    refine bind_ne_outOfFuel (expectNumArguments_ne_outOfFuel _ _ _ _) (fun ar _ => ?_)
    split
    · simp
    · refine bind_ne_outOfFuel (getExpectedArgument_ne_outOfFuel _ _ _ _) (fun ti hti => ?_)
      split
      · simp
      · rename_i hne
        exact hrec _ _ _ _ (toNat_gt_of_bounds (getExpectedArgument_bounds hti) hne).1
  split
  · exact hsuffix _
  split
  · exact hsuffix _
  split
  · unfold tokenizedCTypeToString_Recursive.templateBranch
    refine bind_ne_outOfFuel (getExpectedArgument_ne_outOfFuel _ _ _ _) (fun ti hti => ?_)
    split
    · simp
    · rename_i hne
      have hb := (toNat_gt_of_bounds (getExpectedArgument_bounds hti) hne).1
      refine bind_ne_outOfFuel (hrec _ _ _ _ hb) (fun r _ => ?_)
      split
      · simp
      · refine bind_ne_outOfFuel
          (templateLoop_ne_outOfFuel recurse tokens e _ _ _ _
            (fun i a t f hi => hrec i a t f (by omega)) (by omega)) (fun r2 _ => ?_)
        split <;> simp
  split
  · unfold tokenizedCTypeToString_Recursive.arrayBranch
    split
    · simp
    · refine bind_ne_outOfFuel (getExpectedArgument_ne_outOfFuel _ _ _ _) (fun fi hfi => ?_)
      split
      · simp
      · rename_i hne
        have hb := (toNat_gt_of_bounds (getExpectedArgument_bounds hfi) hne).1
        refine bind_ne_outOfFuel (tokenAt_ne_outOfFuel _ _) (fun fa _ => ?_)
        dsimp only
        split
        · refine bind_ne_outOfFuel (getExpectedArgument_ne_outOfFuel _ _ _ _)
            (fun ti hti => ?_)
          split
          · simp
          · rename_i hne2
            exact hrec _ _ _ _ (toNat_gt_of_bounds (getExpectedArgument_bounds hti) hne2).1
        · exact hrec _ _ _ _ hb
  split
  · unfold tokenizedCTypeToString_Recursive.scopeBranch
    refine bind_ne_outOfFuel (getExpectedArgument_ne_outOfFuel _ _ _ _) (fun ti hti => ?_)
    split
    · simp
    · rename_i hne
      have hb := (toNat_gt_of_bounds (getExpectedArgument_bounds hti) hne).1
      refine bind_ne_outOfFuel
        (scopeLoop_ne_outOfFuel recurse tokens e _ _ _ _
          (fun i a t f hi => hrec i a t f (by omega)) (le_refl _)) (fun r _ => ?_)
      split <;> simp
  · simp

theorem body_ne_outOfFuel
    (recurse : Nat → Bool → List StringOutput → List StringOutput → Except Fault TypeLowering)
    (tokens : List Token) (s : Nat) (allow : Bool) (ty af : List StringOutput)
    (hrec : ∀ i a t f, s < i → recurse i a t f ≠ .error Fault.outOfFuel) :
    tokenizedCTypeToString_Recursive.body recurse tokens s allow ty af ≠
      .error Fault.outOfFuel := by
  unfold tokenizedCTypeToString_Recursive.body
  refine bind_ne_outOfFuel (tokenAt_ne_outOfFuel _ _) (fun t _ => ?_)
  split
  · split <;> simp
  · refine bind_ne_outOfFuel (tokenAt_ne_outOfFuel _ _) (fun hd _ => ?_)
    split
    · simp
    · exact bind_ne_outOfFuel (findClose_ne_outOfFuel _ _)
        (fun e _ => formBranch_ne_outOfFuel recurse tokens s e hd allow ty af hrec)

theorem run_ne_outOfFuel (tokens : List Token) :
    ∀ (n s : Nat), tokens.length - s + 1 ≤ n →
      ∀ (allow : Bool) (ty af : List StringOutput),
        tokenizedCTypeToString_Recursive.run n tokens s allow ty af ≠
          .error Fault.outOfFuel := by
  intro n
  induction n with
  | zero => intro s h; omega
  | succ n ih =>
    intro s hn allow ty af
    rw [tokenizedCTypeToString_Recursive.run]
    by_cases hs : s < tokens.length
    · exact body_ne_outOfFuel _ _ _ _ _ _ (fun i a t f hi => ih i (by omega) a t f)
    · unfold tokenizedCTypeToString_Recursive.body
      have : tokenAt tokens s = .error Fault.outOfBounds := by
        unfold tokenAt
        rw [List.getElem?_eq_none (by omega)]
      rw [this]
      simp only [error_bind]
      simp

/-- The lowering never runs out of the fuel its definition hands out: whatever the
token vector and the start index, the result is a returned value or an
out-of-bounds read. -/
theorem lowering_ne_outOfFuel (tokens : List Token) (s : Nat) (allow : Bool)
    (ty af : List StringOutput) :
    tokenizedCTypeToString_Recursive tokens s allow ty af ≠ .error Fault.outOfFuel :=
  run_ne_outOfFuel tokens _ s (le_refl _) allow ty af

/-- The argument loops never run out of the fuel their definitions hand out. -/
theorem getArgument_ne_outOfFuel (tokens : List Token) (s : Nat) (d : Int) (e : Nat) :
    getArgument tokens s d e ≠ .error Fault.outOfFuel :=
  getArgument_loop_ne_outOfFuel _ _ _ _ _ _ (by omega)

theorem getNumArguments_ne_outOfFuel (tokens : List Token) (s e : Nat) :
    getNumArguments tokens s e ≠ .error Fault.outOfFuel :=
  getNumArguments_loop_ne_outOfFuel _ _ _ _ _ (by omega)

/-! ### Every balanced range is a sequence of arguments -/

/-- In a list that closes one paren more than it opens, up to depth `d`, the first
close paren that brings the depth down splits off a balanced front. -/
theorem balancedFrom_split :
    ∀ (n : Nat) (l : List Token) (d : Nat), l.length ≤ n → balancedFrom (d + 1) l = true →
      ∃ l1 c l2, l = l1 ++ c :: l2 ∧ c.type = TokenType.CloseParen ∧
        balancedFrom 0 l1 = true ∧ balancedFrom d l2 = true
  | _, [], d, _, h => by simp [balancedFrom] at h
  | 0, t :: rest, d, hn, _ => by simp at hn
  | n + 1, t :: rest, d, hn, h => by
    have hrest : rest.length ≤ n := by simpa using hn
    rw [balancedFrom_cons] at h
    by_cases h1 : t.type = TokenType.OpenParen
    · rw [if_pos h1] at h
      obtain ⟨m1, c1, m2, hm, hc1, hb1, hb2⟩ := balancedFrom_split n rest (d + 1) hrest h
      have hm2 : m2.length ≤ n := by
        have := congrArg List.length hm
        simp at this
        omega
      obtain ⟨n1, c, n2, hn2, hc, hb3, hb4⟩ := balancedFrom_split n m2 d hm2 hb2
      refine ⟨t :: (m1 ++ c1 :: n1), c, n2, ?_, hc, ?_, hb4⟩
      · rw [hm, hn2]
        simp
      · rw [balancedFrom_cons, if_pos h1]
        have := balancedFrom_append m1 0 1 (c1 :: n1) hb1
        simp only [Nat.add_zero] at this
        rw [zero_add, this, balancedFrom_cons]
        have hco : ¬ (c1.type = TokenType.OpenParen) := by rw [hc1]; decide
        rw [if_neg hco, if_pos hc1]
        simpa using hb3
    · by_cases h2 : t.type = TokenType.CloseParen
      · rw [if_neg h1, if_pos h2] at h
        simp at h
        exact ⟨[], t, rest, rfl, h2, rfl, h⟩
      · rw [if_neg h1, if_neg h2] at h
        obtain ⟨l1, c, l2, hl, hc, hb1, hb2⟩ := balancedFrom_split n rest d hrest h
        refine ⟨t :: l1, c, l2, by rw [hl]; rfl, hc, ?_, hb2⟩
        rw [balancedFrom_cons, if_neg h1, if_neg h2]
        exact hb1

theorem segment_cons {tokens : List Token} {p q : Nat} {t : Token} (h : tokens[p]? = some t)
    (hpq : p < q) : segment tokens p q = t :: segment tokens (p + 1) q := by
  rw [segment_split tokens (show p ≤ p + 1 by omega) (show p + 1 ≤ q by omega),
    segment_single h]
  rfl

theorem length_segment {tokens : List Token} {p q : Nat} (hq : q ≤ tokens.length) :
    (segment tokens p q).length = q - p := by
  unfold segment
  simp
  omega

/-- Balanced tokens from `p` up to, not including, `q` are top-level arguments one
after the other. -/
theorem arguments_of_balanced (tokens : List Token) :
    ∀ (n p q : Nat), q - p ≤ n → p ≤ q → q ≤ tokens.length →
      balancedFrom 0 (segment tokens p q) = true →
      ∃ spans, ArgumentsAt tokens p spans q
  | 0, p, q, hn, hpq, _, _ => ⟨[], by simp [ArgumentsAt]; omega⟩
  | n + 1, p, q, hn, hpq, hq, hb => by
    by_cases hp : p = q
    · exact ⟨[], by simp [ArgumentsAt, hp]⟩
    · have hlt : p < q := by omega
      obtain ⟨t, _, ht⟩ := tokenAt_ok (show p < tokens.length by omega)
      rw [segment_cons ht hlt, balancedFrom_cons] at hb
      by_cases h1 : t.type = TokenType.OpenParen
      · rw [if_pos h1] at hb
        obtain ⟨l1, c, l2, hl, hc, hb1, hb2⟩ :=
          balancedFrom_split _ (segment tokens (p + 1) q) 0 (le_refl _) hb
        have hlen := congrArg List.length hl
        rw [length_segment hq] at hlen
        simp only [List.length_append, List.length_cons] at hlen
        have hm : p + 1 + l1.length < q := by omega
        have hsplit := segment_split tokens (show p + 1 ≤ p + 1 + l1.length by omega)
          (show p + 1 + l1.length ≤ q by omega)
        rw [hl] at hsplit
        have hl1 : (segment tokens (p + 1) (p + 1 + l1.length)).length = l1.length := by
          rw [length_segment (by omega)]
          omega
        obtain ⟨hfront, hback⟩ := List.append_inj hsplit hl1.symm
        obtain ⟨tc, _, htc⟩ := tokenAt_ok (show p + 1 + l1.length < tokens.length by omega)
        rw [segment_cons htc hm] at hback
        obtain ⟨hctc, hl2⟩ := List.cons.inj hback
        have hrange : InvocationRange tokens p (p + 1 + l1.length) := by
          refine ⟨by omega, ?_, ?_, ?_⟩
          · rw [typeAt_of_getElem? ht, h1]
          · rw [typeAt_of_getElem? htc, ← hctc, hc]
          · rw [tokensBetween_eq_segment, ← hfront]
            exact hb1
        obtain ⟨spans, hspans⟩ := arguments_of_balanced tokens n (p + 1 + l1.length + 1) q
          (by omega) (by omega) hq (by rw [← hl2]; exact hb2)
        exact ⟨(p, p + 1 + l1.length) :: spans, rfl, Or.inr hrange, hspans⟩
      · by_cases h2 : t.type = TokenType.CloseParen
        · rw [if_neg h1, if_pos h2] at hb
          simp at hb
        · rw [if_neg h1, if_neg h2] at hb
          obtain ⟨spans, hspans⟩ := arguments_of_balanced tokens n (p + 1) q (by omega)
            (by omega) hq hb
          refine ⟨(p, p) :: spans, rfl, Or.inl ⟨?_, rfl⟩, hspans⟩
          rw [typeAt_of_getElem? ht]
          cases hty : t.type with
          | OpenParen => exact absurd hty h1
          | CloseParen => exact absurd hty h2
          | Symbol => exact Or.inl rfl
          | String => exact Or.inr rfl

/-- Every balanced invocation range is a written-out form: name and arguments one
after the other. -/
theorem formAt_of_range {tokens : List Token} {s e : Nat} (h : InvocationRange tokens s e) :
    ∃ spans, FormAt tokens s spans e := by
  obtain ⟨hse, hs, he, hb⟩ := h
  obtain ⟨_, _, _, hel⟩ := typeAt_eq_some he
  rw [tokensBetween_eq_segment] at hb
  obtain ⟨spans, hspans⟩ := arguments_of_balanced tokens (e - (s + 1)) (s + 1) e (le_refl _)
    (by omega) (by omega) hb
  exact ⟨spans, hs, hspans, he⟩

/-! ### Claims on navigation, signatures and statements -/

/-- C11, the code at the failing input `(f "a" b)`: the String token at index 2 is
argument 1 of 3 (the last argument is `b` at index 3), yet `isLastArgument` answers
`true` for it, because it only looks for a successor after an open paren or a
Symbol. -/
theorem isLastArgument_true_for_string_with_successor :
    InvocationRange exampleCallWithStringArgument 0 4 ∧
    getNumArguments exampleCallWithStringArgument 0 4 = .ok 3 ∧
    getArgument exampleCallWithStringArgument 0 1 4 = .ok 2 ∧
    getArgument exampleCallWithStringArgument 0 (3 - 1) 4 = .ok 3 ∧
    isLastArgument exampleCallWithStringArgument 2 4 = .ok true :=
  ⟨by decide, by decide, by decide, by decide, by decide⟩

theorem getArgument_eq_sentinel_iff {tokens : List Token} {s e : Nat}
    {spans : List (Nat × Nat)} (h : FormAt tokens s spans e) (n : Int) :
    getArgument tokens s n e = .ok (-1) ↔ n < 0 ∨ (spans.length : Int) ≤ n := by
  by_cases hn : n < 0
  · have := getArgument_loop_negative n spans (s + 1) (e - s + 1) 0 h.2.1 (by omega) hn
    simp only [getArgument, this, hn, true_or]
  · obtain ⟨k, rfl⟩ : ∃ k : Nat, n = (k : Int) := ⟨n.toNat, by omega⟩
    rw [formAt_getArgument h k]
    by_cases hk : k < spans.length
    · rw [List.getElem?_eq_getElem hk]
      simp only [Except.ok.injEq]
      constructor
      · intro h1; omega
      · intro h1; omega
    · rw [List.getElem?_eq_none (by omega)]
      simp only [true_iff]
      right
      omega

/-- C12: argument counting and the missing-argument sentinel.  Every balanced
invocation `s..e` is its top-level children one after the other, the name first and
a nested paren group as one child; `getNumArguments` returns their number, the
`k`-th child is where `getArgument` with `k` points, and `getArgument` with `n`
returns `-1` exactly when `n < 0` or `n` is at least that number. -/
theorem argument_count_and_sentinel (tokens : List Token) (s e : Nat)
    (h : InvocationRange tokens s e) :
    ∃ spans : List (Nat × Nat), FormAt tokens s spans e ∧
      getNumArguments tokens s e = .ok (spans.length : Int) ∧
      (∀ k (hk : k < spans.length),
        getArgument tokens s (k : Int) e = .ok ((spans[k].1 : Nat) : Int)) ∧
      ∀ n : Int, getArgument tokens s n e = .ok (-1) ↔ n < 0 ∨ (spans.length : Int) ≤ n := by
  obtain ⟨spans, hform⟩ := formAt_of_range h
  refine ⟨spans, hform, formAt_getNumArguments hform, ?_, getArgument_eq_sentinel_iff hform⟩
  intro k hk
  rw [formAt_getArgument hform k, List.getElem?_eq_getElem hk]

/-- Witness for C12: the empty argument list `(name)` has one child, the name, and
no argument 1. -/
theorem argument_count_and_sentinel_witness :
    InvocationRange exampleEmptyArgumentList 0 2 ∧
    (∃ spans : List (Nat × Nat), FormAt exampleEmptyArgumentList 0 spans 2 ∧
      getNumArguments exampleEmptyArgumentList 0 2 = .ok (spans.length : Int) ∧
      (∀ k (hk : k < spans.length),
        getArgument exampleEmptyArgumentList 0 (k : Int) 2 = .ok ((spans[k].1 : Nat) : Int)) ∧
      ∀ n : Int, getArgument exampleEmptyArgumentList 0 n 2 = .ok (-1) ↔
        n < 0 ∨ (spans.length : Int) ≤ n) ∧
    getNumArguments exampleEmptyArgumentList 0 2 = .ok 1 ∧
    getArgument exampleEmptyArgumentList 0 1 2 = .ok (-1) :=
  ⟨by decide, argument_count_and_sentinel exampleEmptyArgumentList 0 2 (by decide),
    by decide, by decide⟩

theorem plainSymbolAt_spec {tokens : List Token} {i : Nat} (h : PlainSymbolAt tokens i) :
    ∃ t, tokens[i]? = some t ∧ t.type = TokenType.Symbol ∧ isSpecialSymbol t = false := by
  unfold PlainSymbolAt at h
  split at h
  · rename_i t ht
    exact ⟨t, ht, h.1, h.2⟩
  · exact absurd h id

theorem isSpecialSymbol_return {t : Token} (h1 : t.type = TokenType.Symbol)
    (h2 : t.contents = "&return") : isSpecialSymbol t = true := by
  unfold isSpecialSymbol
  rw [if_pos h1, h2]
  decide

theorem typeSpecifierAt_argument {tokens : List Token} {t te : Nat}
    (h : TypeSpecifierAt tokens t te) : ArgumentAt tokens t te := by
  rcases h with ⟨h, rfl⟩ | h
  · obtain ⟨tok, ht, hs, _⟩ := plainSymbolAt_spec h
    left
    refine ⟨Or.inl ?_, rfl⟩
    rw [typeAt_of_getElem? ht, hs]
  · exact Or.inr h

theorem expectInInvocation_inside {tokens : List Token} {i e : Nat} (h : i < e) :
    ExpectInInvocation tokens i e = .ok true := by
  unfold ExpectInInvocation
  rw [if_neg (by omega)]
  rfl

theorem expectInInvocation_outside {tokens : List Token} {i e : Nat} (h : e ≤ i)
    (he : e < tokens.length) : ExpectInInvocation tokens i e = .ok false := by
  unfold ExpectInInvocation
  obtain ⟨t, ht, _⟩ := tokenAt_ok he
  rw [if_pos (by omega), ht]
  rfl

theorem parametersAt_le {tokens : List Token} :
    ∀ {params : List (Nat × Nat × Nat)} {p q : Nat}, ParametersAt tokens p params q → p ≤ q
  | [], p, q, h => by simp [ParametersAt] at h; omega
  | param :: rest, p, q, h => by
    obtain ⟨h1, _, h3, h4, h5⟩ := h
    have := parametersAt_le h5
    have := argumentAt_bounds (typeSpecifierAt_argument h4)
    omega

/-- One well-formed parameter takes the loop from the Name state at its name to the
Name state right after its type, with the parameter appended. -/
theorem parse_loop_parameter {tokens : List Token} {e n t te : Nat}
    (hn : PlainSymbolAt tokens n) (ht : t = n + 1) (hty : TypeSpecifierAt tokens t te)
    (hte : te < e) (fuel : Nat) (args : List FunctionArgumentTokens) (rts : Int) :
    parseFunctionSignature.loop tokens e (fuel + 2) n DefunState.Name ⟨0, 0⟩ args rts =
      parseFunctionSignature.loop tokens e fuel (te + 1) DefunState.Name ⟨0, 0⟩
        (args ++ [⟨t, n⟩]) rts := by
  subst ht
  have hb := argumentAt_bounds (typeSpecifierAt_argument hty)
  obtain ⟨tn, htn, hsym, hplain⟩ := plainSymbolAt_spec hn
  have hnotret : ¬ (tn.contents = "&return") := by
    intro h
    rw [isSpecialSymbol_return hsym h] at hplain
    exact absurd hplain (by decide)
  have hne : n < e := by omega
  have hne1 : n + 1 < e := by omega
  rw [parseFunctionSignature.loop]
  simp only [hne, if_true, tokenAt_of_getElem? htn, ok_bind, hsym, hnotret, and_false,
    if_false, ExpectTokenType, decide_True, expectInInvocation_inside hne1]
  simp only [Bool.true_eq_false, if_false]
  rw [parseFunctionSignature.loop]
  rcases hty with ⟨hp, hte2⟩ | hr
  · obtain ⟨tt, htt, hsym2, hplain2⟩ := plainSymbolAt_spec hp
    have hno : ¬ (tt.type = TokenType.OpenParen) := by rw [hsym2]; decide
    subst hte2
    simp [hne1, tokenAt_of_getElem? htt, hsym2, hplain2]
  · obtain ⟨tt, htt, htot, _⟩ := typeAt_eq_some hr.2.1
    simp [hne1, tokenAt_of_getElem? htt, htot, findClose_of_range hr]

theorem parse_loop_parameters {tokens : List Token} {e q : Nat} :
    ∀ (params : List (Nat × Nat × Nat)) (p fuel : Nat) (args : List FunctionArgumentTokens)
      (rts : Int),
      ParametersAt tokens p params q → q ≤ e → e - p + 1 ≤ fuel →
      ∃ fuel1, e - q + 1 ≤ fuel1 ∧
        parseFunctionSignature.loop tokens e fuel p DefunState.Name ⟨0, 0⟩ args rts =
          parseFunctionSignature.loop tokens e fuel1 q DefunState.Name ⟨0, 0⟩
            (args ++ parameterTokens params) rts
  | [], p, fuel, args, rts, h, _, hf => by
    simp [ParametersAt] at h
    subst h
    exact ⟨fuel, hf, by simp [parameterTokens]⟩
  | param :: rest, p, fuel, args, rts, h, hq, hf => by
    obtain ⟨h1, h2, h3, h4, h5⟩ := h
    have hle := parametersAt_le h5
    have hb := argumentAt_bounds (typeSpecifierAt_argument h4)
    obtain ⟨fuel, rfl⟩ : ∃ f, fuel = f + 2 := ⟨fuel - 2, by omega⟩
    rw [← h1, parse_loop_parameter h2 h3 h4 (by omega) fuel args rts]
    obtain ⟨fuel1, hf1, heq⟩ := parse_loop_parameters rest (param.2.2 + 1) fuel
      (args ++ [⟨param.2.1, param.1⟩]) rts h5 hq (by omega)
    refine ⟨fuel1, hf1, ?_⟩
    rw [heq]
    simp [parameterTokens]

theorem argumentsAt_append {tokens : List Token} :
    ∀ {s1 s2 : List (Nat × Nat)} {p q e : Nat}, ArgumentsAt tokens p s1 q →
      ArgumentsAt tokens q s2 e → ArgumentsAt tokens p (s1 ++ s2) e
  | [], s2, p, q, e, h1, h2 => by
    simp [ArgumentsAt] at h1
    subst h1
    simpa using h2
  | span :: rest, s2, p, q, e, h1, h2 => by
    obtain ⟨g1, g2, g3⟩ := h1
    exact ⟨g1, g2, argumentsAt_append g3 h2⟩

theorem plainSymbolAt_argument {tokens : List Token} {i : Nat} (h : PlainSymbolAt tokens i) :
    ArgumentAt tokens i i := by
  obtain ⟨t, ht, hs, _⟩ := plainSymbolAt_spec h
  left
  refine ⟨Or.inl ?_, rfl⟩
  rw [typeAt_of_getElem? ht, hs]

theorem parametersAt_arguments {tokens : List Token} :
    ∀ {params : List (Nat × Nat × Nat)} {p q : Nat}, ParametersAt tokens p params q →
      ArgumentsAt tokens p (parameterSpans params) q
  | [], p, q, h => by simpa [ParametersAt, parameterSpans, ArgumentsAt] using h
  | param :: rest, p, q, h => by
    obtain ⟨h1, h2, h3, h4, h5⟩ := h
    refine ⟨h1, plainSymbolAt_argument h2, h3, typeSpecifierAt_argument h4, ?_⟩
    exact parametersAt_arguments h5

theorem returnAt_arguments {tokens : List Token} {q e : Nat} {ret : Option (Nat × Nat)}
    (h : ReturnAt tokens q ret e) : ArgumentsAt tokens q (returnSpans q ret) e := by
  cases ret with
  | none => simpa [ReturnAt, returnSpans, ArgumentsAt] using h
  | some ret =>
    obtain ⟨h1, h2, h3, h4⟩ := h
    exact ⟨rfl, Or.inl ⟨Or.inl (typeAt_of_getElem? h1), rfl⟩, h2, h3, h4⟩

theorem signature_formAt {tokens : List Token} {argsIndex q e : Nat}
    {params : List (Nat × Nat × Nat)} {ret : Option (Nat × Nat)}
    (hopen : typeAt tokens argsIndex = some TokenType.OpenParen)
    (hparams : ParametersAt tokens (argsIndex + 1) params q)
    (hret : ReturnAt tokens q ret e)
    (hclose : typeAt tokens e = some TokenType.CloseParen) :
    FormAt tokens argsIndex (parameterSpans params ++ returnSpans q ret) e :=
  ⟨hopen, argumentsAt_append (parametersAt_arguments hparams) (returnAt_arguments hret), hclose⟩

theorem parameterSpans_getElem? (extra : List (Nat × Nat)) :
    ∀ (params : List (Nat × Nat × Nat)) (j : Nat) (hj : j < params.length),
      (parameterSpans params ++ extra)[2 * j]? = some (params[j].1, params[j].1) ∧
      (parameterSpans params ++ extra)[2 * j + 1]? = some (params[j].2.1, params[j].2.2)
  | [], j, hj => by simp at hj
  | param :: rest, 0, _ => by simp [parameterSpans]
  | param :: rest, j + 1, hj => by
    have := parameterSpans_getElem? extra rest j (by simpa using hj)
    simp only [parameterSpans, List.cons_append, show 2 * (j + 1) = 2 * j + 1 + 1 by omega,
      List.getElem?_cons_succ, List.getElem_cons_succ]
    exact this

theorem parse_loop_end {tokens : List Token} {e : Nat} (fuel : Nat) (he : 1 ≤ fuel)
    (current : FunctionArgumentTokens) (args : List FunctionArgumentTokens) (rts : Int) :
    parseFunctionSignature.loop tokens e fuel e DefunState.Name current args rts =
      .ok ⟨true, args, rts, none⟩ := by
  obtain ⟨fuel, rfl⟩ : ∃ f, fuel = f + 1 := ⟨fuel - 1, by omega⟩
  simp [parseFunctionSignature.loop]

theorem parse_loop_return {tokens : List Token} {q e r : Nat}
    (hret : tokens[q]? = some ⟨TokenType.Symbol, "&return"⟩) (hr : r = q + 1) (hre : r < e)
    (hlen : e ≤ tokens.length)
    (fuel : Nat) (hf : 2 ≤ fuel)
    (current : FunctionArgumentTokens) (args : List FunctionArgumentTokens) (rts : Int) :
    parseFunctionSignature.loop tokens e fuel q DefunState.Name current args rts =
      .ok ⟨true, args, (r : Int), none⟩ := by
  subst hr
  obtain ⟨fuel, rfl⟩ : ∃ f, fuel = f + 2 := ⟨fuel - 2, by omega⟩
  obtain ⟨t1, ht1, _⟩ := tokenAt_ok (show q + 1 < tokens.length by omega)
  rw [parseFunctionSignature.loop]
  simp only [show q < e by omega, if_true, tokenAt_of_getElem? hret, ok_bind, and_self,
    expectInInvocation_inside hre]
  simp only [Bool.true_eq_false, if_false]
  rw [parseFunctionSignature.loop]
  simp [hre, ht1]

/-- C13: signature parsing of well-formed lists.  Let the list that opens at
`argsIndex` and closes at `e` hold the well-formed parameters `params` (each a plain
Symbol name followed by a type that is a plain Symbol or a balanced group) and then
end, or end with `&return r`.  Then `parseFunctionSignature` returns `true` and
appends to `arguments` exactly one `FunctionArgumentTokens` per parameter, in source
order, with `nameIndex` the index of the name and `startTypeIndex` the index of the
first token of the type; these are the indices `getArgument` gives for the positions
`2j` and `2j + 1`.  With `&return r` the resulting `returnTypeStart` is the index of
the first token of `r`; without it `returnTypeStart` is left as it was. -/
theorem parseFunctionSignature_wellFormed (tokens : List Token) (argsIndex q e : Nat)
    (params : List (Nat × Nat × Nat)) (ret : Option (Nat × Nat))
    (arguments : List FunctionArgumentTokens) (returnTypeStart : Int)
    (hopen : typeAt tokens argsIndex = some TokenType.OpenParen)
    (hparams : ParametersAt tokens (argsIndex + 1) params q)
    (hret : ReturnAt tokens q ret e)
    (hclose : typeAt tokens e = some TokenType.CloseParen) :
    parseFunctionSignature tokens argsIndex arguments returnTypeStart =
      .ok ⟨true, arguments ++ parameterTokens params,
        returnTypeStartAfter returnTypeStart ret, none⟩ ∧
    ∀ j (hj : j < params.length),
      getArgument tokens argsIndex ((2 * j : Nat) : Int) e = .ok ((params[j].1 : Nat) : Int) ∧
      getArgument tokens argsIndex ((2 * j + 1 : Nat) : Int) e =
        .ok ((params[j].2.1 : Nat) : Int) := by
  have hform := signature_formAt hopen hparams hret hclose
  obtain ⟨_, _, _, hel⟩ := typeAt_eq_some hclose
  constructor
  · unfold parseFunctionSignature
    rw [formAt_findClose hform]
    simp only [ok_bind]
    have hqe : q ≤ e := by
      have := argumentsAt_le (returnAt_arguments hret)
      exact this
    obtain ⟨fuel1, hf1, heq⟩ := parse_loop_parameters params (argsIndex + 1)
      (e - argsIndex + 1) arguments returnTypeStart hparams hqe (by omega)
    rw [heq]
    cases ret with
    | none =>
      simp only [ReturnAt] at hret
      subst hret
      rw [parse_loop_end fuel1 (by omega)]
      rfl
    | some ret =>
      obtain ⟨h1, h2, h3, h4⟩ := hret
      have hb := argumentAt_bounds h3
      rw [parse_loop_return h1 h2 (by omega) (by omega) fuel1 (by omega)]
      rfl
  · intro j hj
    obtain ⟨g1, g2⟩ := parameterSpans_getElem? (returnSpans q ret) params j hj
    rw [formAt_getArgument hform (2 * j), formAt_getArgument hform (2 * j + 1), g1, g2]
    exact ⟨rfl, rfl⟩

/-- Witness for C13: `(a int b int &return int)` gives the parameters `a : int` and
`b : int` and the return type at index 6. -/
theorem parseFunctionSignature_wellFormed_witness :
    (typeAt exampleSignature 0 = some TokenType.OpenParen ∧
      ParametersAt exampleSignature (0 + 1) [(1, 2, 2), (3, 4, 4)] 5 ∧
      ReturnAt exampleSignature 5 (some (6, 6)) 7 ∧
      typeAt exampleSignature 7 = some TokenType.CloseParen) ∧
    parseFunctionSignature exampleSignature 0 [] (-1) = .ok ⟨true, [⟨2, 1⟩, ⟨4, 3⟩], 6, none⟩ :=
  ⟨by decide,
    (parseFunctionSignature_wellFormed exampleSignature 0 5 7 [(1, 2, 2), (3, 4, 4)]
      (some (6, 6)) [] (-1) (by decide) (by decide) (by decide) (by decide)).1⟩

/-- C14 as stated fails: on the spec's list `((a int) (b int) &return int)` the
parser is in its Name state at the open paren of `(a int)`, which is not a Symbol,
and returns `false` with nothing parsed. -/
theorem parenthesised_parameters_counterexample :
    InvocationRange exampleDefunParenthesisedParameters 3 14 ∧
    parseFunctionSignature exampleDefunParenthesisedParameters 3 [] (-1) =
      .ok ⟨false, [], -1, some 4⟩ :=
  ⟨by decide, by decide⟩

/-- C14, amended: with the parameters written as the flat list
`(a int b int &return int)`, the argument list of
`(defun add (a int b int &return int))`, `parseFunctionSignature` succeeds with the
two parameters `a : int` and `b : int` and the return type `int`;
`outputFunctionArguments` then emits `int` (ConvertTypeName and SpaceAfter), `a`
(ConvertVariableName), a ListSeparator, `int`, `b`, that is `int a, int b`, and
`outputFunctionReturnType` emits `int` with SpaceAfter, that is `int `. -/
theorem flat_signature_scenario :
    parseFunctionSignature exampleDefunFlatParameters 3 [] (-1) =
      .ok ⟨true, [⟨5, 4⟩, ⟨7, 6⟩], 9, none⟩ ∧
    outputFunctionArguments exampleDefunFlatParameters ⟨[], []⟩ [⟨5, 4⟩, ⟨7, 6⟩] true true =
      .ok ⟨true,
        ⟨[⟨"int", StringOutMod_ConvertTypeName ||| StringOutMod_SpaceAfter, 5⟩,
            ⟨"a", StringOutMod_ConvertVariableName, 4⟩,
            ⟨"", StringOutMod_ListSeparator, 4⟩,
            ⟨"int", StringOutMod_ConvertTypeName ||| StringOutMod_SpaceAfter, 7⟩,
            ⟨"b", StringOutMod_ConvertVariableName, 6⟩],
          [⟨"int", StringOutMod_ConvertTypeName ||| StringOutMod_SpaceAfter, 5⟩,
            ⟨"a", StringOutMod_ConvertVariableName, 4⟩,
            ⟨"", StringOutMod_ListSeparator, 4⟩,
            ⟨"int", StringOutMod_ConvertTypeName ||| StringOutMod_SpaceAfter, 7⟩,
            ⟨"b", StringOutMod_ConvertVariableName, 6⟩]⟩, none⟩ ∧
    outputFunctionReturnType exampleDefunFlatParameters ⟨[], []⟩ 9 0 10 true true =
      .ok ⟨true,
        ⟨[⟨"int", StringOutMod_ConvertTypeName ||| StringOutMod_SpaceAfter, 9⟩],
          [⟨"int", StringOutMod_ConvertTypeName ||| StringOutMod_SpaceAfter, 9⟩]⟩, none⟩ :=
  ⟨by decide, by decide, by decide⟩

/-- C15, the code at the failing inputs `(:x int)` and `(&rest int)`: the token at
the name position is a special symbol other than `&return`, and
`parseFunctionSignature` returns `true` with it recorded as a parameter name.  The
Name state only asks for a Symbol; `isSpecialSymbol` is consulted in the Type state
alone. -/
theorem special_parameter_name_accepted :
    (isSpecialSymbol (Token.symbol ":x") = true ∧
      parseFunctionSignature exampleSpecialParameterName 0 [] (-1) =
        .ok ⟨true, [⟨2, 1⟩], -1, none⟩) ∧
    (isSpecialSymbol (Token.symbol "&rest") = true ∧
      parseFunctionSignature exampleSentinelParameterName 0 [] (-1) =
        .ok ⟨true, [⟨2, 1⟩], -1, none⟩) :=
  ⟨⟨by decide, by decide⟩, ⟨by decide, by decide⟩⟩

theorem mem_of_tokenAt {tokens : List Token} {i : Nat} {t : Token}
    (h : tokenAt tokens i = .ok t) : t ∈ tokens := by
  unfold tokenAt at h
  split at h
  · rename_i t1 ht
    cases h
    exact List.mem_iff_getElem?.2 ⟨_, ht⟩
  · cases h

theorem mem_tokensBetween_of_tokenAt {tokens : List Token} {s e i : Nat} {t : Token}
    (h : tokenAt tokens i = .ok t) (hs : s < i) (he : i < e) :
    t ∈ tokensBetween tokens s e := by
  have ht : tokens[i]? = some t := by
    unfold tokenAt at h
    split at h
    · rename_i t1 ht1
      cases h
      exact ht1
    · cases h
  unfold tokensBetween
  rw [List.mem_iff_getElem?]
  refine ⟨i - (s + 1), ?_⟩
  rw [List.getElem?_take_of_lt (by omega), List.getElem?_drop,
    show s + 1 + (i - (s + 1)) = i by omega]
  exact ht

theorem parse_loop_keeps_returnTypeStart {tokens : List Token} {argsIndex e : Nat}
    (hno : NoReturnMarkerIn tokens argsIndex e) :
    ∀ (fuel i : Nat) (state : DefunState) (current : FunctionArgumentTokens)
      (args : List FunctionArgumentTokens) (rts : Int) (res : SignatureParse),
      argsIndex < i → state ≠ DefunState.ReturnType →
      parseFunctionSignature.loop tokens e fuel i state current args rts = .ok res →
      res.returnTypeStart = rts := by
  intro fuel
  induction fuel with
  | zero => intro i state current args rts res _ _ h; simp [parseFunctionSignature.loop] at h
  | succ fuel ih =>
    intro i state current args rts res hlo hstate h
    rw [parseFunctionSignature.loop] at h
    split at h
    · rename_i hie
      rw [bind_eq_ok] at h
      obtain ⟨t, ht, h⟩ := h
      have hnot := hno t (mem_tokensBetween_of_tokenAt ht hlo hie)
      cases state with
      | ReturnType => exact absurd rfl hstate
      | Name =>
        simp only [hnot, if_false] at h
        split at h
        · simp at h; subst h; rfl
        · rw [bind_eq_ok] at h
          obtain ⟨inside, _, h⟩ := h
          split at h
          · simp at h; subst h; rfl
          · exact ih _ _ _ _ _ _ (by omega) (by decide) h
      | TypeState =>
        simp only at h
        split at h
        · simp at h; subst h; rfl
        · split at h
          · simp at h; subst h; rfl
          · rw [bind_eq_ok] at h
            obtain ⟨i1, hi1, h⟩ := h
            have := skip_ge hi1
            exact ih _ _ _ _ _ _ (by omega) (by decide) h
    · simp at h; subst h; rfl

/-- C17 as stated fails: the argument list `(xs ([] 10 float) n int)` has no
`&return`, the parse succeeds, and a `returnTypeStart` that held 7 before the call
still holds 7. -/
theorem implicit_return_counterexample :
    InvocationRange exampleSignatureWithArray 0 9 ∧
    NoReturnMarkerIn exampleSignatureWithArray 0 9 ∧
    NoReturnMarker exampleSignatureWithArray ∧
    parseFunctionSignature exampleSignatureWithArray 0 [] 7 =
      .ok ⟨true, [⟨2, 1⟩, ⟨8, 7⟩], 7, none⟩ :=
  ⟨by decide, by decide, by decide, by decide⟩

/-- C17, amended: on an argument list that contains no `&return`,
`parseFunctionSignature` never assigns `returnTypeStart`: whatever it returns, the
variable holds afterwards the value it held before the call.  An implicit return
type is therefore reported as `-1` exactly when the caller initialised the variable
to `-1`.  The argument list is the tokens between the open paren at `argsIndex` and
the index `e` that `FindCloseParenTokenIndex` gives for it, its matching close
paren; tokens outside the list, a `&return` among them, do not matter. -/
theorem returnTypeStart_unchanged_without_return (tokens : List Token) (argsIndex e : Nat)
    (arguments : List FunctionArgumentTokens) (returnTypeStart : Int) (res : SignatureParse)
    (hend : FindCloseParenTokenIndex tokens argsIndex = .ok e)
    (hno : NoReturnMarkerIn tokens argsIndex e)
    (h : parseFunctionSignature tokens argsIndex arguments returnTypeStart = .ok res) :
    res.returnTypeStart = returnTypeStart ∧
      (res.returnTypeStart = -1 ↔ returnTypeStart = -1) := by
  unfold parseFunctionSignature at h
  rw [hend, ok_bind] at h
  have := parse_loop_keeps_returnTypeStart hno _ _ _ _ _ _ _ (by omega) (by decide) h
  exact ⟨this, by rw [this]⟩

/-- Witness for the amended C17: `(xs ([] 10 float) n int)` parsed with the variable
initialised to `-1`, and the list `(a int)` at index 0 of `(a int) (b int &return
int)` parsed with the variable at 7, which the `&return` of the second list leaves
alone. -/
theorem returnTypeStart_unchanged_without_return_witness :
    (InvocationRange exampleSignatureWithArray 0 9 ∧
      FindCloseParenTokenIndex exampleSignatureWithArray 0 = .ok 9 ∧
      NoReturnMarkerIn exampleSignatureWithArray 0 9 ∧
      parseFunctionSignature exampleSignatureWithArray 0 [] (-1) =
        .ok ⟨true, [⟨2, 1⟩, ⟨8, 7⟩], -1, none⟩) ∧
    (SignatureParse.mk true [⟨2, 1⟩, ⟨8, 7⟩] (-1) none).returnTypeStart = -1 ∧
    (InvocationRange exampleTwoArgumentLists 0 3 ∧
      FindCloseParenTokenIndex exampleTwoArgumentLists 0 = .ok 3 ∧
      NoReturnMarkerIn exampleTwoArgumentLists 0 3 ∧
      ¬ NoReturnMarker exampleTwoArgumentLists ∧
      parseFunctionSignature exampleTwoArgumentLists 0 [] 7 =
        .ok ⟨true, [⟨2, 1⟩], 7, none⟩) ∧
    (SignatureParse.mk true [⟨2, 1⟩] 7 none).returnTypeStart = 7 :=
  ⟨by decide,
    (returnTypeStart_unchanged_without_return exampleSignatureWithArray 0 9 [] (-1)
      (SignatureParse.mk true [⟨2, 1⟩, ⟨8, 7⟩] (-1) none) (by decide) (by decide)
      (by decide)).1,
    by decide,
    (returnTypeStart_unchanged_without_return exampleTwoArgumentLists 0 3 [] 7
      (SignatureParse.mk true [⟨2, 1⟩] 7 none) (by decide) (by decide) (by decide)).1⟩

/-- C18: tokens after the return type are rejected before anything is emitted.
When the return type is the argument at the indices `r..re` (one token, or an open
paren with its matching close paren at `re`) and at least one token lies between
`re` and `endArgsIndex`, `outputFunctionReturnType` returns `false`, reports at the
first such token, and leaves `output.source` and `output.header` as they were. -/
theorem tokens_after_return_type_rejected (tokens : List Token) (output : GeneratorOutput)
    (r re startInvocationIndex endArgsIndex : Nat) (outputSource outputHeader : Bool)
    (hr : ArgumentAt tokens r re)
    (hextra : re + 1 < endArgsIndex)
    (hend : endArgsIndex ≤ tokens.length) :
    outputFunctionReturnType tokens output (r : Int) startInvocationIndex endArgsIndex
        outputSource outputHeader =
      .ok ⟨false, output, some (re + 1)⟩ := by
  obtain ⟨t, _, ht, hstep⟩ := argumentAt_step hr
  obtain ⟨t1, ht1, _⟩ := tokenAt_ok (show re + 1 < tokens.length by omega)
  unfold outputFunctionReturnType
  have h1 : ¬ ((r : Int) = -1) := by omega
  have h2 : ¬ ((r : Int) < 0) := by omega
  simp only [h1, h2, if_false, Int.toNat_ofNat, ht, ok_bind, hstep, hextra, if_true, ht1]
  rfl

/-- Witness for C18: in `(a int b int &return int)` read with the return type at
index 4 (the second `int`), the tokens `&return int` follow it. -/
theorem tokens_after_return_type_rejected_witness :
    (ArgumentAt exampleSignature 4 4 ∧ 4 + 1 < 7 ∧ 7 ≤ exampleSignature.length) ∧
    outputFunctionReturnType exampleSignature ⟨[], []⟩ ((4 : Nat) : Int) 0 7 true true =
      .ok ⟨false, ⟨[], []⟩, some (4 + 1)⟩ :=
  ⟨by decide,
    tokens_after_return_type_rejected exampleSignature ⟨[], []⟩ 4 4 0 7 true true (by decide)
      (by decide) (by decide)⟩

theorem scannedNameAt_spec {tokens : List Token} {i : Nat} (h : ScannedNameAt tokens i) :
    ∃ t, tokens[i]? = some t ∧ t.type = TokenType.Symbol ∧ ¬ (t.contents = "&return") := by
  unfold ScannedNameAt at h
  split at h
  · rename_i t ht
    exact ⟨t, ht, h.1, h.2⟩
  · exact absurd h id

theorem scannedParametersAt_le {tokens : List Token} :
    ∀ {params : List (Nat × Nat × Nat)} {p q : Nat},
      ScannedParametersAt tokens p params q → p ≤ q
  | [], p, q, h => by simp [ScannedParametersAt] at h; omega
  | param :: rest, p, q, h => by
    obtain ⟨h1, _, h3, h4, h5⟩ := h
    have := scannedParametersAt_le h5
    have := argumentAt_bounds (typeSpecifierAt_argument h4)
    omega

/-- One scanned item takes the loop from the Name state at its name to the Name
state right after its type, with the parameter appended. -/
theorem parse_loop_item {tokens : List Token} {e n t te : Nat}
    (hn : ScannedNameAt tokens n) (ht : t = n + 1) (hty : TypeSpecifierAt tokens t te)
    (hte : te < e) (fuel : Nat) (args : List FunctionArgumentTokens) (rts : Int) :
    parseFunctionSignature.loop tokens e (fuel + 2) n DefunState.Name ⟨0, 0⟩ args rts =
      parseFunctionSignature.loop tokens e fuel (te + 1) DefunState.Name ⟨0, 0⟩
        (args ++ [⟨t, n⟩]) rts := by
  subst ht
  have hb := argumentAt_bounds (typeSpecifierAt_argument hty)
  obtain ⟨tn, htn, hsym, hnotret⟩ := scannedNameAt_spec hn
  have hne : n < e := by omega
  have hne1 : n + 1 < e := by omega
  rw [parseFunctionSignature.loop]
  simp only [hne, if_true, tokenAt_of_getElem? htn, ok_bind, hsym, hnotret, and_false,
    if_false, ExpectTokenType, decide_True, expectInInvocation_inside hne1]
  simp only [Bool.true_eq_false, if_false]
  rw [parseFunctionSignature.loop]
  rcases hty with ⟨hp, hte2⟩ | hr
  · obtain ⟨tt, htt, hsym2, hplain2⟩ := plainSymbolAt_spec hp
    have hno : ¬ (tt.type = TokenType.OpenParen) := by rw [hsym2]; decide
    subst hte2
    simp [hne1, tokenAt_of_getElem? htt, hsym2, hplain2]
  · obtain ⟨tt, htt, htot, _⟩ := typeAt_eq_some hr.2.1
    simp [hne1, tokenAt_of_getElem? htt, htot, findClose_of_range hr]

theorem parse_loop_items {tokens : List Token} {e q : Nat} :
    ∀ (params : List (Nat × Nat × Nat)) (p fuel : Nat) (args : List FunctionArgumentTokens)
      (rts : Int),
      ScannedParametersAt tokens p params q → q ≤ e → e - p + 1 ≤ fuel →
      ∃ fuel1, e - q + 1 ≤ fuel1 ∧
        parseFunctionSignature.loop tokens e fuel p DefunState.Name ⟨0, 0⟩ args rts =
          parseFunctionSignature.loop tokens e fuel1 q DefunState.Name ⟨0, 0⟩
            (args ++ parameterTokens params) rts
  | [], p, fuel, args, rts, h, _, hf => by
    simp [ScannedParametersAt] at h
    subst h
    exact ⟨fuel, hf, by simp [parameterTokens]⟩
  | param :: rest, p, fuel, args, rts, h, hq, hf => by
    obtain ⟨h1, h2, h3, h4, h5⟩ := h
    have hle := scannedParametersAt_le h5
    have hb := argumentAt_bounds (typeSpecifierAt_argument h4)
    obtain ⟨fuel, rfl⟩ : ∃ f, fuel = f + 2 := ⟨fuel - 2, by omega⟩
    rw [← h1, parse_loop_item h2 h3 h4 (by omega) fuel args rts]
    obtain ⟨fuel1, hf1, heq⟩ := parse_loop_items rest (param.2.2 + 1) fuel
      (args ++ [⟨param.2.1, param.1⟩]) rts h5 hq (by omega)
    refine ⟨fuel1, hf1, ?_⟩
    rw [heq]
    simp [parameterTokens]

/-- At a malformation the loop stops with `false`, whatever it had collected. -/
theorem parse_loop_malformed {tokens : List Token} {q e : Nat} (hbad : MalformedAt tokens q e)
    (he : e < tokens.length) (fuel : Nat) (hf : 2 ≤ fuel) (args : List FunctionArgumentTokens)
    (rts : Int) :
    ∃ blamed, parseFunctionSignature.loop tokens e fuel q DefunState.Name ⟨0, 0⟩ args rts =
      .ok ⟨false, args, rts, some blamed⟩ := by
  obtain ⟨fuel, rfl⟩ : ∃ f, fuel = f + 2 := ⟨fuel - 2, by omega⟩
  obtain ⟨hqe, hbad⟩ := hbad
  rw [parseFunctionSignature.loop]
  rcases hbad with ha | ⟨hn, hlast⟩ | ⟨hn, hlt, hty⟩ | ⟨hret, hlast⟩
  · unfold NotSymbolAt at ha
    split at ha
    · rename_i t ht
      refine ⟨q, ?_⟩
      simp only [hqe, if_true, tokenAt_of_getElem? ht, ok_bind, ha, false_and, if_false,
        ExpectTokenType, decide_False]
      rfl
    · exact absurd ha id
  · obtain ⟨tn, htn, hsym, hnotret⟩ := scannedNameAt_spec hn
    refine ⟨e, ?_⟩
    simp only [hqe, if_true, tokenAt_of_getElem? htn, ok_bind, hsym, hnotret, and_false,
      if_false, ExpectTokenType, decide_True,
      expectInInvocation_outside (show e ≤ q + 1 by omega) he]
    rfl
  · obtain ⟨tn, htn, hsym, hnotret⟩ := scannedNameAt_spec hn
    simp only [hqe, if_true, tokenAt_of_getElem? htn, ok_bind, hsym, hnotret, and_false,
      if_false, ExpectTokenType, decide_True, expectInInvocation_inside hlt]
    simp only [Bool.true_eq_false, if_false]
    rw [parseFunctionSignature.loop]
    unfold BadTypeTokenAt at hty
    split at hty
    · rename_i tt htt
      refine ⟨q + 1, ?_⟩
      rcases hty with ⟨h1, h2⟩ | ⟨h1, h2⟩
      · simp [hlt, tokenAt_of_getElem? htt, h1, h2]
      · simp [hlt, tokenAt_of_getElem? htt, h1, h2]
    · exact absurd hty id
  · refine ⟨e, ?_⟩
    simp only [hqe, if_true, tokenAt_of_getElem? hret, ok_bind, true_and,
      expectInInvocation_outside (show e ≤ q + 1 by omega) he]
    rfl

/-- C16: malformed signatures are rejected.  In a balanced argument list
`argsIndex..e`, after any items the parser scans without complaint (names that are
Symbols, each followed by a type), a malformation at the next name position `q`
makes `parseFunctionSignature` return `false`: (a) the token at `q` is not a Symbol,
(b) a name at `q` is the last token of the list, (c) the token after a name at `q`
is a special Symbol or neither a Symbol nor an OpenParen, (d) `&return` at `q` is
the last token of the list.  The call does return; `arguments` holds the parameters
scanned before the malformation and `returnTypeStart` is as it was. -/
theorem malformed_signature_rejected (tokens : List Token) (argsIndex q e : Nat)
    (params : List (Nat × Nat × Nat)) (arguments : List FunctionArgumentTokens)
    (returnTypeStart : Int)
    (hrange : InvocationRange tokens argsIndex e)
    (hparams : ScannedParametersAt tokens (argsIndex + 1) params q)
    (hbad : MalformedAt tokens q e) :
    ∃ blamed, parseFunctionSignature tokens argsIndex arguments returnTypeStart =
      .ok ⟨false, arguments ++ parameterTokens params, returnTypeStart, some blamed⟩ := by
  obtain ⟨_, _, _, he⟩ := typeAt_eq_some hrange.2.2.1
  have hqe := hbad.1
  unfold parseFunctionSignature
  rw [findClose_of_range hrange, ok_bind]
  obtain ⟨fuel1, hf1, heq⟩ := @parse_loop_items tokens e q params (argsIndex + 1)
    (e - argsIndex + 1) arguments returnTypeStart hparams (by omega) (by omega)
  rw [heq]
  exact parse_loop_malformed hbad he fuel1 (by omega) _ _

/-- Witness for C16: `(a int b)`, where the name `b` is the last token, and
`(a int b "text")`, where a string literal stands at a type position. -/
theorem malformed_signature_rejected_witness :
    (InvocationRange exampleSignatureNameLast 0 4 ∧
      ScannedParametersAt exampleSignatureNameLast (0 + 1) [(1, 2, 2)] 3 ∧
      MalformedAt exampleSignatureNameLast 3 4) ∧
    (∃ blamed, parseFunctionSignature exampleSignatureNameLast 0 [] (-1) =
      .ok ⟨false, [] ++ parameterTokens [(1, 2, 2)], -1, some blamed⟩) ∧
    parseFunctionSignature exampleSignatureNameLast 0 [] (-1) =
      .ok ⟨false, [⟨2, 1⟩], -1, some 4⟩ ∧
    parseFunctionSignature exampleSignatureStringType 0 [] (-1) =
      .ok ⟨false, [⟨2, 1⟩], -1, some 4⟩ :=
  ⟨by decide,
    malformed_signature_rejected exampleSignatureNameLast 0 3 4 [(1, 2, 2)] [] (-1)
      (by decide) (by decide) (by decide),
    by decide, by decide⟩

/-! ### A successful lowering writes a type record -/

theorem length_addStringOutput (output : List StringOutput) (symbol : String)
    (modifiers : StringOutputModifierFlags) (startToken : Nat) :
    (addStringOutput output symbol modifiers startToken).length = output.length + 1 := by
  simp [addStringOutput]

theorem length_addLangTokenOutput (output : List StringOutput)
    (modifiers : StringOutputModifierFlags) (startToken : Nat) :
    (addLangTokenOutput output modifiers startToken).length = output.length + 1 := by
  simp [addLangTokenOutput]

theorem templateLoop_grows
    (recurse : Nat → Bool → List StringOutput → List StringOutput → Except Fault TypeLowering)
    (hrec : Grows recurse) (tokens : List Token) (e : Nat) :
    ∀ (fuel p : Nat) (ty af : List StringOutput) (r : TypeLowering),
      tokenizedCTypeToString_Recursive.templateLoop recurse tokens e fuel p ty af = .ok r →
        r.success = true → ty.length ≤ r.typeOutput.length := by
  intro fuel
  induction fuel with
  | zero => intro p ty af r h; simp [tokenizedCTypeToString_Recursive.templateLoop] at h
  | succ fuel ih =>
    intro p ty af r h hs
    simp only [tokenizedCTypeToString_Recursive.templateLoop] at h
    split at h
    · rw [bind_eq_ok] at h
      obtain ⟨r1, h1, h⟩ := h
      split at h
      · simp at h; subst h; exact Nat.le_of_lt (hrec _ _ _ _ _ h1 hs)
      · rename_i hs1
        have hs1 : r1.success = true := by simpa using hs1
        have hg := hrec _ _ _ _ _ h1 hs1
        simp only [bind_eq_ok] at h
        obtain ⟨l, _, t, _, nx, _, h⟩ := h
        have := ih _ _ _ _ h hs
        split at this
        · rw [length_addLangTokenOutput] at this; omega
        · omega
    · simp at h; subst h; exact Nat.le_refl _

theorem scopeLoop_grows
    (recurse : Nat → Bool → List StringOutput → List StringOutput → Except Fault TypeLowering)
    (hrec : Grows recurse) (tokens : List Token) (e : Nat) :
    ∀ (fuel p : Nat) (ty af : List StringOutput) (r : TypeLowering),
      tokenizedCTypeToString_Recursive.scopeLoop recurse tokens e fuel p ty af = .ok r →
        r.success = true →
        ty.length ≤ r.typeOutput.length ∧ (p < e → ty.length < r.typeOutput.length) := by
  intro fuel
  induction fuel with
  | zero => intro p ty af r h; simp [tokenizedCTypeToString_Recursive.scopeLoop] at h
  | succ fuel ih =>
    intro p ty af r h hs
    simp only [tokenizedCTypeToString_Recursive.scopeLoop] at h
    split at h
    · rw [bind_eq_ok] at h
      obtain ⟨r1, h1, h⟩ := h
      split at h
      · simp at h; subst h
        have := hrec _ _ _ _ _ h1 hs
        exact ⟨Nat.le_of_lt this, fun _ => this⟩
      · rename_i hs1
        have hs1 : r1.success = true := by simpa using hs1
        have hg := hrec _ _ _ _ _ h1 hs1
        simp only [bind_eq_ok] at h
        obtain ⟨l, _, nx, _, h⟩ := h
        have := (ih _ _ _ _ h hs).1
        split at this
        · rw [length_addStringOutput] at this
          exact ⟨by omega, fun _ => by omega⟩
        · exact ⟨by omega, fun _ => by omega⟩
    · rename_i hpe
      simp at h; subst h
      exact ⟨Nat.le_refl _, fun hlt => absurd hlt hpe⟩

theorem formBranch_grows
    (recurse : Nat → Bool → List StringOutput → List StringOutput → Except Fault TypeLowering)
    (hrec : Grows recurse) (tokens : List Token) (s e : Nat) (hd : Token) (allow : Bool)
    (ty af : List StringOutput) (r : TypeLowering)
    (h : tokenizedCTypeToString_Recursive.formBranch recurse tokens s e hd allow ty af = .ok r)
    (hs : r.success = true) : ty.length < r.typeOutput.length := by
  unfold tokenizedCTypeToString_Recursive.formBranch at h
  split at h
  · unfold tokenizedCTypeToString_Recursive.constBranch at h
    rw [bind_eq_ok] at h
    obtain ⟨ar, _, h⟩ := h
    split at h
    · simp at h; subst h; simp at hs
    · rw [bind_eq_ok] at h
      obtain ⟨ti, _, h⟩ := h
      split at h
      · simp at h; subst h; simp at hs
      · have := hrec _ _ _ _ _ h hs
        rw [length_addStringOutput] at this
        omega
  have hsuffix : ∀ x, tokenizedCTypeToString_Recursive.suffixBranch recurse tokens s e x allow
      ty af = .ok r → ty.length < r.typeOutput.length := by
    intro x h
    unfold tokenizedCTypeToString_Recursive.suffixBranch at h
    rw [bind_eq_ok] at h
    obtain ⟨ar, _, h⟩ := h
    split at h
    · simp at h; subst h; simp at hs
    · rw [bind_eq_ok] at h
      obtain ⟨ti, _, h⟩ := h
      split at h
      · simp at h; subst h; simp at hs
      · rw [bind_eq_ok] at h
        obtain ⟨r1, h1, h⟩ := h
        split at h
        · simp at h; subst h; exact hrec _ _ _ _ _ h1 hs
        · rename_i hs1
          have hs1 : r1.success = true := by simpa using hs1
          have := hrec _ _ _ _ _ h1 hs1
          simp at h; subst h
          simp only [length_addStringOutput]
          omega
  split at h
  · exact hsuffix _ h
  split at h
  · exact hsuffix _ h
  split at h
  · unfold tokenizedCTypeToString_Recursive.templateBranch at h
    rw [bind_eq_ok] at h
    obtain ⟨ti, _, h⟩ := h
    split at h
    · simp at h; subst h; simp at hs
    · rw [bind_eq_ok] at h
      obtain ⟨r1, h1, h⟩ := h
      split at h
      · simp at h; subst h; exact hrec _ _ _ _ _ h1 hs
      · rename_i hs1
        have hs1 : r1.success = true := by simpa using hs1
        have hg1 := hrec _ _ _ _ _ h1 hs1
        rw [bind_eq_ok] at h
        obtain ⟨r2, h2, h⟩ := h
        split at h
        · simp at h; subst h
          have := templateLoop_grows recurse hrec tokens e _ _ _ _ _ h2 hs
          rw [length_addStringOutput] at this
          omega
        · rename_i hs2
          have hs2 : r2.success = true := by simpa using hs2
          have := templateLoop_grows recurse hrec tokens e _ _ _ _ _ h2 hs2
          rw [length_addStringOutput] at this
          simp at h; subst h
          simp only [length_addStringOutput]
          omega
  split at h
  · unfold tokenizedCTypeToString_Recursive.arrayBranch at h
    split at h
    · simp at h; subst h; simp at hs
    · rw [bind_eq_ok] at h
      obtain ⟨fi, _, h⟩ := h
      split at h
      · simp at h; subst h; simp at hs
      · rw [bind_eq_ok] at h
        obtain ⟨fa, _, h⟩ := h
        dsimp only at h
        split at h
        · rw [bind_eq_ok] at h
          obtain ⟨ti, _, h⟩ := h
          split at h
          · simp at h; subst h; simp at hs
          · exact hrec _ _ _ _ _ h hs
        · exact hrec _ _ _ _ _ h hs
  split at h
  · unfold tokenizedCTypeToString_Recursive.scopeBranch at h
    rw [bind_eq_ok] at h
    obtain ⟨ti, hti, h⟩ := h
    split at h
    · simp at h; subst h; simp at hs
    · rename_i hne
      have hb := toNat_gt_of_bounds (getExpectedArgument_bounds hti) hne
      rw [bind_eq_ok] at h
      obtain ⟨r1, h1, h⟩ := h
      split at h
      · simp at h; subst h
        exact (scopeLoop_grows recurse hrec tokens e _ _ _ _ _ h1 hs).2 hb.2
      · rename_i hs1
        have hs1 : r1.success = true := by simpa using hs1
        have := (scopeLoop_grows recurse hrec tokens e _ _ _ _ _ h1 hs1).2 hb.2
        simp at h; subst h
        exact this
  · simp at h; subst h; simp at hs

theorem body_grows
    (recurse : Nat → Bool → List StringOutput → List StringOutput → Except Fault TypeLowering)
    (hrec : Grows recurse) (tokens : List Token) (s : Nat) (allow : Bool)
    (ty af : List StringOutput) (r : TypeLowering)
    (h : tokenizedCTypeToString_Recursive.body recurse tokens s allow ty af = .ok r)
    (hs : r.success = true) : ty.length < r.typeOutput.length := by
  unfold tokenizedCTypeToString_Recursive.body at h
  rw [bind_eq_ok] at h
  obtain ⟨t, _, h⟩ := h
  split at h
  · split at h
    · simp at h; subst h; simp at hs
    · simp at h; subst h; simp [length_addStringOutput]
  · rw [bind_eq_ok] at h
    obtain ⟨hd, _, h⟩ := h
    split at h
    · simp at h; subst h; simp at hs
    · rw [bind_eq_ok] at h
      obtain ⟨e, _, h⟩ := h
      exact formBranch_grows recurse hrec _ _ _ _ _ _ _ _ h hs

theorem run_grows (tokens : List Token) :
    ∀ fuel : Nat,
      Grows (fun i a t f => tokenizedCTypeToString_Recursive.run fuel tokens i a t f) := by
  intro fuel
  induction fuel with
  | zero => intro i a ty af r h; simp [tokenizedCTypeToString_Recursive.run] at h
  | succ fuel ih =>
    intro i a ty af r h hs
    simp only [tokenizedCTypeToString_Recursive.run] at h
    exact body_grows _ ih _ _ _ _ _ _ h hs

theorem lowering_grows {tokens : List Token} {s : Nat} {allow : Bool}
    {ty af : List StringOutput} {r : TypeLowering}
    (h : tokenizedCTypeToString_Recursive tokens s allow ty af = .ok r)
    (hs : r.success = true) : ty.length < r.typeOutput.length :=
  run_grows tokens _ s allow ty af r h hs

theorem addModifierToBack_spaceAfter :
    ∀ (typeOutput : List StringOutput), typeOutput ≠ [] →
      addModifierToBack typeOutput StringOutMod_SpaceAfter = .ok (withSpaceAfterLast typeOutput)
  | [], h => absurd rfl h
  | [r], _ => rfl
  | r :: r1 :: rest, _ => by
    have ih := addModifierToBack_spaceAfter (r1 :: rest) (by simp)
    unfold addModifierToBack at ih ⊢
    rw [List.getLast?_cons_cons]
    cases hl : (r1 :: rest).getLast? with
    | none => rw [hl] at ih; cases ih
    | some last =>
      rw [hl] at ih
      simp only [pure, Except.pure, Except.ok.injEq] at ih ⊢
      rw [withSpaceAfterLast, ← ih]
      simp [List.dropLast]

theorem lowersTo_spec {tokens : List Token} {p : LoweredParameter} (h : LowersTo tokens p) :
    (tokenAt tokens p.argument.nameIndex).map (fun token => token.contents) = .ok p.name ∧
    ∃ r, tokenizedCTypeToString_Recursive tokens p.argument.startTypeIndex true [] [] = .ok r ∧
      r.success = true ∧ r.typeOutput = p.typeRecords ∧ r.afterNameOutput = p.afterName ∧
      p.typeRecords ≠ [] := by
  obtain ⟨hname, hlow⟩ := h
  constructor
  · cases ht : tokens[p.argument.nameIndex]? with
    | none => rw [ht] at hname; cases hname
    | some t =>
      rw [ht] at hname
      simp only [Option.map_some', Option.some.injEq] at hname
      rw [tokenAt_of_getElem? ht, ← hname]
      rfl
  · split at hlow
    · rename_i r hr
      refine ⟨r, hr, hlow.1, hlow.2.1, hlow.2.2, ?_⟩
      have := lowering_grows hr hlow.1
      rw [hlow.2.1] at this
      intro hnil
      rw [hnil] at this
      exact absurd this (by simp)
    · exact absurd hlow id

theorem outputFunctionArguments_loop_records (tokens : List Token) (n : Nat)
    (outputSource outputHeader : Bool) :
    ∀ (params : List LoweredParameter) (i : Nat) (output : GeneratorOutput),
      (∀ p ∈ params, LowersTo tokens p) → i + params.length = n →
      outputFunctionArguments.loop tokens n outputSource outputHeader
          (params.map (fun p => p.argument)) i output =
        .ok ⟨true,
          ⟨if outputSource = true then output.source ++ parameterRecords params
            else output.source,
            if outputHeader = true then output.header ++ parameterRecords params
            else output.header⟩, none⟩
  | [], i, output, _, _ => by
    cases outputSource <;> cases outputHeader <;>
      simp [outputFunctionArguments.loop, parameterRecords]
  | [p], i, output, h, hn => by
    obtain ⟨hname, r, hr, hs, hty, haf, hne⟩ := lowersTo_spec (h p (by simp))
    have hlast : ¬ (i + 1 < n) := by simp at hn; omega
    simp only [List.map_cons, List.map_nil, outputFunctionArguments.loop, hr, ok_bind, hs,
      hty, haf, addModifierToBack_spaceAfter _ hne, hlast, false_and, if_false]
    cases outputSource <;> cases outputHeader <;>
      simp [hname, ok_bind, pure_eq_ok, parameterRecords, oneParameterRecords,
        addStringOutput]
  | p :: p1 :: rest, i, output, h, hn => by
    obtain ⟨hname, r, hr, hs, hty, haf, hne⟩ := lowersTo_spec (h p (by simp))
    have hmore : i + 1 < n := by simp at hn; omega
    have ih := outputFunctionArguments_loop_records tokens n outputSource outputHeader
      (p1 :: rest) (i + 1)
    rw [List.map_cons, outputFunctionArguments.loop]
    simp only [hr, ok_bind, hs, hty, haf, addModifierToBack_spaceAfter _ hne, hmore, true_and]
    cases outputSource <;> cases outputHeader <;>
      simp only [hname, ok_bind, pure_eq_ok, Bool.false_eq_true, if_false, if_true, or_self,
        or_true, true_or] <;>
      (rw [ih _ (fun q hq => h q (by simp at hq ⊢; tauto)) (by simp at hn ⊢; omega)]
       simp [parameterRecords, oneParameterRecords, addStringOutput, addLangTokenOutput])

theorem length_withSpaceAfterLast :
    ∀ (l : List StringOutput), (withSpaceAfterLast l).length = l.length
  | [] => rfl
  | [_] => rfl
  | a :: b :: t => by
    have ih := length_withSpaceAfterLast (b :: t)
    simp only [withSpaceAfterLast, List.length_cons] at ih ⊢
    omega

theorem length_parameterRecords :
    ∀ (params : List LoweredParameter),
      (parameterRecords params).length =
        (params.map (fun p => p.typeRecords.length + 1 + p.afterName.length)).sum +
          (params.length - 1)
  | [] => rfl
  | [p] => by
    simp [parameterRecords, oneParameterRecords, length_withSpaceAfterLast]
    omega
  | p :: p1 :: rest => by
    have ih := length_parameterRecords (p1 :: rest)
    simp only [parameterRecords, oneParameterRecords, List.length_append, List.length_cons,
      length_withSpaceAfterLast, ih, List.map_cons, List.sum_cons]
    simp
    omega

/-- C19: parameter emission order.  For every list of parsed arguments whose name
tokens are readable and whose types lower successfully from empty buffers with
`allowArray = true`, `outputFunctionArguments` returns `true` and appends to each
enabled buffer, parameter after parameter: the type records with SpaceAfter OR-ed
into the last of them, the name with ConvertVariableName, the after-name records,
and a ListSeparator record after every parameter but the last, which makes `n - 1`
separators.  Both buffers receive the same records; a buffer whose flag is `false`
is left as it was. -/
theorem parameters_emitted_in_order (tokens : List Token) (output : GeneratorOutput)
    (params : List LoweredParameter) (outputSource outputHeader : Bool)
    (h : ∀ p ∈ params, LowersTo tokens p) :
    outputFunctionArguments tokens output (params.map (fun p => p.argument)) outputSource
        outputHeader =
      .ok ⟨true,
        ⟨if outputSource = true then output.source ++ parameterRecords params
          else output.source,
          if outputHeader = true then output.header ++ parameterRecords params
          else output.header⟩, none⟩ ∧
    (parameterRecords params).length =
      (params.map (fun p => p.typeRecords.length + 1 + p.afterName.length)).sum +
        (params.length - 1) := by
  refine ⟨?_, length_parameterRecords params⟩
  unfold outputFunctionArguments
  exact outputFunctionArguments_loop_records tokens _ outputSource outputHeader params 0 output
    h (by simp)

/-- Witness for C19: the parameters `xs ([] 10 float)` and `n int` of
`(xs ([] 10 float) n int)`; the first gives float, xs, [, 10, ] (`float xs[10]`),
then one ListSeparator, then int, n. -/
theorem parameters_emitted_in_order_witness :
    (∀ p ∈ [exampleLoweredArrayParameter, exampleLoweredIntParameter],
      LowersTo exampleSignatureWithArray p) ∧
    outputFunctionArguments exampleSignatureWithArray ⟨[], []⟩ [⟨2, 1⟩, ⟨8, 7⟩] true false =
      .ok ⟨true,
        ⟨[⟨"float", StringOutMod_ConvertTypeName ||| StringOutMod_SpaceAfter, 5⟩,
            ⟨"xs", StringOutMod_ConvertVariableName, 1⟩,
            ⟨"[", StringOutMod_None, 3⟩, ⟨"10", StringOutMod_None, 4⟩,
            ⟨"]", StringOutMod_None, 3⟩,
            ⟨"", StringOutMod_ListSeparator, 1⟩,
            ⟨"int", StringOutMod_ConvertTypeName ||| StringOutMod_SpaceAfter, 8⟩,
            ⟨"n", StringOutMod_ConvertVariableName, 7⟩], []⟩, none⟩ :=
  ⟨by decide,
    (parameters_emitted_in_order exampleSignatureWithArray ⟨[], []⟩
      [exampleLoweredArrayParameter, exampleLoweredIntParameter] true false (by decide)).1⟩

/-- C20, the code at the failing input: running the one-operation program
`SpliceNoSpace(1, "+")` on `(+ a b)` calls the sub-evaluation once, at the first
argument (index 2), in ExpressionsOnly scope, with a delimiter template `+` that
carries both SpaceBefore and SpaceAfter, exactly as `Splice(1, "+")` does.  The two
kinds share one `case` in the source, so for every evaluator, environment, context,
invocation and program a `SpliceNoSpace` operation has the result of the `Splice`
operation with the same text and argument index. -/
theorem spliceNoSpace_delimiter_has_spaces :
    (CStatementOutput recordingEvaluator [] exampleBodyContext exampleSpliceInvocation 0
        [⟨CStatementOperationType.SpliceNoSpace, "+", 1⟩] ⟨[], []⟩).map
        (fun r => (r.success, r.environment)) =
      .ok (true, [(⟨EvaluatorScope.ExpressionsOnly, none,
        ⟨"+", StringOutMod_SpaceBefore ||| StringOutMod_SpaceAfter⟩⟩, 2)]) ∧
    (CStatementOutput recordingEvaluator [] exampleBodyContext exampleSpliceInvocation 0
        [⟨CStatementOperationType.Splice, "+", 1⟩] ⟨[], []⟩).map
        (fun r => (r.success, r.environment)) =
      .ok (true, [(⟨EvaluatorScope.ExpressionsOnly, none,
        ⟨"+", StringOutMod_SpaceBefore ||| StringOutMod_SpaceAfter⟩⟩, 2)]) ∧
    ∀ (Env : Type) (evaluator : Evaluator Env) (environment : Env) (context : EvaluatorContext)
      (tokens : List Token) (startTokenIndex : Nat) (separator : String) (argumentIndex : Int)
      (operations : List CStatementOperation) (output : GeneratorOutput),
      CStatementOutput evaluator environment context tokens startTokenIndex
          (⟨CStatementOperationType.SpliceNoSpace, separator, argumentIndex⟩ :: operations)
          output =
        CStatementOutput evaluator environment context tokens startTokenIndex
          (⟨CStatementOperationType.Splice, separator, argumentIndex⟩ :: operations) output := by
  refine ⟨by decide, by decide, ?_⟩
  intro Env evaluator environment context tokens s sep k ops output
  unfold CStatementOutput
  cases FindCloseParenTokenIndex tokens s with
  | error f => rfl
  | ok e =>
    simp only [ok_bind]
    rw [CStatementOutput.loop, CStatementOutput.loop]

theorem bind_assoc_ok {α β γ : Type} (x : Except Fault α) (f : α → Except Fault β)
    (g : β → Except Fault γ) : ((x >>= f) >>= g) = (x >>= fun a => f a >>= g) := by
  cases x <;> rfl

theorem ite_bind_ok {α β : Type} (c : Prop) [Decidable c] (x y : Except Fault α)
    (f : α → Except Fault β) :
    ((if c then x else y) >>= f) = if c then x >>= f else y >>= f := by
  split <;> rfl

/-- Running a program is running its first part and, when that succeeds, the rest
from where the first part left the environment and the output. -/
theorem CStatementOutput_loop_append {Env : Type} (evaluator : Evaluator Env)
    (context : EvaluatorContext) (tokens : List Token) (s e : Nat)
    (rest : List CStatementOperation) :
    ∀ (pre : List CStatementOperation) (environment : Env) (output : GeneratorOutput),
      CStatementOutput.loop evaluator context tokens s e (pre ++ rest) environment output =
        (CStatementOutput.loop evaluator context tokens s e pre environment output >>=
          fun r =>
            if r.success = true then
              CStatementOutput.loop evaluator context tokens s e rest r.environment r.output
            else pure r)
  | [], environment, output => by
    simp [CStatementOutput.loop]
  | operation :: pre, environment, output => by
    have ih := CStatementOutput_loop_append evaluator context tokens s e rest pre
    rw [List.cons_append, CStatementOutput.loop, CStatementOutput.loop]
    cases operation.type <;>
      simp only [ih, ite_bind_ok, bind_assoc_ok, ok_bind, pure_eq_ok, Bool.false_eq_true,
        if_false]

theorem formAt_argument_missing {tokens : List Token} {s e : Nat} {spans : List (Nat × Nat)}
    (h : FormAt tokens s spans e) {a : Int} (ha : (spans.length : Int) ≤ a) :
    getArgument tokens s a e = .ok (-1) ∧ getExpectedArgument tokens s a e = .ok (-1) := by
  obtain ⟨k, rfl⟩ : ∃ k : Nat, a = (k : Int) := ⟨a.toNat, by omega⟩
  have hk : spans.length ≤ k := by omega
  have hnone : spans[k]? = none := List.getElem?_eq_none hk
  rw [formAt_getArgument h k, formAt_getExpectedArgument h k, hnone]
  exact ⟨rfl, rfl⟩

theorem loop_required_missing {Env : Type} (evaluator : Evaluator Env)
    (context : EvaluatorContext) {tokens : List Token} {s e : Nat} {spans : List (Nat × Nat)}
    (h : FormAt tokens s spans e) (operation : CStatementOperation)
    (post : List CStatementOperation) (environment : Env) (output : GeneratorOutput)
    (hreq : operation.type.requiresArgument = true)
    (ha : (spans.length : Int) ≤ operation.argumentIndex) :
    CStatementOutput.loop evaluator context tokens s e (operation :: post) environment output =
      .ok ⟨false, environment, output⟩ := by
  have hneg : ¬ operation.argumentIndex < 0 := by omega
  have hmiss := (formAt_argument_missing h ha).2
  rw [CStatementOutput.loop]
  cases hty : operation.type <;> rw [hty] at hreq <;>
    first
    | exact absurd hreq (by decide)
    | simp only [hneg, if_false, hmiss, ok_bind, if_true, pure_eq_ok]

theorem loop_optional_missing {Env : Type} (evaluator : Evaluator Env)
    (context : EvaluatorContext) {tokens : List Token} {s e : Nat} {spans : List (Nat × Nat)}
    (h : FormAt tokens s spans e) (operation : CStatementOperation)
    (post : List CStatementOperation) (environment : Env) (output : GeneratorOutput)
    (hopt : operation.type = CStatementOperationType.ExpressionOptional)
    (ha : (spans.length : Int) ≤ operation.argumentIndex) :
    CStatementOutput.loop evaluator context tokens s e (operation :: post) environment output =
      CStatementOutput.loop evaluator context tokens s e post environment output := by
  have hneg : ¬ operation.argumentIndex < 0 := by omega
  have hmiss := (formAt_argument_missing h ha).1
  rw [CStatementOutput.loop]
  simp only [hopt, hneg, if_false, hmiss, ok_bind, if_true]

theorem loop_negative_index {Env : Type} (evaluator : Evaluator Env)
    (context : EvaluatorContext) (tokens : List Token) (s e : Nat)
    (operation : CStatementOperation)
    (post : List CStatementOperation) (environment : Env) (output : GeneratorOutput)
    (htakes : operation.type.takesArgument = true)
    (hneg : operation.argumentIndex < 0) :
    CStatementOutput.loop evaluator context tokens s e (operation :: post) environment output =
      .ok ⟨false, environment, output⟩ := by
  rw [CStatementOutput.loop]
  cases hty : operation.type <;> rw [hty] at htakes <;>
    first
    | exact absurd htakes (by decide)
    | simp only [hneg, if_true, pure_eq_ok]

theorem bind_failing_step {Env : Type} (x : Except Fault (StatementEmission Env))
    (f : Env → GeneratorOutput → Except Fault (StatementEmission Env))
    (hf : ∀ environment output, f environment output = .ok ⟨false, environment, output⟩) :
    (x >>= fun r => if r.success = true then f r.environment r.output else pure r) =
      x.map StatementEmission.failed := by
  cases x with
  | error err => rfl
  | ok r =>
    obtain ⟨success, environment, output⟩ := r
    cases success
    · rfl
    · simp only [ok_bind, if_true, hf, map_ok]
      rfl

/-- C21: required versus optional statement arguments.  For every balanced
invocation `s..e` with `count` top-level children (the name is child 0), every
evaluator, and every program `before ++ operation :: after`: when the invocation
has no argument at the position `operation.argumentIndex`, an `Expression`,
`TypeNoArray` or `Body` operation makes `CStatementOutput` return `false` (the
result is that of the operations before it, with the boolean turned to `false`),
whereas an `ExpressionOptional` operation leaves no trace: the result is that of
the program with that operation removed.  An argument-taking operation with a
negative argument index makes `CStatementOutput` return `false` in the same way. -/
theorem required_and_optional_arguments {Env : Type} (evaluator : Evaluator Env)
    (environment : Env) (context : EvaluatorContext) (tokens : List Token) (s e : Nat)
    (count : Int) (before after : List CStatementOperation)
    (operation : CStatementOperation) (output : GeneratorOutput)
    (hrange : InvocationRange tokens s e)
    (hcount : getNumArguments tokens s e = .ok count) :
    (operation.type.requiresArgument = true → count ≤ operation.argumentIndex →
      CStatementOutput evaluator environment context tokens s (before ++ operation :: after)
          output =
        (CStatementOutput evaluator environment context tokens s before output).map
          StatementEmission.failed) ∧
    (operation.type = CStatementOperationType.ExpressionOptional →
      count ≤ operation.argumentIndex →
      CStatementOutput evaluator environment context tokens s (before ++ operation :: after)
          output =
        CStatementOutput evaluator environment context tokens s (before ++ after) output) ∧
    (operation.type.takesArgument = true → operation.argumentIndex < 0 →
      CStatementOutput evaluator environment context tokens s (before ++ operation :: after)
          output =
        (CStatementOutput evaluator environment context tokens s before output).map
          StatementEmission.failed) := by
  obtain ⟨spans, hform⟩ := formAt_of_range hrange
  have hlen : count = (spans.length : Int) := by
    rw [formAt_getNumArguments hform] at hcount
    cases hcount
    rfl
  subst hlen
  unfold CStatementOutput
  simp only [formAt_findClose hform, ok_bind]
  refine ⟨fun hreq ha => ?_, fun hopt ha => ?_, fun htakes hneg => ?_⟩
  · rw [CStatementOutput_loop_append]
    exact bind_failing_step _ _
      (fun env out => loop_required_missing evaluator context hform operation after env out hreq ha)
  · rw [CStatementOutput_loop_append, CStatementOutput_loop_append]
    congr 1
    funext r
    rw [loop_optional_missing evaluator context hform operation after _ _ hopt ha]
  · rw [CStatementOutput_loop_append]
    exact bind_failing_step _ _
      (fun env out => loop_negative_index evaluator context tokens s e operation after env out
        htakes hneg)

/-- Witness for C21: `(return)` has no argument 1.  The program
`Keyword("return") Expression(1) SmartEndStatement` returns `false` after the
keyword; with `ExpressionOptional(1)` the result is that of
`Keyword("return") SmartEndStatement`; with `Expression(-1)` it returns `false`. -/
theorem required_and_optional_arguments_witness :
    (InvocationRange exampleReturnNothing 0 2 ∧
      getNumArguments exampleReturnNothing 0 2 = .ok 1) ∧
    CStatementOutput recordingEvaluator [] exampleBodyContext exampleReturnNothing 0
        ([⟨CStatementOperationType.Keyword, "return", -1⟩] ++
          ⟨CStatementOperationType.Expression, "", 1⟩ ::
            [⟨CStatementOperationType.SmartEndStatement, "", -1⟩]) ⟨[], []⟩ =
      (CStatementOutput recordingEvaluator [] exampleBodyContext exampleReturnNothing 0
        [⟨CStatementOperationType.Keyword, "return", -1⟩] ⟨[], []⟩).map
        StatementEmission.failed ∧
    CStatementOutput recordingEvaluator [] exampleBodyContext exampleReturnNothing 0
        ([⟨CStatementOperationType.Keyword, "return", -1⟩] ++
          ⟨CStatementOperationType.ExpressionOptional, "", 1⟩ ::
            [⟨CStatementOperationType.SmartEndStatement, "", -1⟩]) ⟨[], []⟩ =
      CStatementOutput recordingEvaluator [] exampleBodyContext exampleReturnNothing 0
        ([⟨CStatementOperationType.Keyword, "return", -1⟩] ++
          [⟨CStatementOperationType.SmartEndStatement, "", -1⟩]) ⟨[], []⟩ ∧
    CStatementOutput recordingEvaluator [] exampleBodyContext exampleReturnNothing 0
        ([] ++ ⟨CStatementOperationType.Expression, "", -1⟩ :: []) ⟨[], []⟩ =
      (CStatementOutput recordingEvaluator [] exampleBodyContext exampleReturnNothing 0
        [] ⟨[], []⟩).map StatementEmission.failed ∧
    (CStatementOutput recordingEvaluator [] exampleBodyContext exampleReturnNothing 0
        [⟨CStatementOperationType.Keyword, "return", -1⟩,
          ⟨CStatementOperationType.Expression, "", 1⟩,
          ⟨CStatementOperationType.SmartEndStatement, "", -1⟩] ⟨[], []⟩).map
        (fun r => (r.success, r.environment, r.output)) =
      .ok (false, [], ⟨[⟨"return", StringOutMod_SpaceAfter, 1⟩], []⟩) :=
  ⟨by decide,
    (required_and_optional_arguments recordingEvaluator [] exampleBodyContext
      exampleReturnNothing 0 2 1 [⟨CStatementOperationType.Keyword, "return", -1⟩]
      [⟨CStatementOperationType.SmartEndStatement, "", -1⟩]
      ⟨CStatementOperationType.Expression, "", 1⟩ ⟨[], []⟩ (by decide) (by decide)).1 rfl
      (by decide),
    (required_and_optional_arguments recordingEvaluator [] exampleBodyContext
      exampleReturnNothing 0 2 1 [⟨CStatementOperationType.Keyword, "return", -1⟩]
      [⟨CStatementOperationType.SmartEndStatement, "", -1⟩]
      ⟨CStatementOperationType.ExpressionOptional, "", 1⟩ ⟨[], []⟩ (by decide)
      (by decide)).2.1 rfl (by decide),
    (required_and_optional_arguments recordingEvaluator [] exampleBodyContext
      exampleReturnNothing 0 2 1 [] []
      ⟨CStatementOperationType.Expression, "", -1⟩ ⟨[], []⟩ (by decide) (by decide)).2.2 rfl
      (by decide),
    by decide⟩

/-! ### Claims on special symbols, paren matching and the lowering as a whole -/

/-- C25: `isSpecialSymbol` characterised.  It returns `true` exactly for a token
that is not a Symbol, and for a Symbol whose contents are at least two characters
long and start with `:`, `&` or the apostrophe; so the one-character symbols `:`,
`&` and apostrophe are not special, while `:x`, `&rest` and a quoted name are. -/
theorem isSpecialSymbol_characterisation (token : Token) :
    (isSpecialSymbol token = true ↔
      (token.type ≠ TokenType.Symbol ∨
        (2 ≤ token.contents.length ∧
          (token.contents.data.head? = some ':' ∨ token.contents.data.head? = some '&' ∨
            token.contents.data.head? = some (Char.ofNat 39))))) ∧
    isSpecialSymbol (Token.symbol ":") = false ∧
    isSpecialSymbol (Token.symbol "&") = false ∧
    isSpecialSymbol (Token.symbol (String.singleton (Char.ofNat 39))) = false ∧
    isSpecialSymbol (Token.symbol ":x") = true ∧
    isSpecialSymbol (Token.symbol "&rest") = true ∧
    isSpecialSymbol (Token.symbol (String.mk [Char.ofNat 39, 'n'])) = true ∧
    isSpecialSymbol (Token.string "text") = true := by
  refine ⟨?_, by decide, by decide, by decide, by decide, by decide, by decide, by decide⟩
  unfold isSpecialSymbol
  by_cases hty : token.type = TokenType.Symbol
  · simp only [hty, if_true, ne_eq, not_true_eq_false, false_or, firstChar]
    cases hd : token.contents.data with
    | nil =>
      have hl : token.contents.length = 0 := by
        simp [String.length, hd]
      simp [hl]
    | cons c rest =>
      simp only [List.headD_cons, List.head?_cons, Option.some.injEq, Bool.and_eq_true,
        decide_eq_true_eq, Bool.or_eq_true, beq_iff_eq]
      constructor
      · rintro ⟨h1, h2⟩; exact ⟨by omega, or_assoc.1 h2⟩
      · rintro ⟨h1, h2⟩; exact ⟨by omega, or_assoc.2 h2⟩
  · simp [hty]

/-- C26 as stated fails: at index 1 of `(a int b int &return int)`, a Symbol, the
scan is at depth 0 after its first token and returns 1, not the size 8 of the
vector. -/
theorem findCloseParen_at_symbol_counterexample :
    typeAt exampleSignature 1 = some TokenType.Symbol ∧
    FindCloseParenTokenIndex exampleSignature 1 = .ok 1 ∧
    exampleSignature.length = 8 :=
  ⟨by decide, by decide, by decide⟩

theorem findClose_loop_no_open (n : Nat) :
    ∀ (rest : List Token) (i : Nat) (d : Int), d < 0 →
      (∀ u ∈ rest, u.type ≠ TokenType.OpenParen) →
      FindCloseParenTokenIndex.loop n rest i d = n
  | [], _, _, _, _ => rfl
  | t :: rest, i, d, hd, hno => by
    have ht : t.type ≠ TokenType.OpenParen := hno t (by simp)
    have hrest : ∀ u ∈ rest, u.type ≠ TokenType.OpenParen :=
      fun u hu => hno u (by simp [hu])
    rw [findClose_loop_cons]
    simp only [ht, if_false]
    by_cases hc : t.type = TokenType.CloseParen
    · simp only [hc, if_true]
      rw [if_neg (by omega)]
      exact findClose_loop_no_open n rest (i + 1) (d - 1) (by omega) hrest
    · simp only [hc, if_false]
      rw [if_neg (by omega)]
      exact findClose_loop_no_open n rest (i + 1) d hd hrest

/-- C26, amended: what `FindCloseParenTokenIndex` returns at a token that is not an
OpenParen.  At a Symbol or String it returns the start index itself; at a CloseParen
that no OpenParen follows it returns the size of the vector. -/
theorem findCloseParen_precondition_violated (tokens : List Token) (s : Nat) (t : Token)
    (ht : tokens[s]? = some t) (hopen : t.type ≠ TokenType.OpenParen) :
    (t.type ≠ TokenType.CloseParen → FindCloseParenTokenIndex tokens s = .ok s) ∧
    (t.type = TokenType.CloseParen →
      (∀ u ∈ tokens.drop (s + 1), u.type ≠ TokenType.OpenParen) →
      FindCloseParenTokenIndex tokens s = .ok tokens.length) := by
  have hs := (List.getElem?_eq_some_iff.1 ht).1
  have hdrop : tokens.drop s = t :: tokens.drop (s + 1) := by
    rw [List.drop_eq_getElem_cons hs]
    congr 1
    exact (List.getElem?_eq_some_iff.1 ht).2
  unfold FindCloseParenTokenIndex
  rw [tokenAt_of_getElem? ht, ok_bind, hdrop, findClose_loop_cons]
  constructor
  · intro hclose
    simp [hopen, hclose]
  · intro hclose hno
    have hco : ¬ (TokenType.CloseParen = TokenType.OpenParen) := by decide
    simp only [hclose, hco, if_false, if_true]
    rw [if_neg (show ¬ ((0 : Int) - 1 = 0) by omega),
      findClose_loop_no_open _ _ _ _ (show (0 : Int) - 1 < 0 by omega) hno]
    rfl

/-- Witness for the amended C26: the Symbol at index 1 and the CloseParen at index 7
of `(a int b int &return int)`. -/
theorem findCloseParen_precondition_violated_witness :
    (exampleSignature[1]? = some (Token.symbol "a") ∧
      (Token.symbol "a").type ≠ TokenType.OpenParen ∧
      (Token.symbol "a").type ≠ TokenType.CloseParen) ∧
    FindCloseParenTokenIndex exampleSignature 1 = .ok 1 ∧
    FindCloseParenTokenIndex exampleSignature 7 = .ok exampleSignature.length :=
  ⟨by decide,
    (findCloseParen_precondition_violated exampleSignature 1 (Token.symbol "a") (by decide)
      (by decide)).1 (by decide),
    (findCloseParen_precondition_violated exampleSignature 7 Token.closeParen (by decide)
      (by decide)).2 (by decide) (by decide)⟩

/-- C27: with `allowArray = false` the after-name buffer is never touched.  Whatever
`tokenizedCTypeToString_Recursive` returns, success or failure, `afterNameOutput`
is afterwards what it was before the call; started from an empty after-name buffer,
as `outputFunctionReturnType` does, it ends with an empty one, so the test
`!afterNameOutput.empty()` there never holds. -/
theorem afterName_untouched_without_allowArray (tokens : List Token) (s : Nat)
    (typeOutput afterNameOutput : List StringOutput) (r : TypeLowering)
    (h : tokenizedCTypeToString_Recursive tokens s false typeOutput afterNameOutput = .ok r) :
    r.afterNameOutput = afterNameOutput ∧
    ∀ r0, tokenizedCTypeToString_Recursive tokens s false [] [] = .ok r0 →
      r0.afterNameOutput = [] :=
  ⟨lowering_noArray h, fun _ h0 => lowering_noArray h0⟩

/-- Witness for C27: `([] 10 float)` lowered with `allowArray = false` and one
record already in the after-name buffer; the call fails and the buffer is as it
was. -/
theorem afterName_untouched_without_allowArray_witness :
    tokenizedCTypeToString_Recursive exampleArrayOfTenFloats 0 false []
        [⟨"[]", StringOutMod_None, 0⟩] =
      .ok ⟨false, [], [⟨"[]", StringOutMod_None, 0⟩], some 0⟩ ∧
    (TypeLowering.mk false [] [⟨"[]", StringOutMod_None, 0⟩] (some 0)).afterNameOutput =
      [⟨"[]", StringOutMod_None, 0⟩] :=
  ⟨by decide,
    (afterName_untouched_without_allowArray exampleArrayOfTenFloats 0 []
      [⟨"[]", StringOutMod_None, 0⟩] _ (by decide)).1⟩

/-- C28: a successful lowering always produces a type record.  When
`tokenizedCTypeToString_Recursive` returns `true`, `typeOutput` is what it was
before the call followed by at least one new record, so it is strictly longer, and
`typeOutput.back()`, which `outputFunctionReturnType` and `outputFunctionArguments`
take after a successful lowering, is a read inside the vector. -/
theorem successful_lowering_extends_typeOutput (tokens : List Token) (s : Nat)
    (allowArray : Bool) (typeOutput afterNameOutput : List StringOutput) (r : TypeLowering)
    (h : tokenizedCTypeToString_Recursive tokens s allowArray typeOutput afterNameOutput =
      .ok r)
    (hs : r.success = true) :
    (∃ added, added ≠ [] ∧ r.typeOutput = typeOutput ++ added) ∧
    typeOutput.length < r.typeOutput.length ∧
    ∀ flag, ∃ out, addModifierToBack r.typeOutput flag = .ok out := by
  have hgrow := lowering_grows h hs
  rw [lowering_framed] at h
  cases h0 : tokenizedCTypeToString_Recursive tokens s allowArray [] [] with
  | error err => rw [h0] at h; cases h
  | ok r0 =>
    rw [h0, map_ok] at h
    cases h
    simp only [prepend_typeOutput, List.length_append] at hgrow ⊢
    have hne : r0.typeOutput ≠ [] := by
      intro hnil
      rw [hnil] at hgrow
      simp at hgrow
    refine ⟨⟨r0.typeOutput, hne, rfl⟩, hgrow, fun flag => ?_⟩
    unfold addModifierToBack
    cases hl : (typeOutput ++ r0.typeOutput).getLast? with
    | none =>
      rw [List.getLast?_eq_none_iff] at hl
      simp at hl
      exact absurd hl.2 hne
    | some last => exact ⟨_, rfl⟩

/-- Witness for C28: `([] 10 float)` lowered with `allowArray = true` after one
record; the type buffer gains `float`. -/
theorem successful_lowering_extends_typeOutput_witness :
    tokenizedCTypeToString_Recursive exampleArrayOfTenFloats 0 true
        [⟨"const", StringOutMod_SpaceAfter, 0⟩] [] =
      .ok ⟨true, [⟨"const", StringOutMod_SpaceAfter, 0⟩, ⟨"float", StringOutMod_ConvertTypeName, 3⟩],
        [⟨"[", StringOutMod_None, 1⟩, ⟨"10", StringOutMod_None, 2⟩,
          ⟨"]", StringOutMod_None, 1⟩], none⟩ ∧
    ([⟨"const", StringOutMod_SpaceAfter, 0⟩] : List StringOutput).length <
      (TypeLowering.mk true
        [⟨"const", StringOutMod_SpaceAfter, 0⟩, ⟨"float", StringOutMod_ConvertTypeName, 3⟩]
        [⟨"[", StringOutMod_None, 1⟩, ⟨"10", StringOutMod_None, 2⟩,
          ⟨"]", StringOutMod_None, 1⟩] none).typeOutput.length :=
  ⟨by decide,
    (successful_lowering_extends_typeOutput exampleArrayOfTenFloats 0 true
      [⟨"const", StringOutMod_SpaceAfter, 0⟩] []
      (TypeLowering.mk true
        [⟨"const", StringOutMod_SpaceAfter, 0⟩, ⟨"float", StringOutMod_ConvertTypeName, 3⟩]
        [⟨"[", StringOutMod_None, 1⟩, ⟨"10", StringOutMod_None, 2⟩,
          ⟨"]", StringOutMod_None, 1⟩] none) (by decide) rfl).2.1⟩

/-! ### The recursive calls of the lowering stay inside the form -/

theorem templateLoop_congr_range
    (rec1 rec2 : Nat → Bool → List StringOutput → List StringOutput → Except Fault TypeLowering)
    (tokens : List Token) (e : Nat) :
    ∀ (fuel p : Nat) (ty af : List StringOutput),
      (∀ i a t f, p ≤ i → i < e → rec1 i a t f = rec2 i a t f) →
      tokenizedCTypeToString_Recursive.templateLoop rec1 tokens e fuel p ty af =
        tokenizedCTypeToString_Recursive.templateLoop rec2 tokens e fuel p ty af := by
  intro fuel
  induction fuel with
  | zero => intro p ty af _; simp only [tokenizedCTypeToString_Recursive.templateLoop]
  | succ fuel ih =>
    intro p ty af hrec
    simp only [tokenizedCTypeToString_Recursive.templateLoop]
    split
    · rename_i hpe
      rw [hrec p false ty af (le_refl _) hpe]
      cases rec2 p false ty af with
      | error err => simp only [error_bind]
      | ok r =>
        simp only [ok_bind]
        split
        · rfl
        · cases isLastArgument tokens p e with
          | error err => simp only [error_bind]
          | ok l =>
            simp only [ok_bind]
            cases ht : tokenAt tokens p with
            | error err => simp only [error_bind]
            | ok t =>
              simp only [ok_bind]
              cases hn : (if t.type = TokenType.OpenParen then FindCloseParenTokenIndex tokens p
                  else pure p) with
              | error err => simp only [error_bind]
              | ok nx =>
                simp only [ok_bind]
                have hle : p ≤ nx := by
                  split at hn
                  · exact (findClose_bounds hn).1
                  · simp at hn; omega
                exact ih _ _ _ (fun i a t f hi hie => hrec i a t f (by omega) hie)
    · rfl

theorem scopeLoop_congr_range
    (rec1 rec2 : Nat → Bool → List StringOutput → List StringOutput → Except Fault TypeLowering)
    (tokens : List Token) (e : Nat) :
    ∀ (fuel p : Nat) (ty af : List StringOutput),
      (∀ i a t f, p ≤ i → i < e → rec1 i a t f = rec2 i a t f) →
      tokenizedCTypeToString_Recursive.scopeLoop rec1 tokens e fuel p ty af =
        tokenizedCTypeToString_Recursive.scopeLoop rec2 tokens e fuel p ty af := by
  intro fuel
  induction fuel with
  | zero => intro p ty af _; simp only [tokenizedCTypeToString_Recursive.scopeLoop]
  | succ fuel ih =>
    intro p ty af hrec
    simp only [tokenizedCTypeToString_Recursive.scopeLoop]
    split
    · rename_i hpe
      rw [hrec p false ty af (le_refl _) hpe]
      cases rec2 p false ty af with
      | error err => simp only [error_bind]
      | ok r =>
        simp only [ok_bind]
        split
        · rfl
        · cases isLastArgument tokens p e with
          | error err => simp only [error_bind]
          | ok l =>
            simp only [ok_bind]
            cases hn : getNextArgument tokens p e with
            | error err => simp only [error_bind]
            | ok nx =>
              simp only [ok_bind]
              have hle := getNextArgument_gt hn
              exact ih _ _ _ (fun i a t f hi hie => hrec i a t f (by omega) hie)
    · rfl

theorem constBranch_congr_range
    (rec1 rec2 : Nat → Bool → List StringOutput → List StringOutput → Except Fault TypeLowering)
    (tokens : List Token) (s e : Nat) (allow : Bool) (ty af : List StringOutput)
    (hrec : ∀ i a t f, s < i → i < e → rec1 i a t f = rec2 i a t f) :
    tokenizedCTypeToString_Recursive.constBranch rec1 tokens s e allow ty af
      = tokenizedCTypeToString_Recursive.constBranch rec2 tokens s e allow ty af := by
  unfold tokenizedCTypeToString_Recursive.constBranch
  cases ExpectNumArguments tokens s e 2 with
  | error err => simp only [error_bind]
  | ok ar =>
    simp only [ok_bind]
    split
    · rfl
    · cases hti : getExpectedArgument tokens s 1 e with
      | error err => simp only [error_bind]
      | ok ti =>
        simp only [ok_bind]
        split
        · rfl
        · rename_i hne
          exact hrec _ _ _ _ (toNat_gt_of_bounds (getExpectedArgument_bounds hti) hne).1
            (toNat_gt_of_bounds (getExpectedArgument_bounds hti) hne).2

theorem suffixBranch_congr_range
    (rec1 rec2 : Nat → Bool → List StringOutput → List StringOutput → Except Fault TypeLowering)
    (tokens : List Token) (s e : Nat) (x : String) (allow : Bool) (ty af : List StringOutput)
    (hrec : ∀ i a t f, s < i → i < e → rec1 i a t f = rec2 i a t f) :
    tokenizedCTypeToString_Recursive.suffixBranch rec1 tokens s e x allow ty af
      = tokenizedCTypeToString_Recursive.suffixBranch rec2 tokens s e x allow ty af := by
  unfold tokenizedCTypeToString_Recursive.suffixBranch
  cases ExpectNumArguments tokens s e 2 with
  | error err => simp only [error_bind]
  | ok ar =>
    simp only [ok_bind]
    split
    · rfl
    · cases hti : getExpectedArgument tokens s 1 e with
      | error err => simp only [error_bind]
      | ok ti =>
        simp only [ok_bind]
        split
        · rfl
        · rename_i hne
          rw [hrec _ _ _ _ (toNat_gt_of_bounds (getExpectedArgument_bounds hti) hne).1
            (toNat_gt_of_bounds (getExpectedArgument_bounds hti) hne).2]

theorem templateBranch_congr_range
    (rec1 rec2 : Nat → Bool → List StringOutput → List StringOutput → Except Fault TypeLowering)
    (tokens : List Token) (s e : Nat) (allow : Bool) (ty af : List StringOutput)
    (hrec : ∀ i a t f, s < i → i < e → rec1 i a t f = rec2 i a t f) :
    tokenizedCTypeToString_Recursive.templateBranch rec1 tokens s e allow ty af
      = tokenizedCTypeToString_Recursive.templateBranch rec2 tokens s e allow ty af := by
  unfold tokenizedCTypeToString_Recursive.templateBranch
  cases hti : getExpectedArgument tokens s 1 e with
  | error err => simp only [error_bind]
  | ok ti =>
    simp only [ok_bind]
    split
    · rfl
    · rename_i hne
      have hb := toNat_gt_of_bounds (getExpectedArgument_bounds hti) hne
      rw [hrec _ _ _ _ hb.1 hb.2]
      cases rec2 ti.toNat allow ty af with
      | error err => simp only [error_bind]
      | ok r =>
        simp only [ok_bind]
        split
        · rfl
        · rw [templateLoop_congr_range rec1 rec2 tokens e _ _ _ _
            (fun i a t f hi hie => hrec i a t f (by omega) hie)]

theorem arrayBranch_congr_range
    (rec1 rec2 : Nat → Bool → List StringOutput → List StringOutput → Except Fault TypeLowering)
    (tokens : List Token) (s e : Nat) (allow : Bool) (ty af : List StringOutput)
    (hrec : ∀ i a t f, s < i → i < e → rec1 i a t f = rec2 i a t f) :
    tokenizedCTypeToString_Recursive.arrayBranch rec1 tokens s e allow ty af
      = tokenizedCTypeToString_Recursive.arrayBranch rec2 tokens s e allow ty af := by
  unfold tokenizedCTypeToString_Recursive.arrayBranch
  split
  · rfl
  · cases hfi : getExpectedArgument tokens s 1 e with
    | error err => simp only [error_bind]
    | ok fi =>
      simp only [ok_bind]
      split
      · rfl
      · rename_i hne
        have hb := toNat_gt_of_bounds (getExpectedArgument_bounds hfi) hne
        cases tokenAt tokens fi.toNat with
        | error err => simp only [error_bind]
        | ok fa =>
          simp only [ok_bind]
          split
          · cases hti : getExpectedArgument tokens s 2 e with
            | error err => simp only [error_bind]
            | ok ti =>
              simp only [ok_bind]
              split
              · rfl
              · rename_i hne2
                exact hrec _ _ _ _
                  (toNat_gt_of_bounds (getExpectedArgument_bounds hti) hne2).1
                  (toNat_gt_of_bounds (getExpectedArgument_bounds hti) hne2).2
          · exact hrec _ _ _ _ hb.1 hb.2

theorem scopeBranch_congr_range
    (rec1 rec2 : Nat → Bool → List StringOutput → List StringOutput → Except Fault TypeLowering)
    (tokens : List Token) (s e : Nat) (ty af : List StringOutput)
    (hrec : ∀ i a t f, s < i → i < e → rec1 i a t f = rec2 i a t f) :
    tokenizedCTypeToString_Recursive.scopeBranch rec1 tokens s e ty af
      = tokenizedCTypeToString_Recursive.scopeBranch rec2 tokens s e ty af := by
  unfold tokenizedCTypeToString_Recursive.scopeBranch
  cases hti : getExpectedArgument tokens s 1 e with
  | error err => simp only [error_bind]
  | ok ti =>
    simp only [ok_bind]
    split
    · rfl
    · rename_i hne
      have hb := toNat_gt_of_bounds (getExpectedArgument_bounds hti) hne
      rw [scopeLoop_congr_range rec1 rec2 tokens e _ _ _ _
        (fun i a t f hi hie => hrec i a t f (by omega) hie)]

theorem formBranch_congr_range
    (rec1 rec2 : Nat → Bool → List StringOutput → List StringOutput → Except Fault TypeLowering)
    (tokens : List Token) (s e : Nat) (hd : Token) (allow : Bool) (ty af : List StringOutput)
    (hrec : ∀ i a t f, s < i → i < e → rec1 i a t f = rec2 i a t f) :
    tokenizedCTypeToString_Recursive.formBranch rec1 tokens s e hd allow ty af
      = tokenizedCTypeToString_Recursive.formBranch rec2 tokens s e hd allow ty af := by
  unfold tokenizedCTypeToString_Recursive.formBranch
  rw [constBranch_congr_range rec1 rec2 tokens s e allow ty af hrec,
    suffixBranch_congr_range rec1 rec2 tokens s e hd.contents allow ty af hrec,
    suffixBranch_congr_range rec1 rec2 tokens s e "&&" allow ty af hrec,
    templateBranch_congr_range rec1 rec2 tokens s e allow ty af hrec,
    arrayBranch_congr_range rec1 rec2 tokens s e allow ty af hrec,
    scopeBranch_congr_range rec1 rec2 tokens s e ty af hrec]

theorem body_congr_range
    (rec1 rec2 : Nat → Bool → List StringOutput → List StringOutput → Except Fault TypeLowering)
    (tokens : List Token) (s : Nat) (allow : Bool) (ty af : List StringOutput)
    (hrec : ∀ i a t f, s < i →
      (∀ e, FindCloseParenTokenIndex tokens s = .ok e → i < e) → rec1 i a t f = rec2 i a t f) :
    tokenizedCTypeToString_Recursive.body rec1 tokens s allow ty af =
      tokenizedCTypeToString_Recursive.body rec2 tokens s allow ty af := by
  unfold tokenizedCTypeToString_Recursive.body
  cases tokenAt tokens s with
  | error err => simp only [error_bind]
  | ok t =>
    simp only [ok_bind]
    split
    · rfl
    · cases tokenAt tokens (s + 1) with
      | error err => simp only [error_bind]
      | ok hd =>
        simp only [ok_bind]
        split
        · rfl
        · cases he : FindCloseParenTokenIndex tokens s with
          | error err => simp only [error_bind]
          | ok e =>
            simp only [ok_bind]
            exact formBranch_congr_range rec1 rec2 tokens s e hd allow ty af
              (fun i a t f hi hie => hrec i a t f hi (fun e1 he1 => by
                rw [he] at he1
                cases he1
                exact hie))

/-- Every recursive call that `tokenizedCTypeToString_Recursive` makes at `s` is
made at an index strictly between `s` and `FindCloseParenTokenIndex(tokens, s)`:
its body gives the same result with any two functions in place of the recursive
call that agree at those indices. -/
theorem lowering_recursive_calls_inside_form (tokens : List Token) (s : Nat)
    (allowArray : Bool) (typeOutput afterNameOutput : List StringOutput)
    (rec1 rec2 : Nat → Bool → List StringOutput → List StringOutput →
      Except Fault TypeLowering)
    (hrec : ∀ i a t f, s < i →
      (∀ e, FindCloseParenTokenIndex tokens s = .ok e → i < e) →
      rec1 i a t f = rec2 i a t f) :
    tokenizedCTypeToString_Recursive.body rec1 tokens s allowArray typeOutput
        afterNameOutput =
      tokenizedCTypeToString_Recursive.body rec2 tokens s allowArray typeOutput
        afterNameOutput :=
  body_congr_range rec1 rec2 tokens s allowArray typeOutput afterNameOutput hrec

/-- C29: the recursion of the lowering.  On every token vector the lowering is its
own body with itself as the recursive call, and the recursion is well-founded on
`tokens.size() - startTokenIndex`: as many levels as that, plus one, are never used
up.  The run ends, yet not always with a result: on the balanced vector
`(<> (* x) <>)` the parameter loop of the template form starts inside the
parenthesised name, reaches its close paren, and the calls that follow end at the
last token of the vector (index 7), where the head of a form is read one past the
end. -/
theorem lowering_recursion_measure_and_fault :
    (∀ (tokens : List Token) (s : Nat) (allowArray : Bool)
      (typeOutput afterNameOutput : List StringOutput),
      tokenizedCTypeToString_Recursive tokens s allowArray typeOutput afterNameOutput =
        tokenizedCTypeToString_Recursive.body
          (fun i a t f => tokenizedCTypeToString_Recursive tokens i a t f) tokens s
          allowArray typeOutput afterNameOutput ∧
      tokenizedCTypeToString_Recursive tokens s allowArray typeOutput afterNameOutput ≠
        .error Fault.outOfFuel) ∧
    (InvocationRange exampleTemplateParameterIsHead 0 7 ∧
      exampleTemplateParameterIsHead.length = 8 ∧
      tokenizedCTypeToString_Recursive exampleTemplateParameterIsHead 0 true [] [] =
        .error Fault.outOfBounds ∧
      tokenizedCTypeToString_Recursive exampleTemplateParameterIsHead 7 false [] [] =
        .error Fault.outOfBounds) :=
  ⟨fun tokens s allowArray ty af =>
      ⟨lowering_eq_body tokens s allowArray ty af,
        lowering_ne_outOfFuel tokens s allowArray ty af⟩,
    by decide, by decide, by decide, by decide⟩

/-! ### Expression ends and definition cloning -/

theorem findExpressionEnd_loop_cons (t : Token) (rest : List Token) (i : Nat) (d : Int) :
    FindTokenExpressionEnd.loop (t :: rest) i d =
      if d ≥ 0 then
        if t.type = TokenType.OpenParen then FindTokenExpressionEnd.loop rest (i + 1) (d + 1)
        else if t.type = TokenType.CloseParen then
          if d - 1 ≤ 0 then pure i else FindTokenExpressionEnd.loop rest (i + 1) (d - 1)
        else FindTokenExpressionEnd.loop rest (i + 1) d
      else .error Fault.outOfBounds := rfl

theorem findExpressionEnd_loop_balanced (l : List Token) :
    ∀ (k : Nat) (d : Int) (rest : List Token) (i : Nat), balancedFrom k l = true → 0 < d →
      FindTokenExpressionEnd.loop (l ++ rest) i (d + k) =
        FindTokenExpressionEnd.loop rest (i + l.length) d := by
  induction l with
  | nil =>
    intro k d rest i hb hd
    simp [balancedFrom] at hb
    simp [hb]
  | cons t l ih =>
    intro k d rest i hb hd
    simp only [balancedFrom] at hb
    have hge : d + (k : Int) ≥ 0 := by omega
    rw [List.cons_append, findExpressionEnd_loop_cons, if_pos hge, List.length_cons,
      show i + (l.length + 1) = i + 1 + l.length by omega]
    by_cases h1 : t.type = TokenType.OpenParen
    · simp only [h1, if_true] at hb ⊢
      rw [← ih (k + 1) d rest (i + 1) hb hd]
      congr 1; push_cast; ring
    · by_cases h2 : t.type = TokenType.CloseParen
      · have hco : ¬ (TokenType.CloseParen = TokenType.OpenParen) := by decide
        simp only [h2, hco, if_true, if_false] at hb ⊢
        simp at hb
        obtain ⟨hk, hb⟩ := hb
        have hne : ¬ (d + (k : Int) - 1 ≤ 0) := by omega
        rw [if_neg hne, ← ih (k - 1) d rest (i + 1) hb hd]
        congr 1; omega
      · simp only [h1, h2, if_false] at hb ⊢
        rw [← ih k d rest (i + 1) hb hd]

theorem findExpressionEnd_of_range {tokens : List Token} {s e : Nat}
    (h : InvocationRange tokens s e) : FindTokenExpressionEnd tokens s = .ok e := by
  obtain ⟨hse, hs, he, hb⟩ := h
  obtain ⟨ts, hts, htst, _⟩ := typeAt_eq_some hs
  obtain ⟨te, hte, htet, _⟩ := typeAt_eq_some he
  obtain ⟨hd, hlen⟩ := drop_eq_between hse hts hte
  unfold FindTokenExpressionEnd
  rw [tokenAt_of_getElem? hts, ok_bind, hd]
  have hopen : ¬ (ts.type ≠ TokenType.OpenParen) := by simp [htst]
  rw [if_neg hopen, findExpressionEnd_loop_cons]
  simp only [ge_iff_le, le_refl, if_true, htst]
  have := findExpressionEnd_loop_balanced (tokensBetween tokens s e) 0 1
    (te :: tokens.drop (e + 1)) (s + 1) hb (by norm_num)
  simp only [Nat.cast_zero, add_zero] at this
  rw [zero_add, this, findExpressionEnd_loop_cons]
  have hco : ¬ (TokenType.CloseParen = TokenType.OpenParen) := by decide
  simp [htet, hco, hlen]
  omega

theorem vector_of_getElem? {store : TokenStore} {buffer : Nat} {tokens : List Token}
    (h : store[buffer]? = some tokens) : store.vector buffer = .ok tokens := by
  simp [TokenStore.vector, h]

/-- Tokens that no expansion points at are copied one by one. -/
theorem copy_plain_run {store : TokenStore} {expansions : List MacroExpansion}
    {buffer : Nat} {tokens : List Token} (hv : store[buffer]? = some tokens) (endToken : Nat) :
    ∀ (n fuel i : Nat) (tokensOut : List Token),
      (∀ k, i ≤ k → k < i + n →
        expansions.find? (fun expansion => expansion.atToken = ⟨buffer, k⟩) = none) →
      i + n ≤ endToken + 1 → i + n ≤ tokens.length →
      CopyTokensWithMacrosExpanded_Recursive store expansions (fuel + n) buffer i endToken
          tokensOut =
        CopyTokensWithMacrosExpanded_Recursive store expansions fuel buffer (i + n) endToken
          (tokensOut ++ segment tokens i (i + n))
  | 0, fuel, i, tokensOut, _, _, _ => by simp [segment]
  | n + 1, fuel, i, tokensOut, hplain, hend, hlen => by
    have hi : i < tokens.length := by omega
    obtain ⟨t, ht, hget⟩ := tokenAt_ok hi
    rw [show fuel + (n + 1) = (fuel + n) + 1 by omega, CopyTokensWithMacrosExpanded_Recursive]
    rw [if_pos (by omega), hplain i (le_refl _) (by omega)]
    simp only [vector_of_getElem? hv, ok_bind, ht]
    rw [copy_plain_run hv endToken n fuel (i + 1) (tokensOut ++ [t])
      (fun k hk1 hk2 => hplain k (by omega) (by omega)) (by omega) (by omega)]
    have hseg : segment tokens i (i + (n + 1)) = t :: segment tokens (i + 1) (i + 1 + n) := by
      unfold segment
      rw [List.drop_eq_getElem_cons hi, show i + (n + 1) - i = n + 1 by omega,
        show i + 1 + n - (i + 1) = n by omega, List.take_succ_cons]
      congr 1
      exact (List.getElem?_eq_some_iff.1 hget).2
    rw [hseg, show i + 1 + n = i + (n + 1) by omega]
    simp

/-- A range that no expansion points into is copied as it is. -/
theorem copy_plain_range {store : TokenStore} {expansions : List MacroExpansion}
    {buffer : Nat} {tokens : List Token} (hv : store[buffer]? = some tokens)
    (i endToken fuel : Nat) (tokensOut : List Token)
    (hplain : ∀ k, i ≤ k → k ≤ endToken →
      expansions.find? (fun expansion => expansion.atToken = ⟨buffer, k⟩) = none)
    (hie : i ≤ endToken + 1) (hlen : endToken < tokens.length)
    (hfuel : endToken + 1 - i + 1 ≤ fuel) :
    CopyTokensWithMacrosExpanded_Recursive store expansions fuel buffer i endToken tokensOut =
      .ok (tokensOut ++ segment tokens i (endToken + 1)) := by
  obtain ⟨f, rfl⟩ : ∃ f, fuel = (f + 1) + (endToken + 1 - i) :=
    ⟨fuel - (endToken + 1 - i) - 1, by omega⟩
  rw [copy_plain_run hv endToken (endToken + 1 - i) (f + 1) i tokensOut
    (fun k hk1 hk2 => hplain k hk1 (by omega)) (by omega) (by omega)]
  rw [show i + (endToken + 1 - i) = endToken + 1 by omega,
    CopyTokensWithMacrosExpanded_Recursive, if_neg (by omega)]
  rfl

/-- C22: definition cloning replaces exactly the expanded span.  For a Function or
Variable definition whose invocation is the open paren at index `a` of the vector
`tokens`, with the balanced span `a..b`: when the expansion table has the single
entry at the open paren `p` inside the span (matching close paren `q`), with a
non-empty replacement vector `X` that the entry does not point into,
`CreateDefinitionCopyMacroExpanded` returns `true` and appends to `tokensOut`
exactly `tokens[a..p-1] ++ X ++ tokens[q+1..b]`; with an empty table it appends an
exact copy of `tokens[a..b]`.  Either holds for every amount of fuel from the
stated number of loop rounds on. -/
theorem clone_replaces_expanded_span (store : TokenStore) (definition : ObjectDefinition)
    (source : Nat) (tokens : List Token) (a b : Nat) (tokensOut : List Token) (fuel : Nat)
    (hkind : definition.type = ObjectType.Function ∨ definition.type = ObjectType.Variable)
    (hinvocation : definition.definitionInvocation = some ⟨source, a⟩)
    (hsource : store[source]? = some tokens)
    (hspan : InvocationRange tokens a b) :
    (∀ (p q replacement : Nat) (X : List Token),
      definition.macroExpansions = [⟨⟨source, p⟩, replacement⟩] →
      store[replacement]? = some X → X ≠ [] → replacement ≠ source →
      a ≤ p → q ≤ b → InvocationRange tokens p q →
      (b - a + 1) + X.length + 2 ≤ fuel →
      CreateDefinitionCopyMacroExpanded store definition tokensOut fuel =
        .ok (true, tokensOut ++ segment tokens a p ++ X ++ segment tokens (q + 1) (b + 1))) ∧
    (definition.macroExpansions = [] → (b - a + 1) + 1 ≤ fuel →
      CreateDefinitionCopyMacroExpanded store definition tokensOut fuel =
        .ok (true, tokensOut ++ segment tokens a (b + 1))) := by
  obtain ⟨_, _, _, hb⟩ := typeAt_eq_some hspan.2.2.1
  have hab : a < b := hspan.1
  have hknd : ¬ ¬ (definition.type = ObjectType.Function ∨
      definition.type = ObjectType.Variable) := not_not.2 hkind
  constructor
  · intro p q replacement X hexp hX hne hrs hap hqb hpq hfuel
    have hpq1 : p < q := hpq.1
    unfold CreateDefinitionCopyMacroExpanded
    rw [if_neg hknd, hinvocation]
    simp only [vector_of_getElem? hsource, ok_bind, findExpressionEnd_of_range hspan, hexp]
    obtain ⟨f, rfl⟩ : ∃ f, fuel = (f + 1) + (p - a) := ⟨fuel - (p - a) - 1, by omega⟩
    have hfind : ∀ k, k ≠ p →
        List.find? (fun expansion : MacroExpansion => expansion.atToken = ⟨source, k⟩)
          [⟨⟨source, p⟩, replacement⟩] = none := by
      intro k hk
      simp [List.find?, Ne.symm hk]
    have hfindX : ∀ k,
        List.find? (fun expansion : MacroExpansion => expansion.atToken = ⟨replacement, k⟩)
          [⟨⟨source, p⟩, replacement⟩] = none := by
      intro k
      simp [List.find?, Ne.symm hrs]
    rw [copy_plain_run hsource b (p - a) (f + 1) a tokensOut
      (fun k hk1 hk2 => hfind k (by omega)) (by omega) (by omega)]
    rw [show a + (p - a) = p by omega, CopyTokensWithMacrosExpanded_Recursive,
      if_pos (by omega)]
    have hhere : List.find? (fun expansion : MacroExpansion => expansion.atToken = ⟨source, p⟩)
        [⟨⟨source, p⟩, replacement⟩] = some ⟨⟨source, p⟩, replacement⟩ := by
      simp [List.find?]
    have hXlen : ¬ (X.length = 0) := by
      intro h0
      exact hne (List.length_eq_zero.1 h0)
    have hXpos : 0 < X.length := Nat.pos_of_ne_zero hXlen
    simp only [hhere, vector_of_getElem? hX, ok_bind, hXlen, if_false]
    rw [copy_plain_range hX 0 (X.length - 1) f _ (fun k _ _ => hfindX k) (by omega)
      (by omega) (by omega)]
    simp only [ok_bind, vector_of_getElem? hsource, findExpressionEnd_of_range hpq]
    rw [copy_plain_range hsource (q + 1) b f _ (fun k hk1 _ => hfind k (by omega)) (by omega)
      hb (by omega)]
    have hsegX : segment X 0 (X.length - 1 + 1) = X := by
      unfold segment
      simp
      omega
    simp [hsegX, pure, Except.pure]
  · intro hexp hfuel
    unfold CreateDefinitionCopyMacroExpanded
    rw [if_neg hknd, hinvocation]
    simp only [vector_of_getElem? hsource, ok_bind, findExpressionEnd_of_range hspan, hexp]
    rw [copy_plain_range hsource a b fuel _ (fun k _ _ => by simp [List.find?]) (by omega) hb
      (by omega)]
    rfl

/-- Witness for C22: `(defun f (a) (m x) b)` with `(m x)` expanded to `(+ x 1)`
clones to `(defun f (a) (+ x 1) b)`; without expansions it clones to itself. -/
theorem clone_replaces_expanded_span_witness :
    ((exampleClonedDefinition.type = ObjectType.Function ∨
        exampleClonedDefinition.type = ObjectType.Variable) ∧
      exampleCloneStore[0]? = some exampleDefinitionWithMacro ∧
      InvocationRange exampleDefinitionWithMacro 0 11 ∧
      InvocationRange exampleDefinitionWithMacro 6 9) ∧
    CreateDefinitionCopyMacroExpanded exampleCloneStore exampleClonedDefinition [] 19 =
      .ok (true,
        [Token.openParen, Token.symbol "defun", Token.symbol "f", Token.openParen,
          Token.symbol "a", Token.closeParen, Token.openParen, Token.symbol "+",
          Token.symbol "x", Token.symbol "1", Token.closeParen, Token.symbol "b",
          Token.closeParen]) ∧
    CreateDefinitionCopyMacroExpanded exampleCloneStore
        ⟨ObjectType.Variable, some ⟨0, 0⟩, [], 0⟩ [] 13 =
      .ok (true, exampleDefinitionWithMacro) :=
  ⟨by decide,
    (clone_replaces_expanded_span exampleCloneStore exampleClonedDefinition 0
      exampleDefinitionWithMacro 0 11 [] 19 (by decide) rfl (by decide) (by decide)).1
      6 9 1 exampleMacroOutput rfl (by decide) (by decide) (by decide) (by decide) (by decide)
      (by decide) (by decide),
    (clone_replaces_expanded_span exampleCloneStore ⟨ObjectType.Variable, some ⟨0, 0⟩, [], 0⟩ 0
      exampleDefinitionWithMacro 0 11 [] 13 (by decide) rfl (by decide) (by decide)).2
      rfl (by decide)⟩

/-! ### Unique symbol names -/

/-- The number a string of decimal digits spells, continued from `value`. -/
theorem digitChar_toNat (d : Nat) (h : d < 10) : (Nat.digitChar d).toNat - 48 = d := by
  interval_cases d <;> rfl

theorem toDigitsCore_value :
    ∀ (fuel n : Nat) (ds : List Char), n < fuel →
      (Nat.toDigitsCore 10 fuel n ds).foldl (fun v c => v * 10 + (c.toNat - 48)) 0 =
        ds.foldl (fun v c => v * 10 + (c.toNat - 48)) n
  | 0, n, ds, h => by omega
  | fuel + 1, n, ds, h => by
    rw [Nat.toDigitsCore]
    split
    · rename_i h0
      rw [List.foldl_cons, digitChar_toNat _ (Nat.mod_lt _ (by norm_num))]
      congr 1
      omega
    · rename_i h0
      rw [toDigitsCore_value fuel (n / 10) _ (by omega), List.foldl_cons,
        digitChar_toNat _ (Nat.mod_lt _ (by norm_num))]
      congr 1
      omega

theorem repr_injective {a b : Nat} (h : Nat.repr a = Nat.repr b) : a = b := by
  have hd : Nat.toDigits 10 a = Nat.toDigits 10 b := by
    have := congrArg String.data h
    simpa [Nat.repr, List.asString] using this
  have ha := toDigitsCore_value (a + 1) a [] (by omega)
  have hb := toDigitsCore_value (b + 1) b [] (by omega)
  simp only [List.foldl_nil] at ha hb
  rw [← ha, ← hb]
  exact congrArg _ hd

theorem uniqueSymbolText_injective {stem : String} {a b : Nat}
    (h : uniqueSymbolText stem a = uniqueSymbolText stem b) : a = b := by
  unfold uniqueSymbolText at h
  have := congrArg String.data h
  simp only [String.data_append, List.append_cancel_left_eq] at this
  exact repr_injective (String.ext this)

theorem printfBuffer_fits {formatted : String} (h : formatted.length ≤ 63) :
    PrintfBuffer 64 formatted = formatted := by
  unfold PrintfBuffer
  apply String.ext
  simp only
  exact List.take_of_length_le h

theorem mintSuccessively_spec (stem : String) :
    ∀ (k : Nat) (environment : EvaluatorEnvironment),
      (∀ j, j < k → FitsNameBuffer stem (environment.nextFreeUniqueSymbolNum + j)) →
      (mintSuccessively stem k environment).1.nextFreeUniqueSymbolNum =
          environment.nextFreeUniqueSymbolNum + k ∧
        (mintSuccessively stem k environment).2 =
          (List.range k).map
            (fun j => uniqueSymbolText stem (environment.nextFreeUniqueSymbolNum + j))
  | 0, environment, _ => ⟨rfl, rfl⟩
  | k + 1, environment, hfits => by
    have ih := mintSuccessively_spec stem k
      (MakeUniqueSymbolName environment stem ⟨TokenType.Symbol, ""⟩).1
      (fun j hj => by
        have := hfits (j + 1) (by omega)
        simpa [MakeUniqueSymbolName, Nat.add_assoc, Nat.add_comm 1 j] using this)
    have h0 := hfits 0 (by omega)
    simp only [mintSuccessively]
    constructor
    · rw [ih.1]
      simp only [MakeUniqueSymbolName]
      omega
    · rw [ih.2, List.range_succ_eq_map, List.map_cons, List.map_map]
      congr 1
      · simp only [MakeUniqueSymbolName, Nat.add_zero]
        exact printfBuffer_fits h0
      · apply List.map_congr_left
        intro j _
        simp only [MakeUniqueSymbolName, Function.comp]
        congr 1
        omega

set_option maxRecDepth 4000 in
/-- C23 as stated fails: with a stem of 70 characters the name does not fit the
64-character buffer.  The token gets the first 63 characters, not the stem followed
by `_5`, and two successive calls give the same name. -/
theorem long_stem_minting_counterexample :
    exampleLongStem.length = 70 ∧
    exampleEnvironment.nextFreeUniqueSymbolNum = 5 ∧
    (MakeUniqueSymbolName exampleEnvironment exampleLongStem Token.openParen).2.contents ≠
      exampleLongStem ++ "_" ++ Nat.repr 5 ∧
    (mintSuccessively exampleLongStem 2 exampleEnvironment).2 =
      [⟨List.replicate 63 'a'⟩, ⟨List.replicate 63 'a'⟩] :=
  ⟨by decide, by decide, by decide, by decide⟩

/-- C23, amended: global symbol minting for names that fit the buffer.
`MakeUniqueSymbolName` always makes the token a Symbol and increases the
environment counter `N` by exactly 1, leaving both maps as they are; when
`stem_N` has at most 63 characters, the contents are the stem, an underscore and
`N` in decimal.  When that holds for each of `k` successive calls, they leave the
counter at `N + k` and give the names with the suffixes `N, N+1, ..., N+k-1`, which
are pairwise distinct. -/
theorem unique_symbol_minting (environment : EvaluatorEnvironment) (stem : String)
    (tokenToChange : Token) (k : Nat)
    (hfits : ∀ j, j < k → FitsNameBuffer stem (environment.nextFreeUniqueSymbolNum + j)) :
    ((MakeUniqueSymbolName environment stem tokenToChange).2.type = TokenType.Symbol ∧
      (MakeUniqueSymbolName environment stem tokenToChange).1.nextFreeUniqueSymbolNum =
        environment.nextFreeUniqueSymbolNum + 1 ∧
      (MakeUniqueSymbolName environment stem tokenToChange).1.objectDefinitions =
        environment.objectDefinitions ∧
      (MakeUniqueSymbolName environment stem tokenToChange).1.compileTimeFunctionInfo =
        environment.compileTimeFunctionInfo ∧
      (FitsNameBuffer stem environment.nextFreeUniqueSymbolNum →
        (MakeUniqueSymbolName environment stem tokenToChange).2.contents =
          stem ++ "_" ++ Nat.repr environment.nextFreeUniqueSymbolNum)) ∧
    (mintSuccessively stem k environment).1.nextFreeUniqueSymbolNum =
      environment.nextFreeUniqueSymbolNum + k ∧
    (mintSuccessively stem k environment).2 =
      (List.range k).map
        (fun j => stem ++ "_" ++ Nat.repr (environment.nextFreeUniqueSymbolNum + j)) ∧
    (mintSuccessively stem k environment).2.Nodup := by
  obtain ⟨h1, h2⟩ := mintSuccessively_spec stem k environment hfits
  refine ⟨⟨rfl, rfl, rfl, rfl, fun hfit => printfBuffer_fits hfit⟩, h1, h2, ?_⟩
  rw [h2]
  apply List.Nodup.map _ (List.nodup_range k)
  intro a b hab
  have := uniqueSymbolText_injective hab
  omega

/-- Witness for the amended C23: three calls with the stem `tmp` from the counter
at 5 give `tmp_5`, `tmp_6`, `tmp_7` and leave the counter at 8. -/
theorem unique_symbol_minting_witness :
    (∀ j, j < 3 → FitsNameBuffer "tmp" (exampleEnvironment.nextFreeUniqueSymbolNum + j)) ∧
    (mintSuccessively "tmp" 3 exampleEnvironment).1.nextFreeUniqueSymbolNum =
      exampleEnvironment.nextFreeUniqueSymbolNum + 3 ∧
    (mintSuccessively "tmp" 3 exampleEnvironment).2 = ["tmp_5", "tmp_6", "tmp_7"] ∧
    (MakeUniqueSymbolName exampleEnvironment "tmp" Token.openParen).2 =
      ⟨TokenType.Symbol, "tmp_5"⟩ :=
  ⟨by decide,
    (unique_symbol_minting exampleEnvironment "tmp" Token.openParen 3 (by decide)).2.1,
    by decide, by decide⟩

set_option maxRecDepth 4000 in
/-- C24 as stated fails where C23 does: inside the definition `f`, whose counter is
at 7, a stem of 70 characters gives its first 63 characters, not the stem followed
by `_7`. -/
theorem long_stem_context_minting_counterexample :
    exampleContextInDefinition.definitionName = some (Token.symbol "f") ∧
    (exampleEnvironment.objectDefinitions "f").map
      (fun definition => definition.nextFreeUniqueSymbolNum) = some 7 ∧
    (MakeContextUniqueSymbolName exampleEnvironment exampleContextInDefinition exampleLongStem
        Token.openParen).2.contents ≠ exampleLongStem ++ "_" ++ Nat.repr 7 ∧
    (MakeContextUniqueSymbolName exampleEnvironment exampleContextInDefinition exampleLongStem
        Token.openParen).2.contents = ⟨List.replicate 63 'a'⟩ :=
  ⟨by decide, by decide, by decide, by decide⟩

/-- C24, amended: context-scoped minting uses and advances only the right counter.
When the context names a definition that the environment holds, with counter `M`,
`MakeContextUniqueSymbolName` makes the token a Symbol whose contents are what fits
the buffer of `stem_M`, the whole of it when it has at most 63 characters; it
increases that definition's counter by 1 and changes nothing else of it, and leaves
the environment counter, every other definition and the compile-time table as they
are.  Otherwise (no definition name, or no such definition) the token and the
environment are exactly what `MakeUniqueSymbolName` gives, and no definition
changes. -/
theorem context_minting_uses_definition_counter (environment : EvaluatorEnvironment)
    (context : EvaluatorContext) (stem : String) (tokenToChange : Token) :
    (∀ (definitionName : Token) (definition : ObjectDefinition),
      context.definitionName = some definitionName →
      environment.objectDefinitions definitionName.contents = some definition →
      (MakeContextUniqueSymbolName environment context stem tokenToChange).2.type =
          TokenType.Symbol ∧
        (MakeContextUniqueSymbolName environment context stem tokenToChange).2.contents =
          PrintfBuffer 64 (uniqueSymbolText stem definition.nextFreeUniqueSymbolNum) ∧
        (FitsNameBuffer stem definition.nextFreeUniqueSymbolNum →
          (MakeContextUniqueSymbolName environment context stem tokenToChange).2.contents =
            stem ++ "_" ++ Nat.repr definition.nextFreeUniqueSymbolNum) ∧
        (MakeContextUniqueSymbolName environment context stem
            tokenToChange).1.objectDefinitions definitionName.contents =
          some { definition with
            nextFreeUniqueSymbolNum := definition.nextFreeUniqueSymbolNum + 1 } ∧
        (MakeContextUniqueSymbolName environment context stem
            tokenToChange).1.nextFreeUniqueSymbolNum = environment.nextFreeUniqueSymbolNum ∧
        (∀ other, other ≠ definitionName.contents →
          (MakeContextUniqueSymbolName environment context stem
              tokenToChange).1.objectDefinitions other =
            environment.objectDefinitions other) ∧
        (MakeContextUniqueSymbolName environment context stem
            tokenToChange).1.compileTimeFunctionInfo = environment.compileTimeFunctionInfo) ∧
    ((context.definitionName = none ∨
        ∃ definitionName, context.definitionName = some definitionName ∧
          environment.objectDefinitions definitionName.contents = none) →
      MakeContextUniqueSymbolName environment context stem tokenToChange =
          MakeUniqueSymbolName environment stem tokenToChange ∧
        (MakeContextUniqueSymbolName environment context stem
            tokenToChange).1.objectDefinitions = environment.objectDefinitions) := by
  constructor
  · intro definitionName definition hname hfound
    have hre : MakeContextUniqueSymbolName environment context stem tokenToChange =
        ({ environment with
            objectDefinitions := fun name =>
              if name = definitionName.contents then
                some { definition with
                  nextFreeUniqueSymbolNum := definition.nextFreeUniqueSymbolNum + 1 }
              else environment.objectDefinitions name },
          { tokenToChange with
            type := TokenType.Symbol,
            contents :=
              PrintfBuffer 64 (uniqueSymbolText stem definition.nextFreeUniqueSymbolNum) }) := by
      unfold MakeContextUniqueSymbolName findObjectDefinition
      simp only [hname, hfound]
    rw [hre]
    refine ⟨rfl, rfl, fun hfit => printfBuffer_fits hfit, by simp, rfl, ?_, rfl⟩
    intro other hother
    simp [hother]
  · rintro (hnone | ⟨definitionName, hname, hmissing⟩)
    · have hre : MakeContextUniqueSymbolName environment context stem tokenToChange =
          MakeUniqueSymbolName environment stem tokenToChange := by
        unfold MakeContextUniqueSymbolName
        simp only [hnone]
      rw [hre]
      exact ⟨rfl, rfl⟩
    · have hre : MakeContextUniqueSymbolName environment context stem tokenToChange =
          MakeUniqueSymbolName environment stem tokenToChange := by
        unfold MakeContextUniqueSymbolName findObjectDefinition
        simp only [hname, hmissing]
      rw [hre]
      exact ⟨rfl, rfl⟩

/-- Witness for the amended C24: inside `f` the name is `tmp_7`, the counter of `f`
goes to 8 and the environment counter stays at 5; inside the unknown `g` the call
is the global one, `tmp_5`. -/
theorem context_minting_uses_definition_counter_witness :
    (exampleContextInDefinition.definitionName = some (Token.symbol "f") ∧
      exampleEnvironment.objectDefinitions (Token.symbol "f").contents =
        some ⟨ObjectType.Function, none, [], 7⟩ ∧
      FitsNameBuffer "tmp" 7) ∧
    (MakeContextUniqueSymbolName exampleEnvironment exampleContextInDefinition "tmp"
        Token.openParen).2.contents = "tmp" ++ "_" ++ Nat.repr 7 ∧
    (MakeContextUniqueSymbolName exampleEnvironment exampleContextInDefinition "tmp"
        Token.openParen).1.objectDefinitions "f" = some ⟨ObjectType.Function, none, [], 8⟩ ∧
    (MakeContextUniqueSymbolName exampleEnvironment exampleContextInDefinition "tmp"
        Token.openParen).1.nextFreeUniqueSymbolNum = 5 ∧
    MakeContextUniqueSymbolName exampleEnvironment exampleContextInUnknownDefinition "tmp"
        Token.openParen =
      MakeUniqueSymbolName exampleEnvironment "tmp" Token.openParen ∧
    (MakeContextUniqueSymbolName exampleEnvironment exampleContextInUnknownDefinition "tmp"
        Token.openParen).2 = ⟨TokenType.Symbol, "tmp_5"⟩ :=
  ⟨by decide,
    ((context_minting_uses_definition_counter exampleEnvironment exampleContextInDefinition
      "tmp" Token.openParen).1 (Token.symbol "f") ⟨ObjectType.Function, none, [], 7⟩ rfl
      (by decide)).2.2.1 (by decide),
    by decide, by decide,
    ((context_minting_uses_definition_counter exampleEnvironment
      exampleContextInUnknownDefinition "tmp" Token.openParen).2
      (Or.inr ⟨Token.symbol "g", rfl, by decide⟩)).1,
    by decide⟩

/-! ### Compile-time signature matching -/

theorem signature_loop_spec {tokens : List Token} {b : Nat} (hb : b < tokens.length) :
    ∀ (expected : List Token) (current : Nat), current + expected.length = b + 1 →
      CompileTimeFunctionSignatureMatches.loop tokens b expected current =
        .ok ((expected.dropLast.zip (tokens.drop current)).all
          (fun pair => signatureTokenMatches pair.1 pair.2))
  | [], _, _ => rfl
  | [e], current, h => by
    have hcur : current = b := by simpa using h
    rw [CompileTimeFunctionSignatureMatches.loop, if_pos hcur]
    rfl
  | e :: e1 :: rest, current, h => by
    have hlen : current + (e1 :: rest).length = b := by
      simp only [List.length_cons] at h ⊢
      omega
    have hne : ¬ (current = b) := by
      simp only [List.length_cons] at hlen
      omega
    have hcur : current < tokens.length := by omega
    obtain ⟨t, ht, hget⟩ := tokenAt_ok hcur
    have hdrop : tokens.drop current = t :: tokens.drop (current + 1) := by
      rw [List.drop_eq_getElem_cons hcur]
      congr 1
      exact (List.getElem?_eq_some_iff.1 hget).2
    have ih := signature_loop_spec hb (e1 :: rest) (current + 1) (by omega)
    rw [CompileTimeFunctionSignatureMatches.loop, if_neg hne, hdrop, List.dropLast_cons₂,
      List.zip_cons_cons, List.all_cons]
    by_cases hq : e.type = TokenType.Symbol ∧ firstChar e.contents = Char.ofNat 39
    · rw [if_pos hq, ih]
      simp [signatureTokenMatches, hq.1, hq.2]
    · rw [if_neg hq, ht, ok_bind]
      have hqb : (decide (e.type = TokenType.Symbol) &&
          decide (firstChar e.contents = Char.ofNat 39)) = false := by
        simpa using hq
      by_cases hm : e.type ≠ t.type ∨ e.contents ≠ t.contents
      · rw [if_pos hm]
        have hmb : (decide (e.type = t.type) && decide (e.contents = t.contents)) = false := by
          rcases hm with hm | hm <;> simp [hm]
        simp [signatureTokenMatches, hqb, hmb]
      · rw [if_neg hm, ih]
        have hm1 : e.type = t.type ∧ e.contents = t.contents := by
          constructor
          · by_contra hx; exact hm (Or.inl hx)
          · by_contra hx; exact hm (Or.inr hx)
        simp [signatureTokenMatches, hm1.1, hm1.2]

/-- What `CompileTimeFunctionSignatureMatches` computes for a registered, balanced
user argument list `a..b`: `true` exactly when the lengths agree and every expected
token but the last accepts the user token at its position. -/
theorem signature_match_all_but_last (store : TokenStore) (environment : EvaluatorEnvironment)
    (name : String) (buffer a b : Nat) (tokens expectedSignature : List Token)
    (hinfo : environment.compileTimeFunctionInfo name = some ⟨⟨buffer, a⟩⟩)
    (hstore : store[buffer]? = some tokens) (hrange : InvocationRange tokens a b) :
    CompileTimeFunctionSignatureMatches store environment name expectedSignature =
      .ok (decide (expectedSignature.length = b - a + 1) &&
        (expectedSignature.dropLast.zip (tokens.drop a)).all
          (fun pair => signatureTokenMatches pair.1 pair.2)) := by
  obtain ⟨_, _, _, hb⟩ := typeAt_eq_some hrange.2.2.1
  have hab : a < b := hrange.1
  unfold CompileTimeFunctionSignatureMatches
  simp only [hinfo, vector_of_getElem? hstore, ok_bind, findExpressionEnd_of_range hrange]
  by_cases hlen : expectedSignature.length = b - a + 1
  · have hint : ¬ (((b : Int) - (a : Int)) + 1 ≠ (expectedSignature.length : Int)) := by
      rw [hlen]; push_cast; omega
    rw [if_neg hint, signature_loop_spec hb expectedSignature a (by omega)]
    simp [hlen]
  · have hint : ((b : Int) - (a : Int)) + 1 ≠ (expectedSignature.length : Int) := by
      intro h
      apply hlen
      omega
    rw [if_pos hint]
    simp [hlen]

/-- C30, the code at the failing input: for the registered argument list `(x int)`
(a balanced span of four tokens) and the expected signature open paren, quoted name,
`int`, `extra`, also four tokens, the last expected token is not quoted and is not
the close paren the user wrote, and `CompileTimeFunctionSignatureMatches` returns
`true`: its loop stops when the user pointer reaches the last token, which is never
compared.  At every other position a mismatch is found: with `float` expected for
`int` the result is `false`, and the signature that fits gives `true`. -/
theorem signature_match_skips_last_token :
    InvocationRange exampleUserArguments 0 3 ∧
    exampleExpectedSignatureOpenEnded.length = exampleUserArguments.length ∧
    exampleExpectedSignatureOpenEnded[3]? = some (Token.symbol "extra") ∧
    exampleUserArguments[3]? = some Token.closeParen ∧
    signatureTokenMatches (Token.symbol "extra") Token.closeParen = false ∧
    CompileTimeFunctionSignatureMatches [exampleUserArguments] exampleCompileTimeEnvironment
      "square" exampleExpectedSignatureOpenEnded = .ok true ∧
    CompileTimeFunctionSignatureMatches [exampleUserArguments] exampleCompileTimeEnvironment
      "square" exampleExpectedSignature = .ok true ∧
    CompileTimeFunctionSignatureMatches [exampleUserArguments] exampleCompileTimeEnvironment
      "square"
      [Token.openParen, Token.symbol (String.mk [Char.ofNat 39, 'n']), Token.symbol "float",
        Token.closeParen] = .ok false :=
  ⟨by decide, by decide, by decide, by decide, by decide, by decide, by decide, by decide⟩

end Cakelisp
